import Mathlib

/-!
# Reaction SMILES loader (`reaction/src/rsmiles_loader.cpp`)

A shallow embedding of `RSmilesLoader` and the properties of its index
resolution, annotation block interpreter and fragment regrouping.

C++ `int` values are embedded as `Int`; array positions that the code only
ever uses as positions are `Nat`.  A thrown `Error` is the `error` side of
`Except`.
-/

namespace RSmilesLoader

/-- The failures of a load.  Each constructor names the `throw` it stands for. -/
inductive Error where
  /-- the message `"RSmilesLoader::_selectGroup(): Index out of range"` -/
  | OutOfRange
  /-- the messages `"colon expected after ..."` -/
  | MalformedDirective
  /-- the message `"unsupported radical number: %d"` -/
  | UnsupportedRadical (rad : Int)
  /-- the message `"only %d atoms found in pseudo-atoms $...$ block"` -/
  | CountMismatch (found : Int)
  /-- the message `"end of input while reading $...$ block"`, and a scanner read at the end
  of the input -/
  | UnexpectedEnd
  /-- the message `"internal: can not find edge"` -/
  | InternalEdgeLookupFailure
  /-- the message `"expected 'a' or 'b' after 'h', got '%c'"` -/
  | ExpectedAOrB (c : Char)
  /-- the scanner was asked for a number where no digit stands -/
  | NumberExpected
  /-- a failure raised inside the molecule parser -/
  | Collaborator (code : Nat)
  /-- an `Array` was accessed at a position outside `[0, size)` -/
  | InvalidIndex
  /-- a loop of the embedding was given too small a bound (never an outcome of the program) -/
  | Fuel
  deriving DecidableEq, Repr

instance instDecidableEqExcept {ε α : Type} [DecidableEq ε] [DecidableEq α] :
    DecidableEq (Except ε α)
  | .ok a, .ok b => if h : a = b then isTrue (by rw [h]) else isFalse (fun e => h (by cases e; rfl))
  | .error a, .error b =>
    if h : a = b then isTrue (by rw [h]) else isFalse (fun e => h (by cases e; rfl))
  | .ok _, .error _ => isFalse (fun e => by cases e)
  | .error _, .ok _ => isFalse (fun e => by cases e)

/-! ## Index resolver -/

/-- The method `RSmilesLoader::_selectGroupByPair`: the result is the returned group together
with the final values of the two reference parameters `lead_idx` and `idx`. -/
def _selectGroupByPair (lead_idx idx rcnt ccnt pcnt : Int) : Except Error (Nat × Int × Int) :=
  if lead_idx < rcnt then
    .ok (0, lead_idx, idx)
  else
    let lead_idx := lead_idx - rcnt
    let idx := idx - rcnt
    if lead_idx < ccnt then
      .ok (1, lead_idx, idx)
    else
      let lead_idx := lead_idx - ccnt
      let idx := idx - ccnt
      if lead_idx < pcnt then
        .ok (2, lead_idx, idx)
      else
        .error Error.OutOfRange

/-- The method `RSmilesLoader::_selectGroup`: the returned group and the final value of `idx`. -/
def _selectGroup (idx rcnt ccnt pcnt : Int) : Except Error (Nat × Int) :=
  let iidx := idx
  match _selectGroupByPair iidx idx rcnt ccnt pcnt with
  | .ok (group, _, idx) => .ok (group, idx)
  | .error e => .error e

/-- The pair `(group, local)` names a position of one of the three buckets. -/
def InBucket (r c p : Int) (g : Nat) (l : Int) : Prop :=
  0 ≤ l ∧ ((g = 0 ∧ l < r) ∨ (g = 1 ∧ l < c) ∨ (g = 2 ∧ l < p))

/-- The sizes of the groups that precede group `g`. -/
def precedingSize (r c : Int) (g : Nat) : Int :=
  match g with
  | 0 => 0
  | 1 => r
  | _ => r + c

/-! ## Collaborators

The scanner, the molecule classes, the molecule parser and the decomposer are
implemented outside `rsmiles_loader.cpp`.  They are embedded from their
interface as the loader uses it. -/

/-- Modelled from the spec: `Array<T>::operator[]` used for reading; `Array` is declared
in `base_cpp/array.h`.  A position outside the array stops the run with `InvalidIndex`. -/
def arrayGet {α : Type} (a : List α) (i : Nat) : Except Error α :=
  match a[i]? with
  | some x => .ok x
  | none => .error Error.InvalidIndex

/-- Modelled from the spec: `Array<T>::operator[]` used for writing (`a[i] = x`), with an
`int` position; `Array` is declared in `base_cpp/array.h`.  A position outside the array
stops the run with `InvalidIndex`. -/
def arraySet {α : Type} (a : List α) (i : Int) (x : α) : Except Error (List α) :=
  if 0 ≤ i ∧ i.toNat < a.length then .ok (a.set i.toNat x) else .error Error.InvalidIndex

/-- Modelled from the spec: the state of the `Scanner` (`base_cpp/scanner.h`) is the
input that has not been read yet. -/
abbrev Scanner := List Char

/-- Modelled from the spec: `Scanner::isEOF`. -/
def Scanner.isEOF (s : Scanner) : Bool := s.isEmpty

/-- Modelled from the spec: `Scanner::readChar`, which fails at the end of the input. -/
def Scanner.readChar (s : Scanner) : Except Error (Char × Scanner) :=
  match s with
  | [] => .error Error.UnexpectedEnd
  | c :: rest => .ok (c, rest)

/-- Modelled from the spec: `Scanner::lookNext`; `none` stands for the value returned
at the end of the input, which is no character. -/
def Scanner.lookNext (s : Scanner) : Option Char := s.head?

/-- Modelled from the spec: `Scanner::skip`. -/
def Scanner.skip (s : Scanner) (n : Nat) : Scanner := s.drop n

/-- The C library's `isdigit` applied to the result of `lookNext`. -/
def isdigit (c : Option Char) : Bool :=
  match c with
  | some c => c.isDigit
  | none => false

/-- The digits at the head of the input, accumulated in base ten. -/
def Scanner.readDigits : Scanner → Nat → Nat × Scanner
  | [], acc => (acc, [])
  | c :: rest, acc =>
    if c.isDigit then Scanner.readDigits rest (acc * 10 + (c.toNat - 48)) else (acc, c :: rest)

/-- Modelled from the spec: `Scanner::readUnsigned` reads the longest run of digits and
fails if there is none. -/
def Scanner.readUnsigned (s : Scanner) : Except Error (Nat × Scanner) :=
  if isdigit (Scanner.lookNext s) then .ok (Scanner.readDigits s 0) else .error Error.NumberExpected

/-- Modelled from the spec: `Scanner::readIntFix(1)` reads one character, a digit. -/
def Scanner.readIntFix1 (s : Scanner) : Except Error (Int × Scanner) :=
  match s with
  | [] => .error Error.UnexpectedEnd
  | c :: rest => if c.isDigit then .ok (((c.toNat - 48 : Nat) : Int), rest) else .error Error.NumberExpected

/-- Modelled from the spec: the radical constants of `molecule/base_molecule.h`. -/
inductive Radical where
  | RADICAL_SINGLET
  | RADICAL_DOUPLET
  | RADICAL_TRIPLET
  deriving DecidableEq, Repr

/-- Modelled from the spec: a `QueryMolecule::Atom` constraint tree.  `parsed` is a
constraint built by the molecule parser. -/
inductive QueryAtom where
  | parsed (tag : Nat)
  | ATOM_RADICAL (radical : Radical)
  | ATOM_PSEUDO (label : List Char)
  | und (a b : QueryAtom)
  deriving DecidableEq, Repr

/-- Modelled from the spec: one vertex of a `Molecule` (`plain`: what the parser built,
the radical and the pseudo-atom label) or of a `QueryMolecule` (`query`). -/
inductive Atom where
  | plain (number : Nat) (radical : Option Radical) (pseudo : Option (List Char))
  | query (q : QueryAtom)
  deriving DecidableEq, Repr

/-- Modelled from the spec: the stereocenter types of `MoleculeStereocenters`. -/
inductive StereoType where
  | ATOM_ANY
  | ATOM_ABS
  | ATOM_OR
  | ATOM_AND
  deriving DecidableEq, Repr

/-- Modelled from the spec: `MoleculeStereocenters` is specified by the calls made into
it only; the embedding records them. -/
inductive StereoCall where
  | add (atom_idx : Int) (type : StereoType) (group : Int) (inverse_pyramid : Bool)
  | setType (atom_idx : Int) (type : StereoType) (group : Int)
  deriving DecidableEq, Repr

/-- An edge of a graph (`Edge` of `graph/graph.h`; the field `end` is written `end_`). -/
structure Edge where
  beg : Nat
  end_ : Nat
  deriving DecidableEq, Repr

/-- Modelled from the spec: a `BaseMolecule`: vertices `0 .. vertexCount-1`, edges
`0 .. edgeCount-1`, and the calls made on its `stereocenters`. -/
structure BaseMolecule where
  atoms : List Atom
  edges : List Edge
  stereocenters : List StereoCall
  deriving DecidableEq, Repr

/-- Modelled from the spec: `BaseMolecule::vertexCount`. -/
def BaseMolecule.vertexCount (m : BaseMolecule) : Nat := m.atoms.length

/-- Modelled from the spec: `BaseMolecule::edgeCount`. -/
def BaseMolecule.edgeCount (m : BaseMolecule) : Nat := m.edges.length

/-- Modelled from the spec: `BaseMolecule::clear`, also the state of `new Molecule()`. -/
def BaseMolecule.clear : BaseMolecule := { atoms := [], edges := [], stereocenters := [] }

/-- Modelled from the spec: `Graph::findEdgeIndex(beg, end)`, the index of the edge that
joins the two vertices, `none` for the negative result "no such edge". -/
def BaseMolecule.findEdgeIndex (m : BaseMolecule) (b e : Nat) : Option Nat :=
  m.edges.findIdx? (fun x => (x.beg == b && x.end_ == e) || (x.beg == e && x.end_ == b))

/-- Modelled from the spec: `BaseMolecule::mergeWithMolecule(fragment, 0)`: the vertices
and edges of `fragment` are appended, the edges renumbered to the appended vertices. -/
def BaseMolecule.mergeWithMolecule (m fragment : BaseMolecule) : BaseMolecule :=
  { atoms := m.atoms ++ fragment.atoms
    edges := m.edges ++ fragment.edges.map
      (fun x => { beg := x.beg + m.atoms.length, end_ := x.end_ + m.atoms.length })
    stereocenters := m.stereocenters ++ fragment.stereocenters }

/-- An atom operation of `Molecule` or `QueryMolecule` at vertex `idx`. -/
def BaseMolecule.updateAtom (m : BaseMolecule) (idx : Int) (f : Atom → Atom) :
    Except Error BaseMolecule :=
  if idx < 0 then .error Error.InvalidIndex
  else
    match m.atoms[idx.toNat]? with
    | some a => .ok { m with atoms := m.atoms.set idx.toNat (f a) }
    | none => .error Error.InvalidIndex

/-- Modelled from the spec: `Molecule::setAtomRadical` on one vertex. -/
def Atom.setAtomRadical (radical : Radical) : Atom → Atom
  | .plain number _ pseudo => .plain number (some radical) pseudo
  | .query q => .query q

/-- Modelled from the spec: `Molecule::setPseudoAtom` on one vertex. -/
def Atom.setPseudoAtom (text : List Char) : Atom → Atom
  | .plain number radical _ => .plain number radical (some text)
  | .query q => .query q

/-- Modelled from the spec:
`qmol.resetAtom(idx, QueryMolecule::Atom::und(qmol.releaseAtom(idx), term))` on one vertex. -/
def Atom.und (term : QueryAtom) : Atom → Atom
  | .query q => .query (QueryAtom.und q term)
  | .plain number radical pseudo => .plain number radical pseudo

/-- The C string that `label.ptr()` denotes after `label.push(0)`: the characters
before the first NUL. -/
def cString (label : List Char) : List Char := label.takeWhile (fun c => c != Char.ofNat 0)

/-- Modelled from the spec: a `SmilesLoader` after `loadMolecule` or `loadQueryMolecule`:
the molecule it built, the `reaction_atom_mapping` array it filled, and the outcome its
`checkQueryAtoms` will have. -/
structure SmilesLoader where
  mol : BaseMolecule
  reaction_atom_mapping : List Int
  checkQueryAtoms : Except Error Unit

/-- Modelled from the spec: the molecule parser and the connected-component algorithm.
`loadMolecule ignore_closing_bond_direction_mismatch query text` parses one group text
(`inside_rsmiles` is always set); `decompose mol` lists, for each component, its
vertices in the order they take in the component molecule. -/
structure Collaborators where
  loadMolecule : Bool → Bool → List Char → Except Error SmilesLoader
  decompose : BaseMolecule → List (List Nat)

/-- Modelled from the spec: the copy of the subgraph of `mol` induced by the vertices
`mapping`, its vertices numbered by their position in `mapping`. -/
def inducedSubgraph (mol : BaseMolecule) (mapping : List Nat) : BaseMolecule :=
  { atoms := mapping.filterMap (fun a => mol.atoms[a]?)
    edges := mol.edges.filterMap (fun x =>
      if x.beg ∈ mapping ∧ x.end_ ∈ mapping then
        some { beg := mapping.indexOf x.beg, end_ := mapping.indexOf x.end_ }
      else none)
    stereocenters := [] }

/-- Modelled from the spec: `MoleculeDecomposer::buildComponentMolecule(j, fragment,
&mapping, 0)`: a copy of the subgraph induced by component `j` and the mapping from its
vertices to the vertices of the molecule. -/
def buildComponentMolecule (mol : BaseMolecule) (components : List (List Nat)) (j : Nat) :
    Except Error (BaseMolecule × List Nat) :=
  match components[j]? with
  | none => .error Error.InvalidIndex
  | some mapping => .ok (inducedSubgraph mol mapping, mapping)

/-- The three-element arrays `mols[]`, `aams[]`, `fragments[]`, `decomp[]`, `stereo[]`,
indexed by the group: 0 reactants, 1 catalysts, 2 products. -/
structure Groups (α : Type) where
  r : α
  c : α
  p : α
  deriving DecidableEq, Repr

/-- Element `g` of a three-element array. -/
def Groups.get {α : Type} (t : Groups α) (g : Nat) : α :=
  match g with
  | 0 => t.r
  | 1 => t.c
  | _ => t.p

/-- Assignment to element `g` of a three-element array. -/
def Groups.set {α : Type} (t : Groups α) (g : Nat) (x : α) : Groups α :=
  match g with
  | 0 => { t with r := x }
  | 1 => { t with c := x }
  | _ => { t with p := x }

/-! ## Annotation block interpreter -/

/-- The local variables of `_loadReaction` that the annotation block reads and changes:
the three group molecules (`rcnt`, `ctlt`, `prod`, with their stereocenters), the three
forwarding maps (`r_fragments`, `c_fragments`, `p_fragments`) and the highlighting data. -/
structure State where
  mols : Groups BaseMolecule
  fragments : Groups (List Int)
  have_highlighting : Bool
  hl_atoms : List Int
  hl_bonds : List Int
  deriving DecidableEq, Repr

/-- The call `_selectGroup(idx, rcnt->vertexCount(), ctlt->vertexCount(),
prod->vertexCount())`. -/
def selectAtom (mols : Groups BaseMolecule) (idx : Nat) : Except Error (Nat × Int) :=
  _selectGroup idx mols.r.vertexCount mols.c.vertexCount mols.p.vertexCount

/-- The loop `while (isdigit(_scanner.lookNext())) { idx = readUnsigned(); body;
if (lookNext() == ',') skip(1); }` shared by the directives `w`, `a`, `o`, `&`, `^` and
`h`; `body` is the part that differs. The first argument bounds the iterations. -/
def indexList (body : Nat → State → Except Error State) :
    Nat → Scanner → State → Except Error (Scanner × State)
  | 0, _, _ => .error Error.Fuel
  | fuel + 1, s, st =>
    if isdigit (Scanner.lookNext s) then
      match Scanner.readUnsigned s with
      | .error e => .error e
      | .ok (idx, s) =>
        match body idx st with
        | .error e => .error e
        | .ok st =>
          let s := if Scanner.lookNext s = some ',' then Scanner.skip s 1 else s
          indexList body fuel s st
    else .ok (s, st)

/-- The body of the `w`, `a`, `o` and `&` loops: resolve the atom and call the group's
stereocenters. `call` is `add(idx, ATOM_ANY, 0, false)` or `setType(idx, type, groupno)`. -/
def stereoBody (call : Int → StereoCall) (idx : Nat) (st : State) : Except Error State :=
  match selectAtom st.mols idx with
  | .error e => .error e
  | .ok (group, idx) =>
    let mol := st.mols.get group
    let mol := { mol with stereocenters := mol.stereocenters ++ [call idx] }
    .ok { st with mols := st.mols.set group mol }

/-- The body of the `^` loop. `_rxn` is the test `_rxn != 0`. -/
def radicalBody (_rxn : Bool) (radical : Radical) (idx : Nat) (st : State) :
    Except Error State :=
  match selectAtom st.mols idx with
  | .error e => .error e
  | .ok (group, idx) =>
    let op := if _rxn then Atom.setAtomRadical radical else Atom.und (QueryAtom.ATOM_RADICAL radical)
    match (st.mols.get group).updateAtom idx op with
    | .error e => .error e
    | .ok mol => .ok { st with mols := st.mols.set group mol }

/-- The body of the `h` loop: `hl_atoms[idx] = 1` or `hl_bonds[idx] = 1`. -/
def highlightBody (a : Bool) (idx : Nat) (st : State) : Except Error State :=
  if a then
    match arraySet st.hl_atoms idx 1 with
    | .error e => .error e
    | .ok hl => .ok { st with hl_atoms := hl }
  else
    match arraySet st.hl_bonds idx 1 with
    | .error e => .error e
    | .ok hl => .ok { st with hl_bonds := hl }

/-- The loop `while (_scanner.lookNext() == '.')` of the `f` directive, for the entry
whose first number is `idx`. The first argument bounds the iterations. -/
def leafLoop (idx : Nat) :
    Nat → Scanner → Groups (List Int) → Except Error (Scanner × Groups (List Int))
  | 0, _, _ => .error Error.Fuel
  | fuel + 1, s, fragments =>
    if Scanner.lookNext s = some '.' then
      let s := Scanner.skip s 1
      let idx1 : Int := idx
      match Scanner.readUnsigned s with
      | .error e => .error e
      | .ok (index_in_group, s) =>
        match _selectGroupByPair idx1 index_in_group
            fragments.r.length fragments.c.length fragments.p.length with
        | .error e => .error e
        | .ok (group, idx1, index_in_group) =>
          match arraySet (fragments.get group) index_in_group idx1 with
          | .error e => .error e
          | .ok fr => leafLoop idx fuel s (fragments.set group fr)
    else .ok (s, fragments)

/-- The loop `while (isdigit(_scanner.lookNext()))` of the `f` directive. The first
argument bounds the iterations. -/
def entryLoop :
    Nat → Scanner → Groups (List Int) → Except Error (Scanner × Groups (List Int))
  | 0, _, _ => .error Error.Fuel
  | fuel + 1, s, fragments =>
    if isdigit (Scanner.lookNext s) then
      match Scanner.readUnsigned s with
      | .error e => .error e
      | .ok (idx, s) =>
        match leafLoop idx (s.length + 1) s fragments with
        | .error e => .error e
        | .ok (s, fragments) =>
          let s := if Scanner.lookNext s = some ',' then Scanner.skip s 1 else s
          entryLoop fuel s fragments
    else .ok (s, fragments)

/-- The loop `while (1)` that reads one label of the `$` block: the result is the
terminator read last, the label and the scanner. -/
def readLabel : Scanner → List Char → Except Error (Char × List Char × Scanner)
  | [], _ => .error Error.UnexpectedEnd
  | c :: rest, label =>
    if c = ';' ∨ c = '$' then .ok (c, label, rest) else readLabel rest (label ++ [c])

/-- The loop `for (i = 0; i < k; i++)` of the `$` block, over the remaining values of `i`. -/
def pseudoLoop (_rxn : Bool) (k : Nat) :
    List Nat → Scanner → State → Except Error (Scanner × State)
  | [], s, st => .ok (s, st)
  | i :: is, s, st =>
    match readLabel s [] with
    | .error e => .error e
    | .ok (c, label, s) =>
      if c = '$' ∧ (i : Int) ≠ (k : Int) - 1 then .error (Error.CountMismatch ((i : Int) + 1))
      else if label.length > 0 then
        match selectAtom st.mols i with
        | .error e => .error e
        | .ok (group, idx) =>
          let op := if _rxn then Atom.setPseudoAtom (cString label)
                    else Atom.und (QueryAtom.ATOM_PSEUDO (cString label))
          match (st.mols.get group).updateAtom idx op with
          | .error e => .error e
          | .ok mol => pseudoLoop _rxn k is s { st with mols := st.mols.set group mol }
      else pseudoLoop _rxn k is s st

/-- The character that must be a colon: `if (_scanner.readChar() != ':') throw ...`. -/
def expectColon (s : Scanner) : Except Error Scanner :=
  match Scanner.readChar s with
  | .error e => .error e
  | .ok (c, s) => if c ≠ ':' then .error Error.MalformedDirective else .ok s

/-- The directive dispatch loop `while (1)` of the annotation block: the scanner stands
behind the opening `|`. The first argument bounds the iterations. -/
def directiveLoop (_rxn : Bool) : Nat → Scanner → State → Except Error (Scanner × State)
  | 0, _, _ => .error Error.Fuel
  | fuel + 1, s, st =>
    match Scanner.readChar s with
    | .error e => .error e
    | .ok (c, s) =>
      if c = '|' then .ok (s, st)
      else if c = 'w' then
        match expectColon s with
        | .error e => .error e
        | .ok s =>
          match indexList (stereoBody (fun idx => StereoCall.add idx StereoType.ATOM_ANY 0 false))
              (s.length + 1) s st with
          | .error e => .error e
          | .ok (s, st) => directiveLoop _rxn fuel s st
      else if c = 'a' then
        match expectColon s with
        | .error e => .error e
        | .ok s =>
          match indexList (stereoBody (fun idx => StereoCall.setType idx StereoType.ATOM_ABS 0))
              (s.length + 1) s st with
          | .error e => .error e
          | .ok (s, st) => directiveLoop _rxn fuel s st
      else if c = 'o' then
        match Scanner.readUnsigned s with
        | .error e => .error e
        | .ok (groupno, s) =>
          match expectColon s with
          | .error e => .error e
          | .ok s =>
            match indexList
                (stereoBody (fun idx => StereoCall.setType idx StereoType.ATOM_OR groupno))
                (s.length + 1) s st with
            | .error e => .error e
            | .ok (s, st) => directiveLoop _rxn fuel s st
      else if c = '&' then
        match Scanner.readUnsigned s with
        | .error e => .error e
        | .ok (groupno, s) =>
          match expectColon s with
          | .error e => .error e
          | .ok s =>
            match indexList
                (stereoBody (fun idx => StereoCall.setType idx StereoType.ATOM_AND groupno))
                (s.length + 1) s st with
            | .error e => .error e
            | .ok (s, st) => directiveLoop _rxn fuel s st
      else if c = '^' then
        match Scanner.readIntFix1 s with
        | .error e => .error e
        | .ok (rad, s) =>
          let radical : Except Error Radical :=
            if rad = 1 then .ok Radical.RADICAL_DOUPLET
            else if rad = 3 then .ok Radical.RADICAL_SINGLET
            else if rad = 4 then .ok Radical.RADICAL_TRIPLET
            else .error (Error.UnsupportedRadical rad)
          match radical with
          | .error e => .error e
          | .ok radical =>
            match expectColon s with
            | .error e => .error e
            | .ok s =>
              match indexList (radicalBody _rxn radical) (s.length + 1) s st with
              | .error e => .error e
              | .ok (s, st) => directiveLoop _rxn fuel s st
      else if c = 'f' then
        match expectColon s with
        | .error e => .error e
        | .ok s =>
          match entryLoop (s.length + 1) s st.fragments with
          | .error e => .error e
          | .ok (s, fragments) => directiveLoop _rxn fuel s { st with fragments := fragments }
      else if c = '$' then
        let k := st.mols.r.vertexCount + st.mols.c.vertexCount + st.mols.p.vertexCount
        match pseudoLoop _rxn k (List.range k) s st with
        | .error e => .error e
        | .ok (s, st) => directiveLoop _rxn fuel s st
      else if c = 'h' then
        let st := { st with have_highlighting := true }
        match Scanner.readChar s with
        | .error e => .error e
        | .ok (c, s) =>
          if c ≠ 'a' ∧ c ≠ 'b' then .error (Error.ExpectedAOrB c)
          else
            let a := decide (c = 'a')
            match expectColon s with
            | .error e => .error e
            | .ok s =>
              match indexList (highlightBody a) (s.length + 1) s st with
              | .error e => .error e
              | .ok (s, st) => directiveLoop _rxn fuel s st
      else directiveLoop _rxn fuel s st

/-! ## Fragment regrouper and reaction assembler -/

/-- One molecule of the reaction as the loader leaves it: the copy added by
`addReactantCopy`, `addCatalystCopy` or `addProductCopy`, its AAM array, and the
highlighting filters. `highlighted` tells whether the block
`if (have_highlighting && highlighting != 0)` ran for it. `components` is not data of the
program: it records the `j` of the `buildComponentMolecule` calls that built the molecule. -/
structure ReactionMolecule where
  mol : BaseMolecule
  aam : List Int
  hl_atoms_frag : List Int
  hl_bonds_frag : List Int
  highlighted : Bool
  components : List Nat
  deriving DecidableEq, Repr

/-- Vertex `k` is switched on by `onVertices(vfilter)`, the filter being
`hl_atoms_frag[k] != 0`. -/
def ReactionMolecule.atomHighlighted (m : ReactionMolecule) (k : Nat) : Bool :=
  m.highlighted && (match m.hl_atoms_frag[k]? with
    | some x => x != 0
    | none => false)

/-- Edge `k` is switched on by `onEdges(efilter)`, the filter being `hl_bonds_frag[k] != 0`. -/
def ReactionMolecule.bondHighlighted (m : ReactionMolecule) (k : Nat) : Bool :=
  m.highlighted && (match m.hl_bonds_frag[k]? with
    | some x => x != 0
    | none => false)

/-- The reaction under construction (`_brxn`): its reactants, catalysts and products. -/
abbrev BaseReaction := Groups (List ReactionMolecule)

/-- The data the regroup loop reads: the group molecules, their AAM arrays, their
decompositions, the highlight flags, and the value of
`have_highlighting && highlighting != 0`. -/
structure RegroupEnv where
  mols : Groups BaseMolecule
  aams : Groups (List Int)
  decomp : Groups (List (List Nat))
  hl_atoms : List Int
  hl_bonds : List Int
  highlight : Bool

/-- The sum `for (w = 0; w < v; w++) idx += mols[w]->ref().vertexCount()`. -/
def vertexOffset (mols : Groups BaseMolecule) (v : Nat) : Nat :=
  ((List.range v).map (fun w => (mols.get w).vertexCount)).sum

/-- The sum `for (w = 0; w < v; w++) idx += mols[w]->ref().edgeCount()`. -/
def edgeOffset (mols : Groups BaseMolecule) (v : Nat) : Nat :=
  ((List.range v).map (fun w => (mols.get w).edgeCount)).sum

/-- The molecule being accumulated: `mol`, `aam`, `hl_atoms_frag`, `hl_bonds_frag`, and
the record of the components merged so far. -/
structure Accum where
  mol : BaseMolecule
  aam : List Int
  hl_atoms_frag : List Int
  hl_bonds_frag : List Int
  components : List Nat
  deriving DecidableEq, Repr

/-- The state after `mol->clear(); aam.clear(); hl_atoms_frag.clear(); hl_bonds_frag.clear()`. -/
def Accum.clear : Accum :=
  { mol := BaseMolecule.clear, aam := [], hl_atoms_frag := [], hl_bonds_frag := [],
    components := [] }

/-- The loop `for (k = 0; k < fragment->vertexCount(); k++)`, over the remaining `k`. -/
def vertexLoop (env : RegroupEnv) (v : Nat) (mapping : List Nat) :
    List Nat → Accum → Except Error Accum
  | [], acc => .ok acc
  | k :: ks, acc =>
    match arrayGet mapping k with
    | .error e => .error e
    | .ok a =>
      match arrayGet (env.aams.get v) a with
      | .error e => .error e
      | .ok m =>
        let idx := a + vertexOffset env.mols v
        match arrayGet env.hl_atoms idx with
        | .error e => .error e
        | .ok h =>
          vertexLoop env v mapping ks
            { acc with aam := acc.aam ++ [m], hl_atoms_frag := acc.hl_atoms_frag ++ [h] }

/-- The loop `for (k = 0; k < fragment->edgeCount(); k++)`, over the remaining `k`. -/
def edgeLoop (env : RegroupEnv) (v : Nat) (fragment : BaseMolecule) (mapping : List Nat) :
    List Nat → Accum → Except Error Accum
  | [], acc => .ok acc
  | k :: ks, acc =>
    match arrayGet fragment.edges k with
    | .error e => .error e
    | .ok edge =>
      match arrayGet mapping edge.beg with
      | .error e => .error e
      | .ok b =>
        match arrayGet mapping edge.end_ with
        | .error e => .error e
        | .ok e =>
          match (env.mols.get v).findEdgeIndex b e with
          | none => .error Error.InternalEdgeLookupFailure
          | some idx =>
            let idx := idx + edgeOffset env.mols v
            match arrayGet env.hl_bonds idx with
            | .error e => .error e
            | .ok h =>
              edgeLoop env v fragment mapping ks
                { acc with hl_bonds_frag := acc.hl_bonds_frag ++ [h] }

/-- The body of `if ((*fragments[v])[j] == i)` behind the assignment of `-1`: component
`j` is built and merged into the accumulated molecule, and its AAM values and highlight
flags are appended. -/
def appendComponent (env : RegroupEnv) (v : Nat) (j : Nat) (acc : Accum) : Except Error Accum :=
  match buildComponentMolecule (env.mols.get v) (env.decomp.get v) j with
  | .error e => .error e
  | .ok (fragment, mapping) =>
    let acc := { acc with mol := acc.mol.mergeWithMolecule fragment,
                          components := acc.components ++ [j] }
    match vertexLoop env v mapping (List.range fragment.vertexCount) acc with
    | .error e => .error e
    | .ok acc => edgeLoop env v fragment mapping (List.range fragment.edgeCount) acc

/-- The loop `for (j = i; j < fragments[v]->size(); j++)`, over the remaining `j`; the
forwarding map of the group is passed along. -/
def componentLoop (env : RegroupEnv) (v : Nat) (i : Nat) :
    List Nat → List Int → Accum → Except Error (List Int × Accum)
  | [], fragments_v, acc => .ok (fragments_v, acc)
  | j :: js, fragments_v, acc =>
    match arrayGet fragments_v j with
    | .error e => .error e
    | .ok f =>
      if f = (i : Int) then
        match arraySet fragments_v j (-1) with
        | .error e => .error e
        | .ok fragments_v =>
          match appendComponent env v j acc with
          | .error e => .error e
          | .ok acc => componentLoop env v i js fragments_v acc
      else componentLoop env v i js fragments_v acc

/-- The end of one pass of the `i` loop: the accumulated molecule is copied into the
bucket of group `v`, with its AAM array and its highlighting. -/
def addMoleculeCopy (env : RegroupEnv) (v : Nat) (acc : Accum) (brxn : BaseReaction) :
    BaseReaction :=
  brxn.set v (brxn.get v ++
    [{ mol := acc.mol, aam := acc.aam, hl_atoms_frag := acc.hl_atoms_frag,
       hl_bonds_frag := acc.hl_bonds_frag, highlighted := env.highlight,
       components := acc.components }])

/-- The loop `for (i = 0; i < fragments[v]->size(); i++)`, over the remaining `i`. -/
def leadLoop (env : RegroupEnv) (v : Nat) :
    List Nat → List Int → BaseReaction → Except Error (List Int × BaseReaction)
  | [], fragments_v, brxn => .ok (fragments_v, brxn)
  | i :: is, fragments_v, brxn =>
    match arrayGet fragments_v i with
    | .error e => .error e
    | .ok f =>
      if f = -1 then leadLoop env v is fragments_v brxn
      else
        match componentLoop env v i (List.range' i (fragments_v.length - i)) fragments_v
            Accum.clear with
        | .error e => .error e
        | .ok (fragments_v, acc) =>
          leadLoop env v is fragments_v (addMoleculeCopy env v acc brxn)

/-- One pass of the loop `for (int v = 0; v < 3; ++v)`. -/
def regroupGroup (env : RegroupEnv) (v : Nat) (fragments : Groups (List Int))
    (brxn : BaseReaction) : Except Error (Groups (List Int) × BaseReaction) :=
  match leadLoop env v (List.range (fragments.get v).length) (fragments.get v) brxn with
  | .error e => .error e
  | .ok (fragments_v, brxn) => .ok (fragments.set v fragments_v, brxn)

/-- The loop `for (int v = 0; v < 3; ++v)`, over the remaining `v`. -/
def regroup (env : RegroupEnv) :
    List Nat → Groups (List Int) → BaseReaction → Except Error (Groups (List Int) × BaseReaction)
  | [], fragments, brxn => .ok (fragments, brxn)
  | v :: vs, fragments, brxn =>
    match regroupGroup env v fragments brxn with
    | .error e => .error e
    | .ok (fragments, brxn) => regroup env vs fragments brxn

/-! ## The loader -/

/-- The loops `while (1) { c = readChar(); if (c == '>') break; buf.push(c); }` that read
the reactants and the catalysts. -/
def readGroup : Scanner → List Char → Except Error (List Char × Scanner)
  | [], _ => .error Error.UnexpectedEnd
  | c :: rest, buf => if c = '>' then .ok (buf, rest) else readGroup rest (buf ++ [c])

/-- The loop `while (!_scanner.isEOF())` that reads the products: the text, `vbar`, and
the scanner. -/
def readProducts : Scanner → List Char → List Char × Bool × Scanner
  | [], buf => (buf, false, [])
  | c :: rest, buf => if c = '|' then (buf, true, rest) else readProducts rest (buf ++ [c])

/-- The first part of `_loadReaction`: the three group texts are read and parsed in turn.
The result is the three loaders, `vbar` and the scanner. -/
def loadGroups (ext : Collaborators) (ignore_closing_bond_direction_mismatch _rxn : Bool)
    (scanner : Scanner) : Except Error (Groups SmilesLoader × Bool × Scanner) :=
  match readGroup scanner [] with
  | .error e => .error e
  | .ok (buf, scanner) =>
    match ext.loadMolecule ignore_closing_bond_direction_mismatch (!_rxn) buf with
    | .error e => .error e
    | .ok r_loader =>
      match readGroup scanner [] with
      | .error e => .error e
      | .ok (buf, scanner) =>
        match ext.loadMolecule ignore_closing_bond_direction_mismatch (!_rxn) buf with
        | .error e => .error e
        | .ok c_loader =>
          match readProducts scanner [] with
          | (buf, vbar, scanner) =>
            match ext.loadMolecule ignore_closing_bond_direction_mismatch (!_rxn) buf with
            | .error e => .error e
            | .ok p_loader => .ok ({ r := r_loader, c := c_loader, p := p_loader }, vbar, scanner)

/-- The forwarding map after `clear_resize(ncomp)` and the loop `fragments[i] = i`. -/
def identityFragments (ncomp : Nat) : List Int :=
  (List.range ncomp).map (fun (i : Nat) => (i : Int))

/-- The state of the local variables before the annotation block is looked at. -/
def initialState (mols : Groups BaseMolecule) (decomp : Groups (List (List Nat))) : State :=
  { mols := mols
    fragments := { r := identityFragments decomp.r.length, c := identityFragments decomp.c.length,
                   p := identityFragments decomp.p.length }
    have_highlighting := false
    hl_atoms := List.replicate (mols.r.vertexCount + mols.c.vertexCount + mols.p.vertexCount) 0
    hl_bonds := List.replicate (mols.r.edgeCount + mols.c.edgeCount + mols.p.edgeCount) 0 }

/-- The block `if (vbar) { ... }`. -/
def annotationBlock (_rxn vbar : Bool) (scanner : Scanner) (st : State) :
    Except Error (Scanner × State) :=
  if vbar then directiveLoop _rxn (scanner.length + 1) scanner st else .ok (scanner, st)

/-- The block `if (_rxn != 0) { r_loader.checkQueryAtoms(); c_loader.checkQueryAtoms();
p_loader.checkQueryAtoms(); }`. -/
def checkQueryAtoms (_rxn : Bool) (loaders : Groups SmilesLoader) : Except Error Unit :=
  if _rxn then
    match loaders.r.checkQueryAtoms with
    | .error e => .error e
    | .ok _ =>
      match loaders.c.checkQueryAtoms with
      | .error e => .error e
      | .ok _ => loaders.p.checkQueryAtoms
  else .ok ()

/-- The array `mols[] = {&rcnt, &ctlt, &prod}` as the three loaders fill it. -/
def groupMols (loaders : Groups SmilesLoader) : Groups BaseMolecule :=
  { r := loaders.r.mol, c := loaders.c.mol, p := loaders.p.mol }

/-- The array `aams[] = {&rcnt_aam, &ctlt_aam, &prod_aam}` as the three loaders fill it. -/
def groupAams (loaders : Groups SmilesLoader) : Groups (List Int) :=
  { r := loaders.r.reaction_atom_mapping, c := loaders.c.reaction_atom_mapping,
    p := loaders.p.reaction_atom_mapping }

/-- The array `decomp[]` after the three calls of `decompose()`. -/
def groupDecomp (ext : Collaborators) (loaders : Groups SmilesLoader) :
    Groups (List (List Nat)) :=
  { r := ext.decompose loaders.r.mol, c := ext.decompose loaders.c.mol,
    p := ext.decompose loaders.p.mol }

/-- The data the regroup loop reads, taken from the state behind the annotation block. -/
def regroupEnv (ext : Collaborators) (loaders : Groups SmilesLoader) (st : State)
    (highlighting : Bool) : RegroupEnv :=
  { mols := st.mols, aams := groupAams loaders, decomp := groupDecomp ext loaders,
    hl_atoms := st.hl_atoms, hl_bonds := st.hl_bonds,
    highlight := st.have_highlighting && highlighting }

/-- The method `RSmilesLoader::_loadReaction`. `highlighting` is the test `highlighting != 0`
and `_rxn` the test `_rxn != 0`; the result is the reaction `_brxn`. -/
def _loadReaction (ext : Collaborators) (highlighting ignore_closing_bond_direction_mismatch
    _rxn : Bool) (scanner : Scanner) : Except Error BaseReaction :=
  match loadGroups ext ignore_closing_bond_direction_mismatch _rxn scanner with
  | .error e => .error e
  | .ok (loaders, vbar, scanner) =>
    match annotationBlock _rxn vbar scanner
        (initialState (groupMols loaders) (groupDecomp ext loaders)) with
    | .error e => .error e
    | .ok (_, st) =>
      match checkQueryAtoms _rxn loaders with
      | .error e => .error e
      | .ok _ =>
        match regroup (regroupEnv ext loaders st highlighting) [0, 1, 2] st.fragments
            { r := [], c := [], p := [] } with
        | .error e => .error e
        | .ok (_, brxn) => .ok brxn

/-- The method `RSmilesLoader::loadReaction`: `_rxn` is set. -/
def loadReaction (ext : Collaborators) (highlighting ignore_closing_bond_direction_mismatch : Bool)
    (scanner : Scanner) : Except Error BaseReaction :=
  _loadReaction ext highlighting ignore_closing_bond_direction_mismatch true scanner

/-- The method `RSmilesLoader::loadQueryReaction`: `_rxn` is null. -/
def loadQueryReaction (ext : Collaborators) (highlighting
    ignore_closing_bond_direction_mismatch : Bool) (scanner : Scanner) :
    Except Error BaseReaction :=
  _loadReaction ext highlighting ignore_closing_bond_direction_mismatch false scanner

/-! ## The regrouping in the words of the specification -/

/-- A forwarding map is well formed when every entry is the index of a lead that is not
behind the entry, a lead being an index that maps to itself. -/
def WellFormed (fr : List Int) : Prop :=
  ∀ j, j < fr.length →
    0 ≤ fr.getD j 0 ∧ (fr.getD j 0).toNat ≤ j ∧ fr.getD (fr.getD j 0).toNat 0 = fr.getD j 0

instance instDecidableWellFormed (fr : List Int) : Decidable (WellFormed fr) := by
  unfold WellFormed
  infer_instance

/-- The leads of a forwarding map, ascending. -/
def leads (fr : List Int) : List Nat :=
  (List.range fr.length).filter (fun i => fr[i]? == some (i : Int))

/-- The components forwarded to `i`, ascending. -/
def members (fr : List Int) (i : Nat) : List Nat :=
  (List.range fr.length).filter (fun j => fr[j]? == some (i : Int))

/-- The highlight flag the edge loop reads for an edge of a component molecule. -/
def bondFlag (env : RegroupEnv) (v : Nat) (mapping : List Nat) (edge : Edge) : Int :=
  env.hl_bonds.getD
    (((env.mols.get v).findEdgeIndex (mapping.getD edge.beg 0) (mapping.getD edge.end_ 0)).getD 0
      + edgeOffset env.mols v) 0

/-- The accumulated molecule with component `j` appended: the induced subgraph is merged
in, the AAM values and the highlight flags of its atoms and bonds are appended. -/
def appended (env : RegroupEnv) (v : Nat) (j : Nat) (acc : Accum) : Accum :=
  let mapping := (env.decomp.get v).getD j []
  let fragment := inducedSubgraph (env.mols.get v) mapping
  { mol := acc.mol.mergeWithMolecule fragment
    aam := acc.aam ++ mapping.map (fun a => (env.aams.get v).getD a 0)
    hl_atoms_frag := acc.hl_atoms_frag ++
      mapping.map (fun a => env.hl_atoms.getD (a + vertexOffset env.mols v) 0)
    hl_bonds_frag := acc.hl_bonds_frag ++ fragment.edges.map (bondFlag env v mapping)
    components := acc.components ++ [j] }

/-- The components `js` appended in turn to an accumulated molecule. -/
def assembled (env : RegroupEnv) (v : Nat) (js : List Nat) (acc : Accum) : Accum :=
  js.foldl (fun acc j => appended env v j acc) acc

/-- The forwarding map with the entries `js` marked as consumed. -/
def consume (fr : List Int) (js : List Nat) : List Int :=
  js.foldl (fun fr j => fr.set j (-1)) fr

/-- The forwarding map with the entries marked as consumed that forward to a lead below
`i`. -/
def consumedBelow (fr : List Int) (i : Nat) : List Int :=
  fr.map (fun x => if x < (i : Int) then -1 else x)

/-- The molecule that the regrouper adds for the components `js`. -/
def finalMolecule (env : RegroupEnv) (v : Nat) (js : List Nat) : ReactionMolecule :=
  let acc := assembled env v js Accum.clear
  { mol := acc.mol, aam := acc.aam, hl_atoms_frag := acc.hl_atoms_frag,
    hl_bonds_frag := acc.hl_bonds_frag, highlighted := env.highlight,
    components := acc.components }

/-- The atoms of group `v` that the components `js` consist of, in the order in which
the components' atoms are appended. -/
def origins (env : RegroupEnv) (v : Nat) (js : List Nat) : List Nat :=
  js.flatMap (fun j => (env.decomp.get v).getD j [])

/-- The data the regroup loop reads fits together for group `v`: the components list
atoms of the group molecule, the AAM array has an entry for every atom, and the highlight
arrays reach over the atoms and bonds of the group. -/
def EnvOk (env : RegroupEnv) (v : Nat) : Prop :=
  (∀ comp ∈ env.decomp.get v, ∀ a ∈ comp, a < (env.mols.get v).vertexCount) ∧
  (env.mols.get v).vertexCount ≤ (env.aams.get v).length ∧
  vertexOffset env.mols v + (env.mols.get v).vertexCount ≤ env.hl_atoms.length ∧
  edgeOffset env.mols v + (env.mols.get v).edgeCount ≤ env.hl_bonds.length

instance instDecidableEnvOk (env : RegroupEnv) (v : Nat) : Decidable (EnvOk env v) := by
  unfold EnvOk
  infer_instance

/-- The components are a decomposition of the molecule: every atom lies in exactly one
component, and so does every bond, with both its ends. -/
def IsDecomposition (mol : BaseMolecule) (components : List (List Nat)) : Prop :=
  components.flatten.Perm (List.range mol.vertexCount) ∧
  ∀ x ∈ mol.edges,
    components.countP (fun comp => decide (x.beg ∈ comp ∧ x.end_ ∈ comp)) = 1

instance instDecidableIsDecomposition (mol : BaseMolecule) (components : List (List Nat)) :
    Decidable (IsDecomposition mol components) :=
  inferInstanceAs (Decidable (_ ∧ _))

/-! ## The text of a directive -/

/-- The decimal numeral of a number, as it is written in a directive. -/
def decimal (n : Nat) : List Char := Nat.toDigits 10 n

/-- The text of a comma-separated index list. -/
def indexText : List Nat → List Char
  | [] => []
  | [g] => decimal g
  | g :: gs => decimal g ++ ',' :: indexText gs

/-- The text of the leaves `.x1.x2...` of an `f` entry. -/
def leafText : List Nat → List Char
  | [] => []
  | x :: xs => '.' :: (decimal x ++ leafText xs)

/-- The text of the labels of a `$` block, each label followed by `;`. -/
def labelText : List (List Char) → List Char
  | [] => []
  | l :: ls => l ++ ';' :: labelText ls

/-- The highlight flags after the indices `gs` have been listed by `h` directives. -/
def flagged (hl : List Int) (gs : List Nat) : List Int :=
  gs.foldl (fun (hl : List Int) (g : Nat) => hl.set g 1) hl

/-- The global atom sequence: the atoms of the three group molecules, in group order. -/
def allAtoms (mols : Groups BaseMolecule) : List Atom :=
  mols.r.atoms ++ (mols.c.atoms ++ mols.p.atoms)

/-- The operation of the `$` block on the atom that gets the label `label`. -/
def pseudoOp (_rxn : Bool) (label : List Char) : Atom → Atom :=
  if _rxn then Atom.setPseudoAtom (cString label)
  else Atom.und (QueryAtom.ATOM_PSEUDO (cString label))

/-- The global atom sequence after the labels `ls` have been given to the atoms
`i0, i0 + 1, ...`: an atom with a non-empty label gets it, an atom with an empty label
stays as it is. -/
def labelAtoms (_rxn : Bool) : List Atom → Nat → List (List Char) → List Atom
  | atoms, _, [] => atoms
  | atoms, i0, l :: ls =>
    labelAtoms _rxn
      (if l.length > 0 then
        match atoms[i0]? with
        | some a => atoms.set i0 (pseudoOp _rxn l a)
        | none => atoms
       else atoms) (i0 + 1) ls

/-- Two states differ in the atoms of the group molecules at most: the bonds, the
stereocenter calls and the atom counts of the molecules, the forwarding maps and the
highlighting data are the same. -/
def SameButAtoms (st st' : State) : Prop :=
  st'.fragments = st.fragments ∧ st'.have_highlighting = st.have_highlighting ∧
  st'.hl_atoms = st.hl_atoms ∧ st'.hl_bonds = st.hl_bonds ∧
  ∀ g, (st'.mols.get g).edges = (st.mols.get g).edges ∧
    (st'.mols.get g).stereocenters = (st.mols.get g).stereocenters ∧
    (st'.mols.get g).atoms.length = (st.mols.get g).atoms.length

/-! ## Single-level forwarding -/

/-- The text of the entries of an `f` directive, separated by commas; an entry is its
first number and its leaves. -/
def entriesText : List (Nat × List Nat) → List Char
  | [] => []
  | [e] => decimal e.1 ++ leafText e.2
  | e :: es => decimal e.1 ++ (leafText e.2 ++ ',' :: entriesText es)

/-- Every entry of the map points directly at a lead: `map[map[i]] = map[i]`. -/
def SingleLevel (m : List Int) : Prop :=
  ∀ i, i < m.length → 0 ≤ m.getD i 0 ∧ m.getD (m.getD i 0).toNat 0 = m.getD i 0

instance instDecidableSingleLevel (m : List Int) : Decidable (SingleLevel m) := by
  unfold SingleLevel
  infer_instance

/-- The forwarding map `m` of a group whose components start at the global index `off`
forwards to the components `lds` only: a component of `lds` maps to itself, and every
component maps to itself or to a component of `lds`. -/
def ForwardsTo (lds : List Nat) (off : Nat) (m : List Int) : Prop :=
  (∀ l : Nat, l < m.length → l + off ∈ lds → m[l]? = some (l : Int)) ∧
  ∀ i : Nat, i < m.length → m[i]? = some (i : Int) ∨
    ∃ l : Nat, l < m.length ∧ l + off ∈ lds ∧ m[i]? = some (l : Int)

/-- The three forwarding maps forward to the components `lds` only. -/
def MapsForwardTo (lds : List Nat) (fragments : Groups (List Int)) : Prop :=
  ForwardsTo lds 0 fragments.r ∧ ForwardsTo lds fragments.r.length fragments.c ∧
  ForwardsTo lds (fragments.r.length + fragments.c.length) fragments.p

/-- The group of the global component index `i`, for the component counts `r` and `c` of
the first two groups. -/
def bucketOf (r c i : Nat) : Nat :=
  if i < r then 0 else if i < r + c then 1 else 2

/-- The entries name components of `lds` as their first numbers and components outside
`lds` as their leaves, every number is below the total component count, and the leaves
of an entry lie in the group of its first number. -/
def EntriesOk (lds : List Nat) (r c p : Nat) (es : List (Nat × List Nat)) : Prop :=
  ∀ e ∈ es, e.1 ∈ lds ∧ e.1 < r + c + p ∧
    ∀ x ∈ e.2, x ∉ lds ∧ x < r + c + p ∧ bucketOf r c x = bucketOf r c e.1

instance instDecidableEntriesOk (lds : List Nat) (r c p : Nat) (es : List (Nat × List Nat)) :
    Decidable (EntriesOk lds r c p es) := by
  unfold EntriesOk
  infer_instance

/-! ## The scans of the group texts -/

/-- The three scans of `_loadReaction` (reactants up to `>`, catalysts up to `>`, products
up to `|` or the end of the input) one after the other, without the parsers that run
between them: the three texts, `vbar`, and the scanner. -/
def splitGroups (scanner : Scanner) :
    Except Error (List Char × List Char × List Char × Bool × Scanner) :=
  match readGroup scanner [] with
  | .error e => .error e
  | .ok (rbuf, scanner) =>
    match readGroup scanner [] with
    | .error e => .error e
    | .ok (cbuf, scanner) =>
      match readProducts scanner [] with
      | (pbuf, vbar, scanner) => .ok (rbuf, cbuf, pbuf, vbar, scanner)

/-- The three parser runs of `_loadReaction` on the texts of the reactants, the catalysts
and the products, in this order. -/
def parseGroups (ext : Collaborators) (ignore_closing_bond_direction_mismatch _rxn : Bool)
    (rbuf cbuf pbuf : List Char) : Except Error (Groups SmilesLoader) :=
  match ext.loadMolecule ignore_closing_bond_direction_mismatch (!_rxn) rbuf with
  | .error e => .error e
  | .ok r_loader =>
    match ext.loadMolecule ignore_closing_bond_direction_mismatch (!_rxn) cbuf with
    | .error e => .error e
    | .ok c_loader =>
      match ext.loadMolecule ignore_closing_bond_direction_mismatch (!_rxn) pbuf with
      | .error e => .error e
      | .ok p_loader => .ok { r := r_loader, c := c_loader, p := p_loader }

/-! ## One directive -/

/-- The radical that the `^` directive takes from the number read behind `^`. -/
def radicalOfInt (rad : Int) : Except Error Radical :=
  if rad = 1 then .ok Radical.RADICAL_DOUPLET
  else if rad = 3 then .ok Radical.RADICAL_SINGLET
  else if rad = 4 then .ok Radical.RADICAL_TRIPLET
  else .error (Error.UnsupportedRadical rad)

/-- The part of a directive behind its letter and number: the colon and the index list. -/
def colonList (body : Nat → State → Except Error State) (s : Scanner) (st : State) :
    Except Error (Scanner × State) :=
  match expectColon s with
  | .error e => .error e
  | .ok s => indexList body (s.length + 1) s st

/-- One pass of the dispatch loop for a character `c` other than the closing `|`: the
branch of the `if ... else if ...` chain that `c` selects, up to the point where the loop
starts over. The result is the scanner and the state with which it starts over. -/
def directive (_rxn : Bool) (c : Char) (s : Scanner) (st : State) :
    Except Error (Scanner × State) :=
  if c = 'w' then
    colonList (stereoBody (fun idx => StereoCall.add idx StereoType.ATOM_ANY 0 false)) s st
  else if c = 'a' then
    colonList (stereoBody (fun idx => StereoCall.setType idx StereoType.ATOM_ABS 0)) s st
  else if c = 'o' then
    match Scanner.readUnsigned s with
    | .error e => .error e
    | .ok (groupno, s) =>
      colonList (stereoBody (fun idx => StereoCall.setType idx StereoType.ATOM_OR groupno)) s st
  else if c = '&' then
    match Scanner.readUnsigned s with
    | .error e => .error e
    | .ok (groupno, s) =>
      colonList (stereoBody (fun idx => StereoCall.setType idx StereoType.ATOM_AND groupno)) s st
  else if c = '^' then
    match Scanner.readIntFix1 s with
    | .error e => .error e
    | .ok (rad, s) =>
      match radicalOfInt rad with
      | .error e => .error e
      | .ok radical => colonList (radicalBody _rxn radical) s st
  else if c = 'f' then
    match expectColon s with
    | .error e => .error e
    | .ok s =>
      match entryLoop (s.length + 1) s st.fragments with
      | .error e => .error e
      | .ok (s, fragments) => .ok (s, { st with fragments := fragments })
  else if c = '$' then
    pseudoLoop _rxn (st.mols.r.vertexCount + st.mols.c.vertexCount + st.mols.p.vertexCount)
      (List.range (st.mols.r.vertexCount + st.mols.c.vertexCount + st.mols.p.vertexCount)) s st
  else if c = 'h' then
    match Scanner.readChar s with
    | .error e => .error e
    | .ok (c, s) =>
      if c ≠ 'a' ∧ c ≠ 'b' then .error (Error.ExpectedAOrB c)
      else colonList (highlightBody (decide (c = 'a'))) s { st with have_highlighting := true }
  else .ok (s, st)

/-- The state after one index `g` of the `^` loop: the state that `radicalBody` returns,
and the state as it is when `radicalBody` fails. -/
def radicalStep (_rxn : Bool) (radical : Radical) (g : Nat) (st : State) : State :=
  match radicalBody _rxn radical g st with
  | .ok st' => st'
  | .error _ => st

/-! ## Example collaborators

A small molecule parser and decomposer, used to run the loader on concrete inputs: every
character other than `.` is an atom, neighbouring atoms are bonded, and `.` starts a new
component. -/

/-- The atoms and bonds of a group text; `prev` tells whether the last character was an atom. -/
def exampleParse : List Char → Bool → BaseMolecule → BaseMolecule
  | [], _, m => m
  | ch :: rest, prev, m =>
    if ch = '.' then exampleParse rest false m
    else
      let n := m.atoms.length
      exampleParse rest true
        { m with atoms := m.atoms ++ [Atom.plain ch.toNat none none]
                 edges := if prev then m.edges ++ [{ beg := n - 1, end_ := n }] else m.edges }

/-- The same parse in query mode: every atom is a query atom. -/
def exampleQuery (m : BaseMolecule) : BaseMolecule :=
  { m with atoms := m.atoms.map (fun a =>
      match a with
      | .plain number _ _ => Atom.query (QueryAtom.parsed number)
      | .query q => Atom.query q) }

/-- The components of a molecule built by `exampleParse`: vertex `i` continues the
component of `i - 1` when the two are bonded. -/
def exampleDecompose (m : BaseMolecule) : List Nat → List (List Nat) → List (List Nat)
  | [], comps => comps
  | i :: is, comps =>
    if i ≠ 0 ∧ (m.findEdgeIndex (i - 1) i).isSome then
      exampleDecompose m is (comps.take (comps.length - 1) ++ [comps.getLastD [] ++ [i]])
    else exampleDecompose m is (comps ++ [[i]])

/-- The example collaborators: all atom-to-atom mapping numbers are zero and
`checkQueryAtoms` succeeds. -/
def exampleCollaborators : Collaborators :=
  { loadMolecule := fun _ query text =>
      let m := exampleParse text false BaseMolecule.clear
      .ok { mol := if query then exampleQuery m else m
            reaction_atom_mapping := List.replicate m.atoms.length 0
            checkQueryAtoms := .ok () }
    decompose := fun m => exampleDecompose m (List.range m.atoms.length) [] }

/-- Example collaborators whose loaders remember a failure for `checkQueryAtoms`: the
check of a loader fails, with the length of the group text as its code, when the text
has a `*`, in plain mode and in query mode alike. -/
def starCollaborators : Collaborators :=
  { loadMolecule := fun _ query text =>
      let m := exampleParse text false BaseMolecule.clear
      .ok { mol := if query then exampleQuery m else m
            reaction_atom_mapping := List.replicate m.atoms.length 0
            checkQueryAtoms :=
              if '*' ∈ text then .error (Error.Collaborator text.length) else .ok () }
    decompose := fun m => exampleDecompose m (List.range m.atoms.length) [] }

/-- An example of the data of the regroup loop: three single-atom reactant components,
one agent of two bonded atoms, one product atom; agent atom 0 is flagged. -/
def exampleEnv : RegroupEnv :=
  { mols := { r := exampleParse "C.C.C".toList false BaseMolecule.clear
              c := exampleParse "NN".toList false BaseMolecule.clear
              p := exampleParse "C".toList false BaseMolecule.clear }
    aams := { r := [1, 2, 3], c := [0, 0], p := [1] }
    decomp := { r := [[0], [1], [2]], c := [[0, 1]], p := [[0]] }
    hl_atoms := [0, 0, 0, 1, 0, 0]
    hl_bonds := [0]
    highlight := true }

/-- An example of the state before the annotation block, for the molecules of
`exampleEnv`. -/
def exampleState : State :=
  initialState exampleEnv.mols exampleEnv.decomp

/-! # Properties -/

/-! ## Index resolver -/

theorem selectGroup_eq (idx r c p : Int) :
    _selectGroup idx r c p =
      if idx < r then .ok (0, idx)
      else if idx - r < c then .ok (1, idx - r)
      else if idx - r - c < p then .ok (2, idx - r - c)
      else .error Error.OutOfRange := by
  unfold _selectGroup _selectGroupByPair
  by_cases h1 : idx < r
  · simp [h1]
  · by_cases h2 : idx - r < c
    · simp [h1, h2]
    · by_cases h3 : idx - r - c < p
      · simp [h1, h2, h3]
      · simp [h1, h2, h3]

theorem selectGroupByPair_eq (lead other r c p : Int) :
    _selectGroupByPair lead other r c p =
      if lead < r then .ok (0, lead, other)
      else if lead - r < c then .ok (1, lead - r, other - r)
      else if lead - r - c < p then .ok (2, lead - r - c, other - r - c)
      else .error Error.OutOfRange := by
  unfold _selectGroupByPair
  by_cases h1 : lead < r
  · simp [h1]
  · by_cases h2 : lead - r < c
    · simp [h1, h2]
    · by_cases h3 : lead - r - c < p
      · simp [h1, h2, h3]
      · simp [h1, h2, h3]

/-- An index in range resolves to a position of a bucket, and to the global
index minus the sizes of the preceding groups. -/
theorem selectGroup_ok (idx r c p : Int) (h0 : 0 ≤ idx) (hlt : idx < r + c + p) :
    ∃ g l, _selectGroup idx r c p = .ok (g, l) ∧ InBucket r c p g l ∧
      idx = l + precedingSize r c g := by
  rw [selectGroup_eq]
  by_cases h1 : idx < r
  · exact ⟨0, idx, by simp [h1], ⟨h0, Or.inl ⟨rfl, h1⟩⟩, by simp [precedingSize]⟩
  · by_cases h2 : idx - r < c
    · exact ⟨1, idx - r, by simp [h1, h2], ⟨by omega, Or.inr (Or.inl ⟨rfl, h2⟩)⟩,
        by simp [precedingSize]⟩
    · have h3 : idx - r - c < p := by omega
      exact ⟨2, idx - r - c, by simp [h1, h2, h3],
        ⟨by omega, Or.inr (Or.inr ⟨rfl, h3⟩)⟩, by simp [precedingSize]⟩

/-- A position of a bucket is the result of its global index. -/
theorem selectGroup_of_inBucket (r c p : Int) (_hr : 0 ≤ r) (hc : 0 ≤ c) (g : Nat) (l : Int)
    (hb : InBucket r c p g l) :
    _selectGroup (l + precedingSize r c g) r c p = .ok (g, l) := by
  rw [selectGroup_eq]
  obtain ⟨h0, h | h | h⟩ := hb
  · obtain ⟨rfl, hl⟩ := h
    simp [precedingSize, hl]
  · obtain ⟨rfl, hl⟩ := h
    have h1 : ¬ (l + r < r) := by omega
    simp [precedingSize, h1, hl]
  · obtain ⟨rfl, hl⟩ := h
    have h1 : ¬ (l + (r + c) < r) := by omega
    have h2 : ¬ (l + (r + c) - r < c) := by omega
    have h3 : l + (r + c) - r - c < p := by omega
    have h4 : l + (r + c) - r - c = l := by omega
    simp only [precedingSize]
    rw [if_neg h1, if_neg h2, if_pos h3, h4]

/-- C1: for non-negative bucket sizes `r`, `c`, `p`, `_selectGroup` restricted to
`0 ≤ idx < r+c+p` is a bijection onto the positions of the three buckets: every such
`idx` succeeds with a `(group, local)` inside its bucket, distinct indices give
distinct results, and every bucket position is the result of exactly one index,
namely `local` plus the sizes of the preceding groups. -/
theorem selectGroup_bijection (r c p : Int) (hr : 0 ≤ r) (hc : 0 ≤ c) (hp : 0 ≤ p) :
    (∀ idx, 0 ≤ idx → idx < r + c + p →
        ∃ g l, _selectGroup idx r c p = .ok (g, l) ∧ InBucket r c p g l) ∧
    (∀ i j, 0 ≤ i → i < r + c + p → 0 ≤ j → j < r + c + p →
        _selectGroup i r c p = _selectGroup j r c p → i = j) ∧
    (∀ g l, InBucket r c p g l →
        (0 ≤ l + precedingSize r c g ∧ l + precedingSize r c g < r + c + p ∧
          _selectGroup (l + precedingSize r c g) r c p = .ok (g, l)) ∧
        ∀ idx, 0 ≤ idx → idx < r + c + p → _selectGroup idx r c p = .ok (g, l) →
          idx = l + precedingSize r c g) := by
  refine ⟨?_, ?_, ?_⟩
  · intro idx h0 hlt
    obtain ⟨g, l, h, hb, _⟩ := selectGroup_ok idx r c p h0 hlt
    exact ⟨g, l, h, hb⟩
  · intro i j hi0 hi hj0 hj heq
    obtain ⟨g, l, h, _, hg⟩ := selectGroup_ok i r c p hi0 hi
    obtain ⟨g', l', h', _, hg'⟩ := selectGroup_ok j r c p hj0 hj
    rw [h, h'] at heq
    injection heq with heq
    injection heq with e1 e2
    subst e1; subst e2
    rw [hg, hg']
  · intro g l hb
    refine ⟨⟨?_, ?_, selectGroup_of_inBucket r c p hr hc g l hb⟩, ?_⟩
    · obtain ⟨h0, h | h | h⟩ := hb <;> obtain ⟨rfl, hl⟩ := h <;> simp [precedingSize] <;> omega
    · obtain ⟨h0, h | h | h⟩ := hb <;> obtain ⟨rfl, hl⟩ := h <;> simp [precedingSize] <;> omega
    · intro idx h0 hlt h
      obtain ⟨g', l', h', _, hg'⟩ := selectGroup_ok idx r c p h0 hlt
      rw [h] at h'
      injection h' with h'
      injection h' with e1 e2
      subst e1; subst e2
      exact hg'

theorem selectGroup_bijection_witness :
    (∀ idx : Int, 0 ≤ idx → idx < 3 + 2 + 4 →
        ∃ g l, _selectGroup idx 3 2 4 = .ok (g, l) ∧ InBucket 3 2 4 g l) ∧
    (∀ i j : Int, 0 ≤ i → i < 3 + 2 + 4 → 0 ≤ j → j < 3 + 2 + 4 →
        _selectGroup i 3 2 4 = _selectGroup j 3 2 4 → i = j) ∧
    (∀ g l, InBucket 3 2 4 g l →
        (0 ≤ l + precedingSize 3 2 g ∧ l + precedingSize 3 2 g < 3 + 2 + 4 ∧
          _selectGroup (l + precedingSize 3 2 g) 3 2 4 = .ok (g, l)) ∧
        ∀ idx, 0 ≤ idx → idx < 3 + 2 + 4 → _selectGroup idx 3 2 4 = .ok (g, l) →
          idx = l + precedingSize 3 2 g) :=
  selectGroup_bijection 3 2 4 (by decide) (by decide) (by decide)

/-- C2: for non-negative `idx`, `r`, `c`, `p`, `_selectGroup` fails, and then with
`OutOfRange`, if and only if `idx ≥ r+c+p`. -/
theorem selectGroup_fails_iff (idx r c p : Int) (_hi : 0 ≤ idx) (_hr : 0 ≤ r) (hc : 0 ≤ c)
    (hp : 0 ≤ p) :
    (_selectGroup idx r c p = .error Error.OutOfRange ↔ r + c + p ≤ idx) ∧
    (∀ e, _selectGroup idx r c p = .error e → e = Error.OutOfRange) := by
  rw [selectGroup_eq]
  constructor
  · constructor
    · intro h
      by_cases h1 : idx < r
      · simp [h1] at h
      · by_cases h2 : idx - r < c
        · simp [h1, h2] at h
        · by_cases h3 : idx - r - c < p
          · simp [h1, h2, h3] at h
          · omega
    · intro h
      have h1 : ¬ idx < r := by omega
      have h2 : ¬ idx - r < c := by omega
      have h3 : ¬ idx - r - c < p := by omega
      simp [h1, h2, h3]
  · intro e h
    by_cases h1 : idx < r
    · simp [h1] at h
    · by_cases h2 : idx - r < c
      · simp [h1, h2] at h
      · by_cases h3 : idx - r - c < p
        · simp [h1, h2, h3] at h
        · simp [h1, h2, h3] at h
          exact h.symm

theorem selectGroup_fails_iff_witness :
    ((_selectGroup 9 3 2 4 = .error Error.OutOfRange ↔ (3 : Int) + 2 + 4 ≤ 9) ∧
      (∀ e, _selectGroup 9 3 2 4 = .error e → e = Error.OutOfRange)) ∧
    _selectGroup 9 3 2 4 = .error Error.OutOfRange ∧ _selectGroup 8 3 2 4 = .ok (2, 3) :=
  ⟨selectGroup_fails_iff 9 3 2 4 (by decide) (by decide) (by decide) (by decide),
    by decide, by decide⟩

/-- C3: for non-negative `r`, `c`, `p`, a lead below `r+c+p` and any integer `other`,
`_selectGroupByPair` returns the group and the local index that `_selectGroup`
returns for the lead: the local index is the lead minus the sizes of the groups before
the returned group, `other` is reduced by the same offset
(`local_other - local_lead = other - lead`), and for a lead that is not negative the
returned position lies in the bucket of the returned group, which is the only bucket
position that stands for the lead. The call fails, with `OutOfRange`, exactly when the
lead is `≥ r+c+p`, whatever `other` is. -/
theorem selectGroupByPair_spec (lead other r c p : Int) (_hr : 0 ≤ r) (hc : 0 ≤ c)
    (hp : 0 ≤ p) :
    (lead < r + c + p →
      ∃ g l o, _selectGroupByPair lead other r c p = .ok (g, l, o) ∧
        _selectGroup lead r c p = .ok (g, l) ∧ o - l = other - lead ∧
        l = lead - precedingSize r c g ∧ o = other - precedingSize r c g ∧
        (0 ≤ lead → InBucket r c p g l) ∧
        (∀ g' l', InBucket r c p g' l' → l' + precedingSize r c g' = lead →
          g' = g ∧ l' = l)) ∧
    (_selectGroupByPair lead other r c p = .error Error.OutOfRange ↔ r + c + p ≤ lead) ∧
    (∀ e, _selectGroupByPair lead other r c p = .error e → e = Error.OutOfRange) := by
  have hP := selectGroupByPair_eq lead other r c p
  have hS := selectGroup_eq lead r c p
  have huniq : ∀ (g : Nat) (l : Int), InBucket r c p g l → l + precedingSize r c g = lead →
      ∀ g' l', InBucket r c p g' l' → l' + precedingSize r c g' = lead → g' = g ∧ l' = l := by
    intro g l hb he g' l' hb' he'
    obtain ⟨h0, hg⟩ := hb
    obtain ⟨h0', hg'⟩ := hb'
    rcases hg with ⟨rfl, hl⟩ | ⟨rfl, hl⟩ | ⟨rfl, hl⟩ <;>
      rcases hg' with ⟨rfl, hl'⟩ | ⟨rfl, hl'⟩ | ⟨rfl, hl'⟩ <;>
      simp only [precedingSize] at he he' <;>
      first
        | exact ⟨rfl, by omega⟩
        | (exfalso; omega)
  by_cases h1 : lead < r
  · rw [if_pos h1] at hP hS
    rw [hP, hS]
    refine ⟨fun _ => ⟨0, lead, other, rfl, rfl, rfl, by simp [precedingSize],
      by simp [precedingSize], fun h0 => ⟨h0, Or.inl ⟨rfl, h1⟩⟩, ?_⟩,
      Iff.intro (fun h => by cases h) (fun h => by omega), fun e h => by cases h⟩
    intro g' l' hb' he'
    by_cases h0 : 0 ≤ lead
    · exact huniq 0 lead ⟨h0, Or.inl ⟨rfl, h1⟩⟩ (by simp [precedingSize]) g' l' hb' he'
    · exfalso
      obtain ⟨h0', hg'⟩ := hb'
      rcases hg' with ⟨rfl, _⟩ | ⟨rfl, _⟩ | ⟨rfl, _⟩ <;>
        simp only [precedingSize] at he' <;> omega
  · rw [if_neg h1] at hP hS
    by_cases h2 : lead - r < c
    · rw [if_pos h2] at hP hS
      rw [hP, hS]
      have hb : InBucket r c p 1 (lead - r) := ⟨by omega, Or.inr (Or.inl ⟨rfl, h2⟩)⟩
      exact ⟨fun _ => ⟨1, lead - r, other - r, rfl, rfl, by omega, by simp [precedingSize],
          by simp [precedingSize], fun _ => hb,
          huniq 1 (lead - r) hb (by simp [precedingSize])⟩,
        Iff.intro (fun h => by cases h) (fun h => by omega), fun e h => by cases h⟩
    · rw [if_neg h2] at hP hS
      by_cases h3 : lead - r - c < p
      · rw [if_pos h3] at hP hS
        rw [hP, hS]
        have hb : InBucket r c p 2 (lead - r - c) :=
          ⟨by omega, Or.inr (Or.inr ⟨rfl, h3⟩)⟩
        exact ⟨fun _ => ⟨2, lead - r - c, other - r - c, rfl, rfl, by omega,
            by simp only [precedingSize]; omega, by simp only [precedingSize]; omega,
            fun _ => hb, huniq 2 (lead - r - c) hb (by simp only [precedingSize]; omega)⟩,
          Iff.intro (fun h => by cases h) (fun h => by omega), fun e h => by cases h⟩
      · rw [if_neg h3] at hP hS
        rw [hP, hS]
        exact ⟨fun h => by omega, ⟨fun _ => by omega, fun _ => rfl⟩,
          fun e h => by cases h; rfl⟩

theorem selectGroupByPair_spec_witness :
    _selectGroupByPair 4 (-7) 3 2 4 = .ok (1, 1, -10) ∧
    _selectGroupByPair 9 (-7) 3 2 4 = .error Error.OutOfRange ∧
    ((4 : Int) < 3 + 2 + 4 →
      ∃ g l o, _selectGroupByPair 4 (-7) 3 2 4 = .ok (g, l, o) ∧
        _selectGroup 4 3 2 4 = .ok (g, l) ∧ o - l = -7 - 4 ∧
        l = 4 - precedingSize 3 2 g ∧ o = -7 - precedingSize 3 2 g ∧
        ((0 : Int) ≤ 4 → InBucket 3 2 4 g l) ∧
        (∀ g' l', InBucket 3 2 4 g' l' → l' + precedingSize 3 2 g' = 4 →
          g' = g ∧ l' = l)) ∧
    (_selectGroupByPair 4 (-7) 3 2 4 = .error Error.OutOfRange ↔ (3 : Int) + 2 + 4 ≤ 4) ∧
    (∀ e, _selectGroupByPair 4 (-7) 3 2 4 = .error e → e = Error.OutOfRange) :=
  ⟨by decide, by decide,
    selectGroupByPair_spec 4 (-7) 3 2 4 (by decide) (by decide) (by decide)⟩

/-! ## Fragment regrouper -/

theorem arrayGet_of_lt {α : Type} (a : List α) (i : Nat) (d : α) (h : i < a.length) :
    arrayGet a i = .ok (a.getD i d) := by
  unfold arrayGet
  rw [List.getElem?_eq_getElem h, List.getD_eq_getElem _ _ h]

theorem arraySet_of_lt {α : Type} (a : List α) (i : Nat) (x : α) (h : i < a.length) :
    arraySet a (i : Int) x = .ok (a.set i x) := by
  unfold arraySet
  simp [h]

theorem vertexLoop_ok (env : RegroupEnv) (v : Nat) (mapping : List Nat)
    (hmap : ∀ a ∈ mapping, a < (env.aams.get v).length ∧
      a + vertexOffset env.mols v < env.hl_atoms.length) :
    ∀ (ks : List Nat) (acc : Accum), (∀ k ∈ ks, k < mapping.length) →
      vertexLoop env v mapping ks acc = .ok
        { acc with
          aam := acc.aam ++ ks.map (fun k => (env.aams.get v).getD (mapping.getD k 0) 0)
          hl_atoms_frag := acc.hl_atoms_frag ++ ks.map (fun k =>
            env.hl_atoms.getD (mapping.getD k 0 + vertexOffset env.mols v) 0) } := by
  intro ks
  induction ks with
  | nil => intro acc _; simp [vertexLoop]
  | cons k ks ih =>
    intro acc hk
    have hk0 : k < mapping.length := hk k (List.mem_cons_self _ _)
    have hmem : mapping.getD k 0 ∈ mapping := by
      rw [List.getD_eq_getElem _ _ hk0]; exact List.getElem_mem _
    obtain ⟨h1, h2⟩ := hmap _ hmem
    unfold vertexLoop
    rw [arrayGet_of_lt mapping k 0 hk0]
    simp only
    rw [arrayGet_of_lt _ _ 0 h1]
    simp only
    rw [arrayGet_of_lt _ _ 0 h2]
    simp only
    rw [ih _ (fun k' hk' => hk k' (List.mem_cons_of_mem _ hk'))]
    simp

theorem edgeLoop_ok (env : RegroupEnv) (v : Nat) (fragment : BaseMolecule) (mapping : List Nat)
    (hE : ∀ edge ∈ fragment.edges, edge.beg < mapping.length ∧ edge.end_ < mapping.length ∧
      ∃ idx, (env.mols.get v).findEdgeIndex (mapping.getD edge.beg 0)
          (mapping.getD edge.end_ 0) = some idx ∧
        idx + edgeOffset env.mols v < env.hl_bonds.length) :
    ∀ (ks : List Nat) (acc : Accum), (∀ k ∈ ks, k < fragment.edges.length) →
      edgeLoop env v fragment mapping ks acc = .ok
        { acc with
          hl_bonds_frag := acc.hl_bonds_frag ++
            ks.map (fun k => bondFlag env v mapping (fragment.edges.getD k ⟨0, 0⟩)) } := by
  intro ks
  induction ks with
  | nil => intro acc _; simp [edgeLoop]
  | cons k ks ih =>
    intro acc hk
    have hk0 : k < fragment.edges.length := hk k (List.mem_cons_self _ _)
    have hmem : fragment.edges.getD k ⟨0, 0⟩ ∈ fragment.edges := by
      rw [List.getD_eq_getElem _ _ hk0]; exact List.getElem_mem _
    obtain ⟨h1, h2, idx, h3, h4⟩ := hE _ hmem
    unfold edgeLoop
    rw [arrayGet_of_lt fragment.edges k ⟨0, 0⟩ hk0]
    simp only
    rw [arrayGet_of_lt mapping _ 0 h1]
    simp only
    rw [arrayGet_of_lt mapping _ 0 h2]
    simp only
    rw [h3]
    simp only
    rw [arrayGet_of_lt _ _ 0 h4]
    simp only
    rw [ih _ (fun k' hk' => hk k' (List.mem_cons_of_mem _ hk'))]
    simp only [List.map_cons, List.append_assoc, List.singleton_append, bondFlag, h3,
      Option.getD_some]

theorem findEdgeIndex_of_mem (m : BaseMolecule) (x : Edge) (hx : x ∈ m.edges) :
    ∃ idx, m.findEdgeIndex x.beg x.end_ = some idx ∧ idx < m.edgeCount := by
  unfold BaseMolecule.findEdgeIndex BaseMolecule.edgeCount
  have hex : ∃ y, y ∈ m.edges ∧
      (fun y : Edge => (y.beg == x.beg && y.end_ == x.end_) ||
        (y.beg == x.end_ && y.end_ == x.beg)) y = true := ⟨x, hx, by simp⟩
  exact ⟨_, List.findIdx?_eq_some_of_exists hex, List.findIdx_lt_length_of_exists hex⟩

theorem inducedSubgraph_edges_ok (env : RegroupEnv) (v : Nat) (mapping : List Nat)
    (hb : edgeOffset env.mols v + (env.mols.get v).edgeCount ≤ env.hl_bonds.length) :
    ∀ edge ∈ (inducedSubgraph (env.mols.get v) mapping).edges,
      edge.beg < mapping.length ∧ edge.end_ < mapping.length ∧
      ∃ idx, (env.mols.get v).findEdgeIndex (mapping.getD edge.beg 0)
          (mapping.getD edge.end_ 0) = some idx ∧
        idx + edgeOffset env.mols v < env.hl_bonds.length := by
  intro edge hedge
  simp only [inducedSubgraph, List.mem_filterMap] at hedge
  obtain ⟨x, hx, hxe⟩ := hedge
  by_cases hin : x.beg ∈ mapping ∧ x.end_ ∈ mapping
  · rw [if_pos hin] at hxe
    injection hxe with hxe
    subst hxe
    have hb1 : List.indexOf x.beg mapping < mapping.length := List.indexOf_lt_length.mpr hin.1
    have he1 : List.indexOf x.end_ mapping < mapping.length := List.indexOf_lt_length.mpr hin.2
    refine ⟨hb1, he1, ?_⟩
    simp only
    rw [List.getD_eq_getElem _ _ hb1, List.getD_eq_getElem _ _ he1,
      List.getElem_indexOf, List.getElem_indexOf]
    obtain ⟨idx, h1, h2⟩ := findEdgeIndex_of_mem (env.mols.get v) x hx
    exact ⟨idx, h1, by omega⟩
  · rw [if_neg hin] at hxe
    cases hxe

theorem inducedSubgraph_vertexCount (mol : BaseMolecule) (mapping : List Nat)
    (h : ∀ a ∈ mapping, a < mol.vertexCount) :
    (inducedSubgraph mol mapping).vertexCount = mapping.length := by
  unfold inducedSubgraph BaseMolecule.vertexCount
  simp only
  induction mapping with
  | nil => simp
  | cons a as ih =>
    have ha : a < mol.atoms.length := h a (List.mem_cons_self _ _)
    rw [List.filterMap_cons, List.getElem?_eq_getElem ha]
    simp only [List.length_cons]
    rw [ih (fun b hb => h b (List.mem_cons_of_mem _ hb))]

theorem map_range_getD {α : Type} (l : List Nat) (f : Nat → α) :
    (List.range l.length).map (fun k => f (l.getD k 0)) = l.map f := by
  apply List.ext_getElem
  · simp
  · intro n h1 h2
    simp at h1
    simp [List.getElem?_eq_getElem h1]

theorem map_range_getD_edge {α : Type} (l : List Edge) (f : Edge → α) :
    (List.range l.length).map (fun k => f (l.getD k ⟨0, 0⟩)) = l.map f := by
  apply List.ext_getElem
  · simp
  · intro n h1 h2
    simp at h1
    simp [List.getElem?_eq_getElem h1]

theorem appendComponent_ok (env : RegroupEnv) (v : Nat) (hOk : EnvOk env v) (j : Nat)
    (hj : j < (env.decomp.get v).length) (acc : Accum) :
    appendComponent env v j acc = .ok (appended env v j acc) := by
  obtain ⟨hcomp, haam, hhl, hbd⟩ := hOk
  unfold appendComponent buildComponentMolecule
  rw [List.getElem?_eq_getElem hj]
  simp only
  have hmapping : (env.decomp.get v)[j] ∈ env.decomp.get v := List.getElem_mem _
  have hvalid := hcomp _ hmapping
  rw [vertexLoop_ok env v _ (fun a ha => ⟨by have := hvalid a ha; omega,
      by have := hvalid a ha; omega⟩) _ _
      (by
        intro k hk
        rw [inducedSubgraph_vertexCount _ _ hvalid] at hk
        simpa using hk)]
  simp only
  rw [edgeLoop_ok env v _ _ (inducedSubgraph_edges_ok env v _ hbd) _ _
      (by intro k hk; simpa [BaseMolecule.edgeCount] using hk)]
  rw [inducedSubgraph_vertexCount _ _ hvalid,
    map_range_getD _ (fun a => (env.aams.get v).getD a 0),
    map_range_getD _ (fun a => env.hl_atoms.getD (a + vertexOffset env.mols v) 0)]
  unfold BaseMolecule.edgeCount
  rw [map_range_getD_edge _ (bondFlag env v (env.decomp.get v)[j])]
  simp only [appended, List.getD_eq_getElem _ _ hj]

theorem filter_set_of_not_mem (fr : List Int) (j : Nat) (js : List Nat) (hj : j ∉ js) (i : Nat) :
    js.filter (fun j' => (fr.set j (-1))[j']? == some (i : Int)) =
      js.filter (fun j' => fr[j']? == some (i : Int)) := by
  apply List.filter_congr
  intro j' hj'
  have hne : j ≠ j' := fun h => hj (h ▸ hj')
  rw [List.getElem?_set_ne hne]

theorem componentLoop_ok (env : RegroupEnv) (v : Nat) (hOk : EnvOk env v) (i : Nat) :
    ∀ (js : List Nat) (fr : List Int) (acc : Accum), js.Nodup → (∀ j ∈ js, j < fr.length) →
      fr.length ≤ (env.decomp.get v).length →
      componentLoop env v i js fr acc = .ok
        (consume fr (js.filter (fun j => fr[j]? == some (i : Int))),
          assembled env v (js.filter (fun j => fr[j]? == some (i : Int))) acc) := by
  intro js
  induction js with
  | nil => intro fr acc _ _ _; simp [componentLoop, consume, assembled]
  | cons j js ih =>
    intro fr acc hnd hlt hlen
    have hj : j < fr.length := hlt j (List.mem_cons_self _ _)
    have hnd' := List.nodup_cons.mp hnd
    unfold componentLoop
    rw [arrayGet_of_lt fr j 0 hj]
    simp only
    by_cases hf : fr.getD j 0 = (i : Int)
    · rw [if_pos hf, arraySet_of_lt fr j (-1) hj]
      simp only
      rw [appendComponent_ok env v hOk j (by omega)]
      simp only
      rw [ih (fr.set j (-1)) _ hnd'.2
        (fun j' hj' => by simpa using hlt j' (List.mem_cons_of_mem _ hj')) (by simpa using hlen)]
      rw [filter_set_of_not_mem fr j js hnd'.1 i]
      have hfj : (fr[j]? == some (i : Int)) = true := by
        rw [List.getElem?_eq_getElem hj, ← List.getD_eq_getElem fr 0 hj, hf]; simp
      simp only [List.filter_cons, hfj, if_true, consume, assembled, List.foldl_cons]
    · rw [if_neg hf]
      rw [ih fr acc hnd'.2 (fun j' hj' => hlt j' (List.mem_cons_of_mem _ hj')) hlen]
      have hfj : (fr[j]? == some (i : Int)) = false := by
        rw [List.getElem?_eq_getElem hj, ← List.getD_eq_getElem fr 0 hj]
        simpa using hf
      simp only [List.filter_cons, hfj, Bool.false_eq_true, if_false]

theorem Groups.get_set {α : Type} (t : Groups α) (v : Nat) (x : α) : (t.set v x).get v = x := by
  match v with
  | 0 => rfl
  | 1 => rfl
  | _ + 2 => rfl

theorem Groups.set_set {α : Type} (t : Groups α) (v : Nat) (x y : α) :
    (t.set v x).set v y = t.set v y := by
  match v with
  | 0 => rfl
  | 1 => rfl
  | _ + 2 => rfl

theorem Groups.set_get {α : Type} (t : Groups α) (v : Nat) : t.set v (t.get v) = t := by
  match v with
  | 0 => rfl
  | 1 => rfl
  | _ + 2 => rfl

theorem wf_entry (fr : List Int) (hwf : WellFormed fr) (j : Nat) (hj : j < fr.length) :
    ∃ l : Nat, fr[j]? = some (l : Int) ∧ l ≤ j ∧ fr[l]? = some (l : Int) := by
  obtain ⟨h0, h1, h2⟩ := hwf j hj
  have hx : ((fr.getD j 0).toNat : Int) = fr.getD j 0 := Int.toNat_of_nonneg h0
  refine ⟨(fr.getD j 0).toNat, ?_, h1, ?_⟩
  · rw [hx, List.getElem?_eq_getElem hj, List.getD_eq_getElem _ _ hj]
  · have hl : (fr.getD j 0).toNat < fr.length := by omega
    rw [List.getElem?_eq_getElem hl, ← List.getD_eq_getElem fr 0 hl, h2, hx]

theorem getElem?_consume (js : List Nat) : ∀ (fr : List Int) (j : Nat),
    (consume fr js)[j]? = if j ∈ js then (fr[j]?).map (fun _ => (-1 : Int)) else fr[j]? := by
  induction js with
  | nil => intro fr j; simp [consume]
  | cons a js ih =>
    intro fr j
    have hc : consume fr (a :: js) = consume (fr.set a (-1)) js := rfl
    rw [hc, ih, List.getElem?_set]
    by_cases hja : a = j
    · subst hja
      by_cases hlt : a < fr.length
      · simp [hlt, List.getElem?_eq_getElem hlt]
      · have hnone : fr[a]? = none := List.getElem?_eq_none (by omega)
        simp [hlt, hnone]
    · have hja' : ¬ j = a := fun h => hja h.symm
      simp [hja, hja']

theorem getElem?_consumedBelow (fr : List Int) (i j : Nat) :
    (consumedBelow fr i)[j]? = (fr[j]?).map (fun x => if x < (i : Int) then -1 else x) := by
  simp [consumedBelow]

theorem mem_members (fr : List Int) (i j : Nat) :
    j ∈ members fr i ↔ fr[j]? = some (i : Int) := by
  unfold members
  rw [List.mem_filter, List.mem_range]
  constructor
  · intro h; simpa using h.2
  · intro h
    refine ⟨?_, by simpa using h⟩
    by_contra hlt
    rw [List.getElem?_eq_none (by omega)] at h
    cases h

theorem consume_members (fr : List Int) (i0 : Nat) :
    consume (consumedBelow fr i0) (members fr i0) = consumedBelow fr (i0 + 1) := by
  apply List.ext_getElem?
  intro j
  rw [getElem?_consume, getElem?_consumedBelow, getElem?_consumedBelow]
  cases hfj : fr[j]? with
  | none =>
    have hmem : ¬ j ∈ members fr i0 := by rw [mem_members, hfj]; simp
    rw [if_neg hmem]
    rfl
  | some x =>
    by_cases hx : x = (i0 : Int)
    · have hmem : j ∈ members fr i0 := by rw [mem_members, hfj, hx]
      rw [if_pos hmem]
      subst hx
      simp
    · have hmem : ¬ j ∈ members fr i0 := by
        rw [mem_members, hfj]; exact fun h => hx (Option.some.inj h)
      rw [if_neg hmem]
      simp only [Option.map_some']
      congr 1
      by_cases h1 : x < (i0 : Int)
      · have h2 : x < ((i0 + 1 : Nat) : Int) := by push_cast; omega
        rw [if_pos h1, if_pos h2]
      · have h2 : ¬ x < ((i0 + 1 : Nat) : Int) := by push_cast; omega
        rw [if_neg h1, if_neg h2]

theorem consumedBelow_succ_of_not_lead (fr : List Int) (i0 : Nat)
    (h : ∀ x ∈ fr, x ≠ (i0 : Int)) : consumedBelow fr (i0 + 1) = consumedBelow fr i0 := by
  unfold consumedBelow
  apply List.map_congr_left
  intro x hx
  have hne := h x hx
  by_cases h1 : x < (i0 : Int)
  · have h2 : x < ((i0 + 1 : Nat) : Int) := by push_cast; omega
    rw [if_pos h1, if_pos h2]
  · have h2 : ¬ x < ((i0 + 1 : Nat) : Int) := by push_cast; omega
    rw [if_neg h1, if_neg h2]

theorem filter_range'_skip (p : Nat → Bool) (n : Nat) :
    ∀ i0, i0 ≤ n → (∀ j, j < i0 → p j = false) →
      (List.range n).filter p = (List.range' i0 (n - i0)).filter p := by
  intro i0
  induction i0 with
  | zero => intro _ _; rw [List.range_eq_range']; rfl
  | succ k ih =>
    intro hk hp
    rw [ih (by omega) (fun j hj => hp j (by omega))]
    have hn : n - k = (n - (k + 1)) + 1 := by omega
    rw [hn, List.range'_succ, List.filter_cons]
    simp [hp k (by omega)]

theorem members_eq_filter (fr : List Int) (hwf : WellFormed fr) (i0 : Nat)
    (hi : i0 ≤ fr.length) :
    (List.range' i0 (fr.length - i0)).filter
        (fun j => (consumedBelow fr i0)[j]? == some (i0 : Int)) = members fr i0 := by
  unfold members
  rw [filter_range'_skip (fun j => fr[j]? == some (i0 : Int)) fr.length i0 hi]
  · apply List.filter_congr
    intro j _
    rw [getElem?_consumedBelow]
    cases hfj : fr[j]? with
    | none => simp
    | some x =>
      simp only [Option.map_some']
      by_cases h1 : x < (i0 : Int)
      · rw [if_pos h1]
        have e1 : ((some (-1 : Int)) == some (i0 : Int)) = false := by
          simp
        have e2 : ((some x) == some (i0 : Int)) = false := by
          simp; omega
        rw [e1, e2]
      · rw [if_neg h1]
  · intro j hj
    obtain ⟨l, h1, h2, _⟩ := wf_entry fr hwf j (by omega)
    rw [h1]
    simp
    omega

theorem addMoleculeCopy_eq (env : RegroupEnv) (v : Nat) (js : List Nat) (brxn : BaseReaction) :
    addMoleculeCopy env v (assembled env v js Accum.clear) brxn =
      brxn.set v (brxn.get v ++ [finalMolecule env v js]) := rfl

theorem leadLoop_wf (env : RegroupEnv) (v : Nat) (hOk : EnvOk env v) (fr : List Int)
    (hwf : WellFormed fr) (hlen : fr.length ≤ (env.decomp.get v).length) :
    ∀ (m i0 : Nat) (brxn : BaseReaction), i0 + m = fr.length →
      leadLoop env v (List.range' i0 m) (consumedBelow fr i0) brxn = .ok
        (consumedBelow fr (i0 + m),
          brxn.set v (brxn.get v ++
            ((List.range' i0 m).filter (fun (i : Nat) => fr[i]? == some (i : Int))).map
              (fun i => finalMolecule env v (members fr i)))) := by
  intro m
  induction m with
  | zero =>
    intro i0 brxn _
    simp [leadLoop, Groups.set_get]
  | succ m ih =>
    intro i0 brxn hn
    have hi0 : i0 < fr.length := by omega
    have hcl : (consumedBelow fr i0).length = fr.length := by simp [consumedBelow]
    obtain ⟨l, hl1, hl2, hl3⟩ := wf_entry fr hwf i0 hi0
    rw [List.range'_succ]
    unfold leadLoop
    rw [arrayGet_of_lt _ i0 0 (by omega)]
    simp only
    have hcur : (consumedBelow fr i0).getD i0 0 = if (l : Int) < (i0 : Int) then -1 else (l : Int) := by
      rw [List.getD_eq_getElem?_getD, getElem?_consumedBelow, hl1]
      rfl
    rw [hcur]
    by_cases hlt : l < i0
    · -- a leaf: already consumed
      have hlt' : (l : Int) < (i0 : Int) := by omega
      rw [if_pos hlt']
      simp only [if_true]
      have hnl : ∀ x ∈ fr, x ≠ (i0 : Int) := by
        intro x hx hxe
        obtain ⟨j, hj, hjx⟩ := List.getElem_of_mem hx
        obtain ⟨l', h1, _, h3⟩ := wf_entry fr hwf j hj
        rw [List.getElem?_eq_getElem hj, hjx, hxe] at h1
        have hll : l' = i0 := by
          have := Option.some.inj h1
          omega
        subst hll
        rw [hl1] at h3
        have := Option.some.inj h3
        omega
      rw [← consumedBelow_succ_of_not_lead fr i0 hnl, ih (i0 + 1) brxn (by omega)]
      have hfl : (fr[i0]? == some (i0 : Int)) = false := by
        rw [hl1]; simp; omega
      simp only [List.filter_cons, hfl, Bool.false_eq_true, if_false]
      have e : i0 + 1 + m = i0 + (m + 1) := by omega
      rw [e]
    · -- a lead: a new molecule
      have hli : l = i0 := by omega
      subst hli
      have hnlt : ¬ ((l : Int) < (l : Int)) := by omega
      rw [if_neg hnlt]
      have hne : ¬ ((l : Int) = -1) := by omega
      rw [if_neg hne]
      rw [componentLoop_ok env v hOk l _ _ _ (List.nodup_range' _ _)
        (by
          intro j hj
          rw [List.mem_range'_1] at hj
          omega)
        (by omega)]
      simp only
      rw [hcl, members_eq_filter fr hwf l (by omega), consume_members, addMoleculeCopy_eq,
        ih (l + 1) _ (by omega)]
      have hfl : (fr[l]? == some (l : Int)) = true := by
        rw [hl1]; simp
      simp only [List.filter_cons, hfl, if_true, List.map_cons, Groups.get_set, Groups.set_set,
        List.append_assoc, List.singleton_append]
      have e : l + 1 + m = l + (m + 1) := by omega
      rw [e]

theorem consumedBelow_zero (fr : List Int) (hwf : WellFormed fr) : consumedBelow fr 0 = fr := by
  unfold consumedBelow
  conv => rhs; rw [← List.map_id fr]
  apply List.map_congr_left
  intro x hx
  obtain ⟨j, hj, hjx⟩ := List.getElem_of_mem hx
  obtain ⟨l, h1, _, _⟩ := wf_entry fr hwf j hj
  rw [List.getElem?_eq_getElem hj, hjx] at h1
  have := Option.some.inj h1
  have h0 : ¬ x < ((0 : Nat) : Int) := by omega
  rw [if_neg h0]
  rfl

theorem regroupGroup_wf (env : RegroupEnv) (v : Nat) (hOk : EnvOk env v)
    (fragments : Groups (List Int)) (brxn : BaseReaction)
    (hwf : WellFormed (fragments.get v))
    (hlen : (fragments.get v).length ≤ (env.decomp.get v).length) :
    regroupGroup env v fragments brxn = .ok
      (fragments.set v (consumedBelow (fragments.get v) (fragments.get v).length),
        brxn.set v (brxn.get v ++
          (leads (fragments.get v)).map
            (fun i => finalMolecule env v (members (fragments.get v) i)))) := by
  unfold regroupGroup
  have h := leadLoop_wf env v hOk (fragments.get v) hwf hlen (fragments.get v).length 0 brxn
    (by omega)
  rw [consumedBelow_zero _ hwf, ← List.range_eq_range'] at h
  rw [h]
  simp [leads]

theorem assembled_components (env : RegroupEnv) (v : Nat) (js : List Nat) :
    ∀ acc, (assembled env v js acc).components = acc.components ++ js := by
  induction js with
  | nil => intro acc; simp [assembled]
  | cons j js ih =>
    intro acc
    have h : assembled env v (j :: js) acc = assembled env v js (appended env v j acc) := rfl
    rw [h, ih]
    simp [appended]

theorem assembled_atoms (env : RegroupEnv) (v : Nat) (js : List Nat) :
    ∀ acc, (assembled env v js acc).mol.atoms = acc.mol.atoms ++
      js.flatMap (fun j =>
        (inducedSubgraph (env.mols.get v) ((env.decomp.get v).getD j [])).atoms) := by
  induction js with
  | nil => intro acc; simp [assembled]
  | cons j js ih =>
    intro acc
    have h : assembled env v (j :: js) acc = assembled env v js (appended env v j acc) := rfl
    rw [h, ih]
    simp [appended, BaseMolecule.mergeWithMolecule]

theorem assembled_vertexCount (env : RegroupEnv) (v : Nat) (js : List Nat) (acc : Accum) :
    (assembled env v js acc).mol.vertexCount = acc.mol.vertexCount +
      (js.map (fun j =>
        (inducedSubgraph (env.mols.get v) ((env.decomp.get v).getD j [])).vertexCount)).sum := by
  unfold BaseMolecule.vertexCount
  rw [assembled_atoms]
  simp only [List.length_append, List.length_flatMap]
  rfl

theorem assembled_edgeCount (env : RegroupEnv) (v : Nat) (js : List Nat) :
    ∀ acc, (assembled env v js acc).mol.edgeCount = acc.mol.edgeCount +
      (js.map (fun j =>
        (inducedSubgraph (env.mols.get v) ((env.decomp.get v).getD j [])).edgeCount)).sum := by
  induction js with
  | nil => intro acc; simp [assembled]
  | cons j js ih =>
    intro acc
    have h : assembled env v (j :: js) acc = assembled env v js (appended env v j acc) := rfl
    rw [h, ih]
    simp [appended, BaseMolecule.mergeWithMolecule, BaseMolecule.edgeCount]
    omega

theorem assembled_aam (env : RegroupEnv) (v : Nat) (js : List Nat) :
    ∀ acc, (assembled env v js acc).aam = acc.aam ++
      (origins env v js).map (fun a => (env.aams.get v).getD a 0) := by
  induction js with
  | nil => intro acc; simp [assembled, origins]
  | cons j js ih =>
    intro acc
    have h : assembled env v (j :: js) acc = assembled env v js (appended env v j acc) := rfl
    rw [h, ih]
    simp [appended, origins]

theorem assembled_hl_atoms (env : RegroupEnv) (v : Nat) (js : List Nat) :
    ∀ acc, (assembled env v js acc).hl_atoms_frag = acc.hl_atoms_frag ++
      (origins env v js).map (fun a => env.hl_atoms.getD (a + vertexOffset env.mols v) 0) := by
  induction js with
  | nil => intro acc; simp [assembled, origins]
  | cons j js ih =>
    intro acc
    have h : assembled env v (j :: js) acc = assembled env v js (appended env v j acc) := rfl
    rw [h, ih]
    simp [appended, origins]

theorem assembled_hl_bonds_length (env : RegroupEnv) (v : Nat) (js : List Nat) :
    ∀ acc, (assembled env v js acc).hl_bonds_frag.length = acc.hl_bonds_frag.length +
      (js.map (fun j =>
        (inducedSubgraph (env.mols.get v) ((env.decomp.get v).getD j [])).edgeCount)).sum := by
  induction js with
  | nil => intro acc; simp [assembled]
  | cons j js ih =>
    intro acc
    have h : assembled env v (j :: js) acc = assembled env v js (appended env v j acc) := rfl
    rw [h, ih]
    simp [appended, BaseMolecule.edgeCount]
    omega

theorem mem_leads (fr : List Int) (i : Nat) : i ∈ leads fr ↔ fr[i]? = some (i : Int) := by
  unfold leads
  rw [List.mem_filter, List.mem_range]
  constructor
  · intro h; simpa using h.2
  · intro h
    refine ⟨?_, by simpa using h⟩
    by_contra hlt
    rw [List.getElem?_eq_none (by omega)] at h
    cases h

theorem pairwise_lt_range (n : Nat) : (List.range n).Pairwise (fun a b => a < b) := by
  rw [List.range_eq_range']
  exact List.pairwise_lt_range' 0 n

theorem leads_sorted (fr : List Int) : (leads fr).Pairwise (fun a b => a < b) :=
  (pairwise_lt_range _).filter _

theorem members_sorted (fr : List Int) (i : Nat) :
    (members fr i).Pairwise (fun a b => a < b) :=
  (pairwise_lt_range _).filter _

theorem leads_flatMap_members_perm (fr : List Int) (hwf : WellFormed fr) :
    ((leads fr).flatMap (members fr)).Perm (List.range fr.length) := by
  rw [List.perm_ext_iff_of_nodup]
  · intro j
    rw [List.mem_flatMap, List.mem_range]
    constructor
    · rintro ⟨i, _, hj⟩
      rw [mem_members] at hj
      by_contra hlt
      rw [List.getElem?_eq_none (by omega)] at hj
      cases hj
    · intro hj
      obtain ⟨l, h1, _, h3⟩ := wf_entry fr hwf j hj
      exact ⟨l, (mem_leads fr l).mpr h3, (mem_members fr l j).mpr h1⟩
  · rw [List.nodup_flatMap]
    constructor
    · intro i _
      exact (List.nodup_range _).filter _
    · have hnd : (leads fr).Nodup := (List.nodup_range _).filter _
      refine List.Pairwise.imp ?_ hnd
      intro a b hab
      intro j hja hjb
      rw [mem_members] at hja hjb
      rw [hja] at hjb
      have := Option.some.inj hjb
      exact hab (by omega)
  · exact List.nodup_range _

theorem sum_map_flatMap (l : List Nat) (f : Nat → List Nat) (g : Nat → Nat) :
    ((l.flatMap f).map g).sum = (l.map (fun i => ((f i).map g).sum)).sum := by
  induction l with
  | nil => simp
  | cons a l ih => simp [List.flatMap_cons, List.sum_append, ih]

theorem map_range_getD_list {α : Type} (l : List (List Nat)) (f : List Nat → α) :
    (List.range l.length).map (fun j => f (l.getD j [])) = l.map f := by
  apply List.ext_getElem
  · simp
  · intro n h1 h2
    simp at h1
    simp [List.getElem?_eq_getElem h1]

theorem countP_eq_sum {β : Type} (q : β → Bool) (l : List β) :
    l.countP q = (l.map (fun x => if q x then 1 else 0)).sum := by
  induction l with
  | nil => simp
  | cons a l ih => rw [List.countP_cons, ih]; simp; omega

theorem sum_countP_swap {α β : Type} (cs : List α) (es : List β) (q : α → β → Bool) :
    (cs.map (fun c => es.countP (q c))).sum = (es.map (fun x => cs.countP (fun c => q c x))).sum := by
  induction cs with
  | nil => simp
  | cons c cs ih =>
    simp only [List.map_cons, List.sum_cons, List.countP_cons, ih]
    rw [countP_eq_sum (q c) es]
    rw [← List.sum_map_add]
    congr 1
    apply List.map_congr_left
    intro x _
    omega

theorem inducedSubgraph_edgeCount (mol : BaseMolecule) (mapping : List Nat) :
    (inducedSubgraph mol mapping).edgeCount =
      mol.edges.countP (fun x => decide (x.beg ∈ mapping ∧ x.end_ ∈ mapping)) := by
  unfold inducedSubgraph BaseMolecule.edgeCount
  simp only
  rw [List.length_filterMap_eq_countP]
  apply List.countP_congr
  intro x _
  by_cases h : x.beg ∈ mapping ∧ x.end_ ∈ mapping
  · simp [h]
  · simp [h]

theorem decomposition_counts (mol : BaseMolecule) (components : List (List Nat))
    (hvalid : ∀ comp ∈ components, ∀ a ∈ comp, a < mol.vertexCount)
    (hd : IsDecomposition mol components) :
    (components.map (fun comp => (inducedSubgraph mol comp).vertexCount)).sum = mol.vertexCount ∧
    (components.map (fun comp => (inducedSubgraph mol comp).edgeCount)).sum = mol.edgeCount := by
  obtain ⟨hperm, hedge⟩ := hd
  constructor
  · have h1 : components.map (fun comp => (inducedSubgraph mol comp).vertexCount) =
        components.map List.length := by
      apply List.map_congr_left
      intro comp hc
      exact inducedSubgraph_vertexCount mol comp (hvalid comp hc)
    rw [h1, ← List.length_flatten, hperm.length_eq, List.length_range]
  · have h1 : components.map (fun comp => (inducedSubgraph mol comp).edgeCount) =
        components.map (fun comp =>
          mol.edges.countP ((fun comp x => decide (x.beg ∈ comp ∧ x.end_ ∈ comp)) comp)) := by
      apply List.map_congr_left
      intro comp _
      exact inducedSubgraph_edgeCount mol comp
    rw [h1, sum_countP_swap]
    have h2 : mol.edges.map (fun x => components.countP
        (fun c => (fun comp x => decide (x.beg ∈ comp ∧ x.end_ ∈ comp)) c x)) =
        mol.edges.map (fun _ => 1) := by
      apply List.map_congr_left
      intro x hx
      exact hedge x hx
    rw [h2]
    simp [BaseMolecule.edgeCount]

theorem finalMolecule_components (env : RegroupEnv) (v : Nat) (js : List Nat) :
    (finalMolecule env v js).components = js := by
  simp [finalMolecule, assembled_components, Accum.clear]

theorem finalMolecule_counts (env : RegroupEnv) (v : Nat) (js : List Nat) :
    (finalMolecule env v js).mol.vertexCount = (js.map (fun j =>
        (inducedSubgraph (env.mols.get v) ((env.decomp.get v).getD j [])).vertexCount)).sum ∧
    (finalMolecule env v js).mol.edgeCount = (js.map (fun j =>
        (inducedSubgraph (env.mols.get v) ((env.decomp.get v).getD j [])).edgeCount)).sum := by
  constructor
  · show (assembled env v js Accum.clear).mol.vertexCount = _
    rw [assembled_vertexCount]
    simp [Accum.clear, BaseMolecule.clear, BaseMolecule.vertexCount]
  · show (assembled env v js Accum.clear).mol.edgeCount = _
    rw [assembled_edgeCount]
    simp [Accum.clear, BaseMolecule.clear, BaseMolecule.edgeCount]

theorem sum_over_leads (fr : List Int) (hwf : WellFormed fr) (comps : List (List Nat))
    (hlen : fr.length = comps.length) (g : List Nat → Nat) :
    ((leads fr).map (fun i => ((members fr i).map (fun j => g (comps.getD j []))).sum)).sum =
      (comps.map g).sum := by
  rw [← sum_map_flatMap (leads fr) (members fr) (fun j => g (comps.getD j []))]
  rw [((leads_flatMap_members_perm fr hwf).map _).sum_eq, hlen, map_range_getD_list]

/-- C4, as stated, fails: the directive `f:1.0` forwards component 0 to the later
component 1. The interpreter accepts it, and the regrouper then emits an empty molecule
for component 0 and a molecule holding component 1 alone: one atom in all, where the
reactant molecule `C.C` has two. -/
theorem regroup_roundtrip_counterexample :
    entryLoop 4 "1.0|".toList { r := [0, 1], c := [], p := [0] } =
        .ok ("|".toList, { r := [1, 1], c := [], p := [0] }) ∧
    (exampleParse "C.C".toList false BaseMolecule.clear).vertexCount = 2 ∧
    (exampleCollaborators.decompose (exampleParse "C.C".toList false BaseMolecule.clear)) =
        [[0], [1]] ∧
    (loadReaction exampleCollaborators false false "C.C>>C|f:1.0|".toList).map
        (fun brxn => (brxn.r.map (fun m => m.components),
          (brxn.r.map (fun m => m.mol.vertexCount)).sum)) = .ok ([[], [1]], 1) := by
  refine ⟨by decide, by decide, by decide, by decide⟩

/-- C4 (amended): for every group whose forwarding map is well formed, the atom counts
of the final molecules the regrouper emits for the group add up to the sum of the atom
counts of the group's components, and likewise the bond counts; when the components are
a decomposition of the group molecule these sums are the atom count and the bond count
of that molecule. -/
theorem regroup_roundtrip_well_formed (env : RegroupEnv) (v : Nat)
    (fragments : Groups (List Int)) (brxn : BaseReaction) (hOk : EnvOk env v)
    (hwf : WellFormed (fragments.get v))
    (hlen : (fragments.get v).length = (env.decomp.get v).length) :
    ∃ fragments' out,
      regroupGroup env v fragments brxn = .ok (fragments', brxn.set v (brxn.get v ++ out)) ∧
      (out.map (fun m => m.mol.vertexCount)).sum =
        ((env.decomp.get v).map
          (fun comp => (inducedSubgraph (env.mols.get v) comp).vertexCount)).sum ∧
      (out.map (fun m => m.mol.edgeCount)).sum =
        ((env.decomp.get v).map
          (fun comp => (inducedSubgraph (env.mols.get v) comp).edgeCount)).sum ∧
      (IsDecomposition (env.mols.get v) (env.decomp.get v) →
        (out.map (fun m => m.mol.vertexCount)).sum = (env.mols.get v).vertexCount ∧
        (out.map (fun m => m.mol.edgeCount)).sum = (env.mols.get v).edgeCount) := by
  have hV : ((leads (fragments.get v)).map
        (fun i => finalMolecule env v (members (fragments.get v) i))).map
        (fun m => m.mol.vertexCount) =
      (leads (fragments.get v)).map (fun i => ((members (fragments.get v) i).map
        (fun j => (fun comp => (inducedSubgraph (env.mols.get v) comp).vertexCount)
          ((env.decomp.get v).getD j []))).sum) := by
    rw [List.map_map]
    apply List.map_congr_left
    intro i _
    exact (finalMolecule_counts env v _).1
  have hE : ((leads (fragments.get v)).map
        (fun i => finalMolecule env v (members (fragments.get v) i))).map
        (fun m => m.mol.edgeCount) =
      (leads (fragments.get v)).map (fun i => ((members (fragments.get v) i).map
        (fun j => (fun comp => (inducedSubgraph (env.mols.get v) comp).edgeCount)
          ((env.decomp.get v).getD j []))).sum) := by
    rw [List.map_map]
    apply List.map_congr_left
    intro i _
    exact (finalMolecule_counts env v _).2
  have hVs := sum_over_leads (fragments.get v) hwf (env.decomp.get v) hlen
    (fun comp => (inducedSubgraph (env.mols.get v) comp).vertexCount)
  have hEs := sum_over_leads (fragments.get v) hwf (env.decomp.get v) hlen
    (fun comp => (inducedSubgraph (env.mols.get v) comp).edgeCount)
  refine ⟨_, _, regroupGroup_wf env v hOk fragments brxn hwf (by omega), ?_, ?_, ?_⟩
  · rw [hV, hVs]
  · rw [hE, hEs]
  · intro hd
    obtain ⟨h1, h2⟩ := decomposition_counts (env.mols.get v) (env.decomp.get v) hOk.1 hd
    exact ⟨by rw [hV, hVs, h1], by rw [hE, hEs, h2]⟩

theorem regroup_roundtrip_well_formed_witness :
    EnvOk exampleEnv 1 ∧ WellFormed [0] ∧ IsDecomposition (exampleEnv.mols.get 1) [[0, 1]] ∧
    ∃ fragments' out,
      regroupGroup exampleEnv 1 { r := [0, 0, 2], c := [0], p := [0] }
          { r := [], c := [], p := [] } = .ok (fragments', { r := [], c := out, p := [] }) ∧
      (out.map (fun m => m.mol.vertexCount)).sum = 2 ∧
      (out.map (fun m => m.mol.edgeCount)).sum = 1 := by
  refine ⟨by decide, by decide, by decide, ?_⟩
  obtain ⟨fragments', out, h, _, _, h3⟩ := regroup_roundtrip_well_formed exampleEnv 1
    { r := [0, 0, 2], c := [0], p := [0] } { r := [], c := [], p := [] }
    (by decide) (by decide) (by decide)
  exact ⟨fragments', out, h, h3 (by decide)⟩

/-- C6: for every group whose forwarding map is well formed, the regrouper emits exactly
one final molecule per lead, in ascending lead order, and the final molecule of lead `i`
is assembled from exactly the components `j` with `map[j] = i`, appended in ascending
`j`. -/
theorem regroup_well_formed (env : RegroupEnv) (v : Nat) (fragments : Groups (List Int))
    (brxn : BaseReaction) (hOk : EnvOk env v) (hwf : WellFormed (fragments.get v))
    (hlen : (fragments.get v).length = (env.decomp.get v).length) :
    ∃ fragments' out,
      regroupGroup env v fragments brxn = .ok (fragments', brxn.set v (brxn.get v ++ out)) ∧
      out.map (fun m => m.components) =
        (leads (fragments.get v)).map (members (fragments.get v)) ∧
      (∀ m ∈ out, m = finalMolecule env v m.components ∧
        m.mol.atoms = m.components.flatMap (fun j =>
          (inducedSubgraph (env.mols.get v) ((env.decomp.get v).getD j [])).atoms)) ∧
      (leads (fragments.get v)).Pairwise (fun a b => a < b) ∧
      (∀ i, i ∈ leads (fragments.get v) ↔ (fragments.get v)[i]? = some (i : Int)) ∧
      ∀ i, (members (fragments.get v) i).Pairwise (fun a b => a < b) ∧
        ∀ j, j ∈ members (fragments.get v) i ↔ (fragments.get v)[j]? = some (i : Int) := by
  refine ⟨_, _, regroupGroup_wf env v hOk fragments brxn hwf (by omega), ?_, ?_,
    leads_sorted _, mem_leads _, fun i => ⟨members_sorted _ i, mem_members _ i⟩⟩
  · rw [List.map_map]
    apply List.map_congr_left
    intro i _
    exact finalMolecule_components env v _
  · intro m hm
    rw [List.mem_map] at hm
    obtain ⟨i, _, rfl⟩ := hm
    rw [finalMolecule_components]
    refine ⟨rfl, ?_⟩
    show (assembled env v _ Accum.clear).mol.atoms = _
    rw [assembled_atoms]
    rfl

theorem regroup_well_formed_witness :
    EnvOk exampleEnv 0 ∧ WellFormed [0, 0, 2] ∧
    (entryLoop 8 "0.1,2|".toList { r := [0, 1, 2], c := [0], p := [0] } =
      .ok ("|".toList, { r := [0, 0, 2], c := [0], p := [0] })) ∧
    ∃ fragments' out,
      regroupGroup exampleEnv 0 { r := [0, 0, 2], c := [0], p := [0] }
          { r := [], c := [], p := [] } = .ok (fragments', { r := out, c := [], p := [] }) ∧
      out.map (fun m => m.components) = [[0, 1], [2]] := by
  refine ⟨by decide, by decide, by decide, ?_⟩
  obtain ⟨fragments', out, h, h2, _⟩ := regroup_well_formed exampleEnv 0
    { r := [0, 0, 2], c := [0], p := [0] } { r := [], c := [], p := [] }
    (by decide) (by decide) (by decide)
  exact ⟨fragments', out, h, h2⟩

/-! ## Loading without an annotation block -/

theorem getElem?_identityFragments (n j : Nat) :
    (identityFragments n)[j]? = if j < n then some (j : Int) else none := by
  unfold identityFragments
  by_cases h : j < n
  · rw [if_pos h, List.getElem?_map, List.getElem?_eq_getElem (by simpa using h)]
    simp
  · rw [if_neg h]
    exact List.getElem?_eq_none (by simpa using h)

theorem length_identityFragments (n : Nat) : (identityFragments n).length = n := by
  simp [identityFragments]

theorem wellFormed_identityFragments (n : Nat) : WellFormed (identityFragments n) := by
  intro j hj
  rw [length_identityFragments] at hj
  have h : (identityFragments n).getD j 0 = (j : Int) := by
    rw [List.getD_eq_getElem?_getD, getElem?_identityFragments, if_pos hj]; rfl
  rw [h]
  refine ⟨by omega, by simp, ?_⟩
  simpa using h

theorem leads_identityFragments (n : Nat) : leads (identityFragments n) = List.range n := by
  unfold leads
  rw [length_identityFragments, List.filter_eq_self]
  intro i hi
  rw [List.mem_range] at hi
  rw [getElem?_identityFragments, if_pos hi]
  simp

theorem filter_eq_range (i : Nat) : ∀ n, (List.range n).filter (fun j => j == i) =
    if i < n then [i] else [] := by
  intro n
  induction n with
  | zero => simp
  | succ n ih =>
    rw [List.range_succ, List.filter_append, ih]
    by_cases h1 : i < n
    · have h2 : i < n + 1 := by omega
      have h3 : (n == i) = false := by simp; omega
      simp [h1, h2, h3]
    · by_cases h4 : i = n
      · subst h4
        simp
      · have h2 : ¬ i < n + 1 := by omega
        have h3 : (n == i) = false := by simp; omega
        simp [h1, h2, h3]

theorem members_identityFragments (n i : Nat) (hi : i < n) :
    members (identityFragments n) i = [i] := by
  unfold members
  rw [length_identityFragments]
  have h : (List.range n).filter (fun j => (identityFragments n)[j]? == some (i : Int)) =
      (List.range n).filter (fun j => j == i) := by
    apply List.filter_congr
    intro j hj
    rw [List.mem_range] at hj
    rw [getElem?_identityFragments, if_pos hj]
    by_cases hji : j = i
    · subst hji; simp
    · have e1 : (j == i) = false := by simpa using hji
      rw [e1]
      simp
      omega
  rw [h, filter_eq_range, if_pos hi]

theorem regroup_wf (env : RegroupEnv) (fr : Groups (List Int))
    (h0 : EnvOk env 0) (h1 : EnvOk env 1) (h2 : EnvOk env 2)
    (w0 : WellFormed fr.r) (w1 : WellFormed fr.c) (w2 : WellFormed fr.p)
    (l0 : fr.r.length ≤ env.decomp.r.length) (l1 : fr.c.length ≤ env.decomp.c.length)
    (l2 : fr.p.length ≤ env.decomp.p.length) :
    ∃ fr', regroup env [0, 1, 2] fr { r := [], c := [], p := [] } = .ok (fr',
      { r := (leads fr.r).map (fun i => finalMolecule env 0 (members fr.r i))
        c := (leads fr.c).map (fun i => finalMolecule env 1 (members fr.c i))
        p := (leads fr.p).map (fun i => finalMolecule env 2 (members fr.p i)) }) := by
  have e0 := regroupGroup_wf env 0 h0 fr { r := [], c := [], p := [] } w0 l0
  have e1 := regroupGroup_wf env 1 h1
    (fr.set 0 (consumedBelow (fr.get 0) (fr.get 0).length))
    (({ r := [], c := [], p := [] } : BaseReaction).set 0
      (({ r := [], c := [], p := [] } : BaseReaction).get 0 ++
        (leads (fr.get 0)).map (fun i => finalMolecule env 0 (members (fr.get 0) i)))) w1 l1
  have e2 := regroupGroup_wf env 2 h2
    ((fr.set 0 (consumedBelow (fr.get 0) (fr.get 0).length)).set 1
      (consumedBelow fr.c fr.c.length))
    ({ r := (leads fr.r).map (fun i => finalMolecule env 0 (members fr.r i))
       c := (leads fr.c).map (fun i => finalMolecule env 1 (members fr.c i))
       p := [] } : BaseReaction) w2 l2
  unfold regroup
  rw [e0]
  simp only
  unfold regroup
  rw [e1]
  simp only
  unfold regroup
  erw [e2]
  simp only
  unfold regroup
  exact ⟨_, rfl⟩

theorem finalMolecule_single (env : RegroupEnv) (v j : Nat) :
    (finalMolecule env v [j]).components = [j] ∧
    (finalMolecule env v [j]).mol.atoms =
      ((env.decomp.get v).getD j []).filterMap (fun a => (env.mols.get v).atoms[a]?) ∧
    (finalMolecule env v [j]).aam =
      ((env.decomp.get v).getD j []).map (fun a => (env.aams.get v).getD a 0) ∧
    (finalMolecule env v [j]).highlighted = env.highlight := by
  refine ⟨finalMolecule_components env v [j], ?_, ?_, rfl⟩
  · show (assembled env v [j] Accum.clear).mol.atoms = _
    rw [assembled_atoms]
    simp [Accum.clear, BaseMolecule.clear, inducedSubgraph]
  · show (assembled env v [j] Accum.clear).aam = _
    rw [assembled_aam]
    simp [Accum.clear, origins]

theorem map_getD_range (l : List Int) : (List.range l.length).map (fun a => l.getD a 0) = l := by
  apply List.ext_getElem
  · simp
  · intro n h1 h2
    simp [List.getElem?_eq_getElem h2]

theorem filterMap_getElem?_range {α : Type} (l : List α) :
    (List.range l.length).filterMap (fun a => l[a]?) = l := by
  induction l using List.reverseRecOn with
  | nil => simp
  | append_singleton l a ih =>
    rw [List.length_append, List.length_singleton, List.range_succ, List.filterMap_append]
    have h1 : (List.range l.length).filterMap (fun i => (l ++ [a])[i]?) =
        (List.range l.length).filterMap (fun i => l[i]?) := by
      apply List.filterMap_congr
      intro i hi
      rw [List.mem_range] at hi
      rw [List.getElem?_append_left hi]
    rw [h1, ih]
    simp

theorem initialState_envOk (ext : Collaborators) (loaders : Groups SmilesLoader)
    (highlighting : Bool) (st : State)
    (hmols : st.mols = groupMols loaders)
    (hla : st.hl_atoms.length = (groupMols loaders).r.vertexCount +
      (groupMols loaders).c.vertexCount + (groupMols loaders).p.vertexCount)
    (hlb : st.hl_bonds.length = (groupMols loaders).r.edgeCount +
      (groupMols loaders).c.edgeCount + (groupMols loaders).p.edgeCount)
    (hdec : ∀ v, v < 3 → ∀ comp ∈ (groupDecomp ext loaders).get v, ∀ a ∈ comp,
      a < ((groupMols loaders).get v).vertexCount)
    (haam : ∀ v, v < 3 →
      ((groupAams loaders).get v).length = ((groupMols loaders).get v).vertexCount) :
    ∀ v, v < 3 → EnvOk (regroupEnv ext loaders st highlighting) v := by
  intro v hv
  have hd := hdec v hv
  have ha := haam v hv
  unfold EnvOk regroupEnv
  simp only [hmols, hla, hlb]
  refine ⟨hd, by omega, ?_, ?_⟩
  · match v, hv with
    | 0, _ => simp [vertexOffset, Groups.get]; omega
    | 1, _ => simp [vertexOffset, Groups.get, List.range_succ]
    | 2, _ => simp [vertexOffset, Groups.get, List.range_succ]
  · match v, hv with
    | 0, _ => simp [edgeOffset, Groups.get]; omega
    | 1, _ => simp [edgeOffset, Groups.get, List.range_succ]
    | 2, _ => simp [edgeOffset, Groups.get, List.range_succ]

/-- C5, as stated, fails: the reactant text `C.C` of the input `C.C>>C` is one non-empty
group of two components; without an annotation block the reaction gets two reactant
molecules, each with a one-entry AAM array, where the parser's AAM array has two entries. -/
theorem load_without_annotation_counterexample :
    (loadGroups exampleCollaborators false true "C.C>>C".toList).map
        (fun x => (x.1.r.mol.vertexCount, x.1.r.reaction_atom_mapping, x.2.1)) =
      .ok (2, [0, 0], false) ∧
    (loadReaction exampleCollaborators false false "C.C>>C".toList).map
        (fun brxn => (brxn.r.map (fun m => m.aam), brxn.c.length, brxn.p.length)) =
      .ok ([[0], [0]], 0, 1) := by
  exact ⟨by decide, by decide⟩

/-- C5 (amended): for every valid input with no annotation block, the resulting reaction
has, for each group, exactly one molecule for each connected component of the group
molecule, in component order (so none for an empty group), and the molecule of a
component consists of the atoms of that component with the AAM values the molecule parser
produced for them, unchanged. A group whose molecule is a single component gets exactly
one molecule, and its AAM array equals the parser's. -/
theorem load_without_annotation (ext : Collaborators)
    (highlighting ignore_closing_bond_direction_mismatch _rxn : Bool) (input rest : Scanner)
    (loaders : Groups SmilesLoader)
    (hload : loadGroups ext ignore_closing_bond_direction_mismatch _rxn input =
      .ok (loaders, false, rest))
    (hcheck : checkQueryAtoms _rxn loaders = .ok ())
    (hdec : ∀ v, v < 3 → ∀ comp ∈ (groupDecomp ext loaders).get v, ∀ a ∈ comp,
      a < ((groupMols loaders).get v).vertexCount)
    (haam : ∀ v, v < 3 →
      ((groupAams loaders).get v).length = ((groupMols loaders).get v).vertexCount) :
    ∃ brxn, _loadReaction ext highlighting ignore_closing_bond_direction_mismatch _rxn input =
        .ok brxn ∧
      ∀ v, v < 3 →
        (brxn.get v).length = ((groupDecomp ext loaders).get v).length ∧
        (∀ j, j < ((groupDecomp ext loaders).get v).length →
          ∃ m, (brxn.get v)[j]? = some m ∧ m.components = [j] ∧
            m.mol.atoms = (((groupDecomp ext loaders).get v).getD j []).filterMap
              (fun a => ((groupMols loaders).get v).atoms[a]?) ∧
            m.aam = (((groupDecomp ext loaders).get v).getD j []).map
              (fun a => ((groupAams loaders).get v).getD a 0) ∧
            m.highlighted = false) ∧
        ((groupDecomp ext loaders).get v =
            [List.range ((groupMols loaders).get v).vertexCount] →
          ∃ m, brxn.get v = [m] ∧ m.aam = (groupAams loaders).get v ∧
            m.mol.atoms = ((groupMols loaders).get v).atoms) := by
  let st := initialState (groupMols loaders) (groupDecomp ext loaders)
  let env := regroupEnv ext loaders st highlighting
  have hOk : ∀ v, v < 3 → EnvOk env v :=
    initialState_envOk ext loaders highlighting st rfl
      (by simp [st, initialState]) (by simp [st, initialState]) hdec haam
  obtain ⟨fr', hre⟩ := regroup_wf env st.fragments (hOk 0 (by omega)) (hOk 1 (by omega))
    (hOk 2 (by omega)) (wellFormed_identityFragments _) (wellFormed_identityFragments _)
    (wellFormed_identityFragments _)
    (by simp [st, initialState, length_identityFragments, env, regroupEnv, groupDecomp])
    (by simp [st, initialState, length_identityFragments, env, regroupEnv, groupDecomp])
    (by simp [st, initialState, length_identityFragments, env, regroupEnv, groupDecomp])
  have hrun : _loadReaction ext highlighting ignore_closing_bond_direction_mismatch _rxn input =
      .ok { r := (leads st.fragments.r).map (fun i => finalMolecule env 0 (members st.fragments.r i))
            c := (leads st.fragments.c).map (fun i => finalMolecule env 1 (members st.fragments.c i))
            p := (leads st.fragments.p).map (fun i => finalMolecule env 2 (members st.fragments.p i)) } := by
    unfold _loadReaction
    rw [hload]
    simp only [annotationBlock, Bool.false_eq_true, if_false, hcheck]
    rw [hre]
  -- the list of one group
  have hgroup : ∀ v, v < 3 →
      (({ r := (leads st.fragments.r).map (fun i => finalMolecule env 0 (members st.fragments.r i))
          c := (leads st.fragments.c).map (fun i => finalMolecule env 1 (members st.fragments.c i))
          p := (leads st.fragments.p).map (fun i => finalMolecule env 2 (members st.fragments.p i)) }
          : BaseReaction).get v) =
        (List.range ((groupDecomp ext loaders).get v).length).map
          (fun j => finalMolecule env v [j]) := by
    intro v hv
    have key : ∀ n, (leads (identityFragments n)).map
        (fun i => finalMolecule env v (members (identityFragments n) i)) =
        (List.range n).map (fun j => finalMolecule env v [j]) := by
      intro n
      rw [leads_identityFragments]
      apply List.map_congr_left
      intro i hi
      rw [List.mem_range] at hi
      rw [members_identityFragments n i hi]
    match v, hv with
    | 0, _ => exact key _
    | 1, _ => exact key _
    | 2, _ => exact key _
  refine ⟨_, hrun, ?_⟩
  intro v hv
  rw [hgroup v hv]
  have hhl : env.highlight = false := by simp [env, regroupEnv, st, initialState]
  refine ⟨by simp, ?_, ?_⟩
  · intro j hj
    obtain ⟨h1, h2, h3, h4⟩ := finalMolecule_single env v j
    refine ⟨finalMolecule env v [j], ?_, h1, h2, h3, by rw [h4, hhl]⟩
    rw [List.getElem?_map, List.getElem?_range hj]
    rfl
  · intro hone
    obtain ⟨_, h2, h3, _⟩ := finalMolecule_single env v 0
    have hd : env.decomp.get v = (groupDecomp ext loaders).get v := rfl
    have hm : env.mols.get v = (groupMols loaders).get v := rfl
    have ha : env.aams.get v = (groupAams loaders).get v := rfl
    refine ⟨finalMolecule env v [0], by rw [hone]; rfl, ?_, ?_⟩
    · rw [h3, hd, ha, hone]
      simp only [List.getD_cons_zero]
      rw [← haam v hv]
      exact map_getD_range _
    · rw [h2, hd, hm, hone]
      simp only [List.getD_cons_zero]
      exact filterMap_getElem?_range _

theorem load_without_annotation_witness :
    (loadGroups exampleCollaborators false true "C>>C".toList).map (fun x => x.2) =
        .ok (false, []) ∧
    (loadReaction exampleCollaborators false false "C>>C".toList).map
        (fun brxn => (brxn.r.map (fun m => (m.mol.vertexCount, m.aam)), brxn.c.length,
          brxn.p.map (fun m => (m.mol.vertexCount, m.aam)))) =
      .ok ([(1, [0])], 0, [(1, [0])]) ∧
    ∃ brxn, _loadReaction exampleCollaborators false false true "C>>C".toList = .ok brxn ∧
      ∀ v, v < 3 → (brxn.get v).length =
        (exampleCollaborators.decompose
          ((exampleParse (["C".toList, [], "C".toList].getD v []) false
            BaseMolecule.clear))).length := by
  refine ⟨by decide, by decide, ?_⟩
  obtain ⟨brxn, h, hall⟩ := load_without_annotation exampleCollaborators false false true
    "C>>C".toList [] _ rfl rfl (by decide) (by decide)
  refine ⟨brxn, h, ?_⟩
  intro v hv
  rw [(hall v hv).1]
  match v, hv with
  | 0, _ => rfl
  | 1, _ => rfl
  | 2, _ => rfl

/-! ## Reading numbers -/

theorem digitChar_isDigit (d : Nat) (h : d < 10) :
    (Nat.digitChar d).isDigit = true ∧ (Nat.digitChar d).toNat - 48 = d := by
  interval_cases d <;> exact ⟨by decide, by decide⟩

/-- The value of a run of digits read after the value `acc`. -/
theorem readDigits_append (pre : List Char) (hpre : ∀ c ∈ pre, c.isDigit = true)
    (rest : Scanner) (hrest : isdigit (Scanner.lookNext rest) = false) :
    ∀ acc, Scanner.readDigits (pre ++ rest) acc =
      (pre.foldl (fun a c => a * 10 + (c.toNat - 48)) acc, rest) := by
  induction pre with
  | nil =>
    intro acc
    cases rest with
    | nil => rfl
    | cons c rest =>
      have hc : c.isDigit = false := by simpa [isdigit, Scanner.lookNext] using hrest
      simp [Scanner.readDigits, hc]
  | cons c pre ih =>
    intro acc
    have hc : c.isDigit = true := hpre c (List.mem_cons_self _ _)
    simp only [List.cons_append, Scanner.readDigits, hc, if_true, List.foldl_cons]
    exact ih (fun c' hc' => hpre c' (List.mem_cons_of_mem _ hc')) _

theorem toDigitsCore_spec : ∀ (fuel n : Nat) (ds : List Char), n < fuel →
    ∃ pre, Nat.toDigitsCore 10 fuel n ds = pre ++ ds ∧ pre ≠ [] ∧
      (∀ c ∈ pre, c.isDigit = true) ∧
      pre.foldl (fun a c => a * 10 + (c.toNat - 48)) 0 = n := by
  intro fuel
  induction fuel with
  | zero => intro n ds h; omega
  | succ fuel ih =>
    intro n ds hn
    have hd := digitChar_isDigit (n % 10) (Nat.mod_lt _ (by decide))
    unfold Nat.toDigitsCore
    simp only
    by_cases h0 : n / 10 = 0
    · rw [if_pos h0]
      refine ⟨[Nat.digitChar (n % 10)], rfl, by simp, ?_, ?_⟩
      · intro c hc
        rw [List.mem_singleton] at hc
        rw [hc]; exact hd.1
      · simp only [List.foldl_cons, List.foldl_nil]
        rw [hd.2]
        omega
    · rw [if_neg h0]
      obtain ⟨pre, h1, _, h3, h4⟩ := ih (n / 10) (Nat.digitChar (n % 10) :: ds) (by omega)
      refine ⟨pre ++ [Nat.digitChar (n % 10)], by rw [h1]; simp, by simp, ?_, ?_⟩
      · intro c hc
        rw [List.mem_append, List.mem_singleton] at hc
        rcases hc with hc | hc
        · exact h3 c hc
        · rw [hc]; exact hd.1
      · rw [List.foldl_append, h4]
        simp only [List.foldl_cons, List.foldl_nil]
        rw [hd.2]
        omega

theorem decimal_spec (n : Nat) :
    ∃ c pre, decimal n = c :: pre ∧ c.isDigit = true ∧ (∀ c' ∈ pre, c'.isDigit = true) ∧
      (c :: pre).foldl (fun a c => a * 10 + (c.toNat - 48)) 0 = n := by
  obtain ⟨pre, h1, h2, h3, h4⟩ := toDigitsCore_spec (n + 1) n [] (by omega)
  rw [List.append_nil] at h1
  cases pre with
  | nil => exact absurd rfl h2
  | cons c pre =>
    exact ⟨c, pre, h1, h3 c (List.mem_cons_self _ _),
      fun c' hc' => h3 c' (List.mem_cons_of_mem _ hc'), h4⟩

theorem isdigit_decimal_append (n : Nat) (rest : Scanner) :
    isdigit (Scanner.lookNext (decimal n ++ rest)) = true := by
  obtain ⟨c, pre, h1, h2, _, _⟩ := decimal_spec n
  rw [h1]
  simpa [isdigit, Scanner.lookNext] using h2

theorem lookNext_decimal_append (n : Nat) (rest : Scanner) (ch : Char) (hch : ch.isDigit = false) :
    Scanner.lookNext (decimal n ++ rest) ≠ some ch := by
  obtain ⟨c, pre, h1, h2, _, _⟩ := decimal_spec n
  rw [h1]
  intro h
  simp [Scanner.lookNext] at h
  rw [h] at h2
  rw [h2] at hch
  cases hch

theorem readUnsigned_decimal (n : Nat) (rest : Scanner)
    (hrest : isdigit (Scanner.lookNext rest) = false) :
    Scanner.readUnsigned (decimal n ++ rest) = .ok (n, rest) := by
  unfold Scanner.readUnsigned
  rw [isdigit_decimal_append, if_pos rfl]
  obtain ⟨c, pre, h1, h2, h3, h4⟩ := decimal_spec n
  rw [h1, readDigits_append (c :: pre) _ rest hrest, h4]
  intro c' hc'
  rw [List.mem_cons] at hc'
  rcases hc' with hc' | hc'
  · rw [hc']; exact h2
  · exact h3 c' hc'

theorem length_decimal_pos (n : Nat) : 0 < (decimal n).length := by
  obtain ⟨c, pre, h1, _⟩ := decimal_spec n
  rw [h1]; simp

/-! ## The `f` directive -/

theorem selectGroupByPair_of_selectGroup (lead other r c p : Int) (G : Nat) (l : Int)
    (h : _selectGroup lead r c p = .ok (G, l)) :
    _selectGroupByPair lead other r c p = .ok (G, l, other - precedingSize r c G) ∧
      l = lead - precedingSize r c G ∧ G < 3 := by
  rw [selectGroup_eq] at h
  rw [selectGroupByPair_eq]
  by_cases h1 : lead < r
  · rw [if_pos h1] at h ⊢
    injection h with h; injection h with hG hl
    subst hG; subst hl
    simp [precedingSize]
  · rw [if_neg h1] at h ⊢
    by_cases h2 : lead - r < c
    · rw [if_pos h2] at h ⊢
      injection h with h; injection h with hG hl
      subst hG; subst hl
      simp [precedingSize]
    · rw [if_neg h2] at h ⊢
      by_cases h3 : lead - r - c < p
      · rw [if_pos h3] at h ⊢
        injection h with h; injection h with hG hl
        subst hG; subst hl
        simp [precedingSize]
        omega
      · rw [if_neg h3] at h
        cases h

/-- The forwarding maps after the leaves `xs` of an entry have been stored: the map of
group `G` holds `lead` at the local position of every leaf. -/
theorem leafLoop_text (L : Nat) (G : Nat) (lead off : Int) :
    ∀ (xs : List Nat) (fuel : Nat) (rest : Scanner) (fr : Groups (List Int)),
      xs.length < fuel →
      Scanner.lookNext rest ≠ some '.' → isdigit (Scanner.lookNext rest) = false →
      (∀ other : Int, _selectGroupByPair L other fr.r.length fr.c.length fr.p.length =
        .ok (G, lead, other - off)) →
      (∀ x ∈ xs, 0 ≤ (x : Int) - off ∧ ((x : Int) - off).toNat < (fr.get G).length) →
      leafLoop L fuel (leafText xs ++ rest) fr = .ok (rest,
        fr.set G (xs.foldl (fun (m : List Int) (x : Nat) => m.set ((x : Int) - off).toNat lead)
          (fr.get G))) := by
  intro xs
  induction xs with
  | nil =>
    intro fuel rest fr hf hdot _ _ _
    obtain ⟨fuel, rfl⟩ : ∃ k, fuel = k + 1 := ⟨fuel - 1, by simp at hf; omega⟩
    simp only [leafText, List.nil_append, leafLoop, if_neg hdot, List.foldl_nil, Groups.set_get]
  | cons x xs ih =>
    intro fuel rest fr hf hdot hdig hsel hx
    obtain ⟨fuel, rfl⟩ : ∃ k, fuel = k + 1 := ⟨fuel - 1, by simp at hf; omega⟩
    have hx0 := hx x (List.mem_cons_self _ _)
    have hnext : isdigit (Scanner.lookNext (leafText xs ++ rest)) = false := by
      cases xs with
      | nil => simpa [leafText] using hdig
      | cons y ys => simp [leafText, isdigit, Scanner.lookNext]
    have hlk : Scanner.lookNext (leafText (x :: xs) ++ rest) = some '.' := by
      simp [leafText, Scanner.lookNext]
    have hskip : Scanner.skip (leafText (x :: xs) ++ rest) 1 =
        decimal x ++ (leafText xs ++ rest) := by
      simp [leafText, Scanner.skip]
    unfold leafLoop
    rw [if_pos hlk]
    simp only
    rw [hskip, readUnsigned_decimal x _ hnext]
    simp only
    rw [hsel]
    simp only
    unfold arraySet
    rw [if_pos ⟨hx0.1, hx0.2⟩]
    simp only
    have hsizes : ∀ g, ((fr.set G ((fr.get G).set ((x : Int) - off).toNat lead)).get g).length =
        (fr.get g).length := by
      intro g
      match G, g with
      | 0, 0 => simp [Groups.get, Groups.set]
      | 0, 1 => simp [Groups.get, Groups.set]
      | 0, _ + 2 => simp [Groups.get, Groups.set]
      | 1, 0 => simp [Groups.get, Groups.set]
      | 1, 1 => simp [Groups.get, Groups.set]
      | 1, _ + 2 => simp [Groups.get, Groups.set]
      | _ + 2, 0 => simp [Groups.get, Groups.set]
      | _ + 2, 1 => simp [Groups.get, Groups.set]
      | _ + 2, _ + 2 => simp [Groups.get, Groups.set]
    have hr : (fr.set G ((fr.get G).set ((x : Int) - off).toNat lead)).r.length = fr.r.length :=
      hsizes 0
    have hc : (fr.set G ((fr.get G).set ((x : Int) - off).toNat lead)).c.length = fr.c.length :=
      hsizes 1
    have hp : (fr.set G ((fr.get G).set ((x : Int) - off).toNat lead)).p.length = fr.p.length :=
      hsizes 2
    rw [ih fuel rest _ (by simp at hf; omega) hdot hdig
      (by intro other; rw [hr, hc, hp]; exact hsel other)
      (by
        intro y hy
        rw [Groups.get_set, List.length_set]
        exact hx y (List.mem_cons_of_mem _ hy))]
    simp only [Groups.get_set, Groups.set_set, List.foldl_cons]

theorem foldl_set_length (lead : Int) (pos : Nat → Nat) : ∀ (xs : List Nat) (m0 : List Int),
    (xs.foldl (fun (m : List Int) (x : Nat) => m.set (pos x) lead) m0).length = m0.length := by
  intro xs
  induction xs with
  | nil => intro m0; rfl
  | cons x xs ih => intro m0; rw [List.foldl_cons, ih, List.length_set]

theorem foldl_set_hit (lead : Int) (pos : Nat → Nat) : ∀ (xs : List Nat) (m0 : List Int) (q : Nat),
    q < m0.length → (m0[q]? = some lead ∨ ∃ x ∈ xs, pos x = q) →
    (xs.foldl (fun (m : List Int) (x : Nat) => m.set (pos x) lead) m0)[q]? = some lead := by
  intro xs
  induction xs with
  | nil =>
    intro m0 q _ h
    rcases h with h | ⟨x, hx, _⟩
    · exact h
    · cases hx
  | cons x xs ih =>
    intro m0 q hq h
    rw [List.foldl_cons]
    apply ih _ q (by rw [List.length_set]; exact hq)
    by_cases hpq : pos x = q
    · left
      rw [List.getElem?_set, if_pos hpq, if_pos (by omega)]
    · rcases h with h | ⟨x', hx', hpx'⟩
      · left
        rw [List.getElem?_set_ne hpq]; exact h
      · rw [List.mem_cons] at hx'
        rcases hx' with hx' | hx'
        · subst hx'; exact absurd hpx' hpq
        · right; exact ⟨x', hx', hpx'⟩

theorem foldl_set_miss (lead : Int) (pos : Nat → Nat) : ∀ (xs : List Nat) (m0 : List Int) (q : Nat),
    (∀ x ∈ xs, q ≠ pos x) →
    (xs.foldl (fun (m : List Int) (x : Nat) => m.set (pos x) lead) m0)[q]? = m0[q]? := by
  intro xs
  induction xs with
  | nil => intro m0 q _; rfl
  | cons x xs ih =>
    intro m0 q h
    rw [List.foldl_cons, ih _ q (fun y hy => h y (List.mem_cons_of_mem _ hy)),
      List.getElem?_set_ne (fun e => h x (List.mem_cons_self _ _) e.symm)]

theorem Groups.get_set_ne {α : Type} (t : Groups α) (G g : Nat) (x : α) (hG : G < 3) (hg : g < 3)
    (hne : g ≠ G) : (t.set G x).get g = t.get g := by
  match G, hG, g, hg with
  | 0, _, 0, _ => exact absurd rfl hne
  | 0, _, 1, _ => rfl
  | 0, _, 2, _ => rfl
  | 1, _, 0, _ => rfl
  | 1, _, 1, _ => exact absurd rfl hne
  | 1, _, 2, _ => rfl
  | 2, _, 0, _ => rfl
  | 2, _, 1, _ => rfl
  | 2, _, 2, _ => exact absurd rfl hne

/-- C7: for every `f` entry `L.x1.x2...xn` in which `L` is below the total component
count, resolving to group `G` and local index `lead`, and every `xi` reduces to an
in-range local index of `G`, processing the entry leaves `lead` at each position
`local(xi)` of the forwarding map of `G`, and leaves every other entry of that map and
every entry of the maps of the two other groups unchanged. -/
theorem f_entry_effect (L : Nat) (xs : List Nat) (rest : Scanner) (fragments : Groups (List Int))
    (G : Nat) (lead : Int)
    (hsel : _selectGroup L fragments.r.length fragments.c.length fragments.p.length =
      .ok (G, lead))
    (hx : ∀ x ∈ xs,
      0 ≤ (x : Int) - precedingSize fragments.r.length fragments.c.length G ∧
      (x : Int) - precedingSize fragments.r.length fragments.c.length G <
        (fragments.get G).length)
    (hdig : isdigit (Scanner.lookNext rest) = false)
    (hdot : Scanner.lookNext rest ≠ some '.') (hcomma : Scanner.lookNext rest ≠ some ',') :
    ∃ fragments',
      entryLoop ((decimal L ++ (leafText xs ++ rest)).length + 1)
        (decimal L ++ (leafText xs ++ rest)) fragments = .ok (rest, fragments') ∧
      (∀ x ∈ xs, (fragments'.get G)[((x : Int) -
          precedingSize fragments.r.length fragments.c.length G).toNat]? = some lead) ∧
      (∀ pos, (∀ x ∈ xs, pos ≠ ((x : Int) -
          precedingSize fragments.r.length fragments.c.length G).toNat) →
        (fragments'.get G)[pos]? = (fragments.get G)[pos]?) ∧
      (∀ g, g < 3 → g ≠ G → fragments'.get g = fragments.get g) ∧
      ∀ g, (fragments'.get g).length = (fragments.get g).length := by
  have hpair : ∀ other : Int, _selectGroupByPair L other fragments.r.length
      fragments.c.length fragments.p.length =
      .ok (G, lead, other - precedingSize fragments.r.length fragments.c.length G) :=
    fun other => (selectGroupByPair_of_selectGroup _ other _ _ _ G lead hsel).1
  have hG : G < 3 := (selectGroupByPair_of_selectGroup _ 0 _ _ _ G lead hsel).2.2
  have hx' : ∀ x ∈ xs,
      0 ≤ (x : Int) - precedingSize fragments.r.length fragments.c.length G ∧
      ((x : Int) - precedingSize fragments.r.length fragments.c.length G).toNat <
        (fragments.get G).length := by
    intro x hxm
    obtain ⟨h1, h2⟩ := hx x hxm
    exact ⟨h1, by omega⟩
  have hnext : isdigit (Scanner.lookNext (leafText xs ++ rest)) = false := by
    cases xs with
    | nil => simpa [leafText] using hdig
    | cons y ys => simp [leafText, isdigit, Scanner.lookNext]
  have hlen : 0 < (decimal L ++ (leafText xs ++ rest)).length := by
    rw [List.length_append]
    have := length_decimal_pos L
    omega
  obtain ⟨fuel, hfuel⟩ : ∃ k, (decimal L ++ (leafText xs ++ rest)).length = k + 1 :=
    ⟨_, (Nat.succ_pred_eq_of_pos hlen).symm⟩
  have hxl : xs.length < (leafText xs ++ rest).length + 1 := by
    have : ∀ ys : List Nat, ys.length ≤ (leafText ys).length := by
      intro ys
      induction ys with
      | nil => simp [leafText]
      | cons y ys ih => simp [leafText]; omega
    have := this xs
    rw [List.length_append]
    omega
  refine ⟨fragments.set G (xs.foldl (fun (m : List Int) (x : Nat) => m.set ((x : Int) -
      precedingSize fragments.r.length fragments.c.length G).toNat lead) (fragments.get G)),
    ?_, ?_, ?_, ?_, ?_⟩
  · rw [hfuel]
    unfold entryLoop
    rw [isdigit_decimal_append, if_pos rfl, readUnsigned_decimal L _ hnext]
    simp only
    rw [leafLoop_text L G lead _ xs _ rest fragments hxl hdot hdig hpair hx']
    simp only [if_neg hcomma]
    unfold entryLoop
    rw [hdig]
    simp
  · intro x hxm
    rw [Groups.get_set]
    exact foldl_set_hit lead _ xs _ _ (hx' x hxm).2 (Or.inr ⟨x, hxm, rfl⟩)
  · intro pos hpos
    rw [Groups.get_set]
    exact foldl_set_miss lead _ xs _ pos hpos
  · intro g hg hne
    exact Groups.get_set_ne _ _ _ _ hG hg hne
  · intro g
    by_cases hgG : fragments.get g = fragments.get G ∧
        (fragments.set G (xs.foldl (fun (m : List Int) (x : Nat) => m.set ((x : Int) -
          precedingSize fragments.r.length fragments.c.length G).toNat lead)
          (fragments.get G))).get g = (xs.foldl (fun (m : List Int) (x : Nat) => m.set ((x : Int) -
          precedingSize fragments.r.length fragments.c.length G).toNat lead)
          (fragments.get G))
    · rw [hgG.2, foldl_set_length, hgG.1]
    · match G, hG, g with
      | 0, _, 0 => exact absurd ⟨rfl, rfl⟩ hgG
      | 0, _, 1 => rfl
      | 0, _, _ + 2 => rfl
      | 1, _, 0 => rfl
      | 1, _, 1 => exact absurd ⟨rfl, rfl⟩ hgG
      | 1, _, _ + 2 => rfl
      | 2, _, 0 => rfl
      | 2, _, 1 => rfl
      | 2, _, _ + 2 => exact absurd ⟨rfl, rfl⟩ hgG

theorem f_entry_effect_witness :
    _selectGroup 3 3 2 1 = .ok (1, 0) ∧
    entryLoop 5 "3.4|".toList { r := [0, 1, 2], c := [0, 1], p := [0] } =
      .ok ("|".toList, { r := [0, 1, 2], c := [0, 0], p := [0] }) ∧
    ∃ fragments',
      entryLoop ((decimal 3 ++ (leafText [4] ++ "|".toList)).length + 1)
        (decimal 3 ++ (leafText [4] ++ "|".toList))
        { r := [0, 1, 2], c := [0, 1], p := [0] } = .ok ("|".toList, fragments') ∧
      (fragments'.get 1)[1]? = some 0 ∧ fragments'.get 0 = [0, 1, 2] := by
  refine ⟨by decide, by decide, ?_⟩
  obtain ⟨fragments', h1, h2, _, h4, _⟩ := f_entry_effect 3 [4] "|".toList
    { r := [0, 1, 2], c := [0, 1], p := [0] } 1 0 (by decide) (by decide) (by decide)
    (by decide) (by decide)
  exact ⟨fragments', h1, h2 4 (List.mem_singleton.mpr rfl), h4 0 (by decide) (by decide)⟩

/-! ## The `h` directive and the highlighting of the final molecules -/

theorem length_indexText (gs : List Nat) : gs.length ≤ (indexText gs).length := by
  induction gs with
  | nil => simp [indexText]
  | cons g gs ih =>
    have := length_decimal_pos g
    cases gs with
    | nil => simp [indexText]; omega
    | cons g' gs => simp [indexText] at ih ⊢; omega

/-- An index loop run on the text of an index list applies its body to the listed
numbers in turn, as long as the body succeeds. -/
theorem indexList_text (body : Nat → State → Except Error State) (f : Nat → State → State)
    (P : State → Prop) (rest : Scanner)
    (hdig : isdigit (Scanner.lookNext rest) = false)
    (hcomma : Scanner.lookNext rest ≠ some ',') :
    ∀ (gs : List Nat) (fuel : Nat) (st : State), gs.length < fuel → P st →
      (∀ g ∈ gs, ∀ st, P st → body g st = .ok (f g st) ∧ P (f g st)) →
      indexList body fuel (indexText gs ++ rest) st =
        .ok (rest, gs.foldl (fun st g => f g st) st) := by
  intro gs
  induction gs with
  | nil =>
    intro fuel st hf _ _
    obtain ⟨fuel, rfl⟩ : ∃ k, fuel = k + 1 := ⟨fuel - 1, by simp at hf; omega⟩
    simp [indexText, indexList, hdig]
  | cons g gs ih =>
    intro fuel st hf hP hbody
    obtain ⟨fuel, rfl⟩ : ∃ k, fuel = k + 1 := ⟨fuel - 1, by simp at hf; omega⟩
    obtain ⟨hb1, hb2⟩ := hbody g (List.mem_cons_self _ _) st hP
    have hbody' : ∀ g' ∈ gs, ∀ st, P st → body g' st = .ok (f g' st) ∧ P (f g' st) :=
      fun g' hg' => hbody g' (List.mem_cons_of_mem _ hg')
    unfold indexList
    cases gs with
    | nil =>
      have ht : indexText [g] ++ rest = decimal g ++ rest := rfl
      rw [ht, isdigit_decimal_append, if_pos rfl, readUnsigned_decimal g rest hdig]
      simp only
      rw [hb1]
      simp only [if_neg hcomma]
      have := ih fuel (f g st) (by simp at hf ⊢; omega) hb2 hbody'
      simp only [indexText, List.nil_append] at this
      rw [this]
      rfl
    | cons g' gs =>
      have ht : indexText (g :: g' :: gs) ++ rest =
          decimal g ++ (',' :: (indexText (g' :: gs) ++ rest)) := by
        simp [indexText]
      have hnd : isdigit (Scanner.lookNext (',' :: (indexText (g' :: gs) ++ rest))) = false := by
        simp [isdigit, Scanner.lookNext]
      rw [ht, isdigit_decimal_append, if_pos rfl, readUnsigned_decimal g _ hnd]
      simp only
      rw [hb1]
      have hlk : Scanner.lookNext (',' :: (indexText (g' :: gs) ++ rest)) = some ',' := rfl
      simp only [if_pos hlk]
      have hsk : Scanner.skip (',' :: (indexText (g' :: gs) ++ rest)) 1 =
          indexText (g' :: gs) ++ rest := rfl
      rw [hsk, ih fuel (f g st) (by simp at hf ⊢; omega) hb2 hbody']
      rfl

theorem foldl_highlight (gs : List Nat) : ∀ (st : State),
    gs.foldl (fun st g => { st with hl_atoms := st.hl_atoms.set g 1 }) st =
      { st with hl_atoms :=
          (gs.foldl (fun (hl : List Int) (g : Nat) => hl.set (id g) 1) st.hl_atoms) } := by
  induction gs with
  | nil => intro st; rfl
  | cons g gs ih => intro st; rw [List.foldl_cons, ih]; rfl

theorem flags_getD (n : Nat) (gs : List Nat) (hgs : ∀ g ∈ gs, g < n) (q : Nat) :
    ((gs.foldl (fun (hl : List Int) (g : Nat) => hl.set (id g) 1)
        (List.replicate n 0)).getD q 0 ≠ 0) ↔ q ∈ gs := by
  rw [List.getD_eq_getElem?_getD]
  constructor
  · intro h
    by_contra hq
    rw [foldl_set_miss 1 id gs _ q (fun x hx e => hq (by rw [e]; exact hx))] at h
    by_cases hqn : q < n
    · rw [List.getElem?_eq_getElem (by simpa using hqn)] at h
      simp at h
    · rw [List.getElem?_eq_none (by simpa using hqn)] at h
      simp at h
  · intro hq
    rw [foldl_set_hit 1 id gs _ q (by simpa using hgs q hq) (Or.inr ⟨q, hq, rfl⟩)]
    simp

theorem highlight_list (gs : List Nat) (rest : Scanner) (st : State)
    (hdig : isdigit (Scanner.lookNext rest) = false)
    (hcomma : Scanner.lookNext rest ≠ some ',')
    (hgs : ∀ g ∈ gs, g < st.hl_atoms.length) :
    indexList (highlightBody true) ((indexText gs ++ rest).length + 1)
        (indexText gs ++ rest) st =
      .ok (rest, { st with hl_atoms :=
        (gs.foldl (fun (hl : List Int) (g : Nat) => hl.set (id g) 1) st.hl_atoms) }) := by
  have hlen := length_indexText gs
  rw [indexList_text (highlightBody true)
    (fun g st => { st with hl_atoms := st.hl_atoms.set g 1 })
    (fun s => s.hl_atoms.length = st.hl_atoms.length) rest hdig hcomma gs _ st
    (by rw [List.length_append]; omega) rfl ?_, foldl_highlight]
  intro g hg s hs
  have hlt : g < s.hl_atoms.length := by rw [hs]; exact hgs g hg
  constructor
  · simp only [highlightBody, if_true]
    rw [arraySet_of_lt _ g 1 hlt]
  · simp only [List.length_set]
    exact hs

theorem atomHighlighted_final (env : RegroupEnv) (v : Nat) (js : List Nat) (k a : Nat)
    (h : (origins env v js)[k]? = some a) :
    (finalMolecule env v js).atomHighlighted k =
      (env.highlight && (env.hl_atoms.getD (a + vertexOffset env.mols v) 0 != 0)) := by
  have hfrag : (finalMolecule env v js).hl_atoms_frag =
      (origins env v js).map (fun a => env.hl_atoms.getD (a + vertexOffset env.mols v) 0) := by
    show (assembled env v js Accum.clear).hl_atoms_frag = _
    rw [assembled_hl_atoms]
    rfl
  unfold ReactionMolecule.atomHighlighted
  rw [hfrag, List.getElem?_map, h]
  simp [finalMolecule]

theorem exists_origin (env : RegroupEnv) (v : Nat) (js : List Nat) (j a : Nat) (hj : j ∈ js)
    (ha : a ∈ (env.decomp.get v).getD j []) : ∃ k : Nat, (origins env v js)[k]? = some a := by
  have hmem : a ∈ origins env v js := by
    unfold origins
    rw [List.mem_flatMap]
    exact ⟨j, hj, ha⟩
  exact List.mem_iff_getElem?.mp hmem

theorem selectAtom_offset (mols : Groups BaseMolecule) (g v : Nat) (a : Int)
    (h : selectAtom mols g = .ok (v, a)) :
    0 ≤ a ∧ a.toNat + vertexOffset mols v = g ∧ v < 3 := by
  unfold selectAtom at h
  rw [selectGroup_eq] at h
  by_cases h1 : (g : Int) < mols.r.vertexCount
  · rw [if_pos h1] at h
    injection h with h; injection h with hv ha
    subst hv; subst ha
    simp [vertexOffset]
  · rw [if_neg h1] at h
    by_cases h2 : (g : Int) - mols.r.vertexCount < mols.c.vertexCount
    · rw [if_pos h2] at h
      injection h with h; injection h with hv ha
      subst hv; subst ha
      simp [vertexOffset, Groups.get, List.range_succ]
      omega
    · rw [if_neg h2] at h
      by_cases h3 : (g : Int) - mols.r.vertexCount - mols.c.vertexCount < mols.p.vertexCount
      · rw [if_pos h3] at h
        injection h with h; injection h with hv ha
        subst hv; subst ha
        simp [vertexOffset, Groups.get, List.range_succ]
        omega
      · rw [if_neg h3] at h
        cases h

theorem getElem?_filterMap_atoms (atoms : List Atom) :
    ∀ (l : List Nat), (∀ a ∈ l, a < atoms.length) → ∀ (k a : Nat), l[k]? = some a →
      (l.filterMap (fun a => atoms[a]?))[k]? = atoms[a]? := by
  intro l
  induction l with
  | nil => intro _ k a h; cases h
  | cons b l ih =>
    intro hl k a h
    have hb : b < atoms.length := hl b (List.mem_cons_self _ _)
    rw [List.filterMap_cons, List.getElem?_eq_getElem hb]
    simp only
    cases k with
    | zero =>
      simp only [List.getElem?_cons_zero] at h ⊢
      injection h with h
      subst h
      exact (List.getElem?_eq_getElem hb).symm
    | succ k =>
      simp only [List.getElem?_cons_succ] at h ⊢
      exact ih (fun c hc => hl c (List.mem_cons_of_mem _ hc)) k a h

theorem ha_directive_step (_rxn : Bool) (gs : List Nat) (rest : Scanner) (st : State) (fuel : Nat)
    (hdig : isdigit (Scanner.lookNext rest) = false)
    (hcomma : Scanner.lookNext rest ≠ some ',')
    (hgs : ∀ g ∈ gs, g < st.hl_atoms.length) :
    directiveLoop _rxn (fuel + 1) ('h' :: 'a' :: ':' :: (indexText gs ++ rest)) st =
      directiveLoop _rxn fuel rest
        { st with have_highlighting := true
                  hl_atoms := (gs.foldl (fun (hl : List Int) (g : Nat) => hl.set (id g) 1)
                    st.hl_atoms) } := by
  have h := highlight_list gs rest { st with have_highlighting := true } hdig hcomma hgs
  have e1 : ('h' = '|') = False := eq_false (by decide)
  have e2 : ('h' = 'w') = False := eq_false (by decide)
  have e3 : ('h' = 'a') = False := eq_false (by decide)
  have e4 : ('h' = 'o') = False := eq_false (by decide)
  have e5 : ('h' = '&') = False := eq_false (by decide)
  have e6 : ('h' = '^') = False := eq_false (by decide)
  have e7 : ('h' = 'f') = False := eq_false (by decide)
  have e8 : ('h' = '$') = False := eq_false (by decide)
  have e9 : ('a' ≠ 'a' ∧ 'a' ≠ 'b') = False := eq_false (by decide)
  have e10 : (':' ≠ ':') = False := eq_false (by decide)
  have e11 : decide ('a' = 'a') = true := by decide
  conv => lhs; unfold directiveLoop
  simp only [Scanner.readChar, expectColon, e1, e2, e3, e4, e5, e6, e7, e8, e9, e10, e11,
    if_false, if_true, decide_True]
  rw [h]

theorem origins_valid (env : RegroupEnv) (v : Nat)
    (hvalid : ∀ comp ∈ env.decomp.get v, ∀ a ∈ comp, a < (env.mols.get v).vertexCount)
    (js : List Nat) : ∀ a ∈ origins env v js, a < (env.mols.get v).atoms.length := by
  intro a ha
  unfold origins at ha
  rw [List.mem_flatMap] at ha
  obtain ⟨j, _, haj⟩ := ha
  by_cases hj : j < (env.decomp.get v).length
  · rw [List.getD_eq_getElem _ _ hj] at haj
    exact hvalid _ (List.getElem_mem _) a haj
  · rw [List.getD_eq_getElem?_getD, List.getElem?_eq_none (by omega)] at haj
    cases haj

theorem finalMolecule_atoms (env : RegroupEnv) (v : Nat) (js : List Nat) :
    (finalMolecule env v js).mol.atoms =
      (origins env v js).filterMap (fun a => (env.mols.get v).atoms[a]?) := by
  show (assembled env v js Accum.clear).mol.atoms = _
  rw [assembled_atoms]
  simp only [Accum.clear, BaseMolecule.clear, List.nil_append, origins, inducedSubgraph]
  induction js with
  | nil => rfl
  | cons j js ih => rw [List.flatMap_cons, List.flatMap_cons, List.filterMap_append, ih]

theorem length_filterMap_atoms (atoms : List Atom) :
    ∀ (l : List Nat), (∀ a ∈ l, a < atoms.length) →
      (l.filterMap (fun a => atoms[a]?)).length = l.length := by
  intro l
  induction l with
  | nil => intro _; rfl
  | cons b l ih =>
    intro hl
    have hb : b < atoms.length := hl b (List.mem_cons_self _ _)
    rw [List.filterMap_cons, List.getElem?_eq_getElem hb]
    simp only [List.length_cons]
    rw [ih (fun c hc => hl c (List.mem_cons_of_mem _ hc))]

/-- C8: a global atom index `g` listed by an `ha` directive, resolving to group `v` and
local atom `a`, switches on the atom of the final molecule of `v` that originates from
`a`; and an atom of a final molecule is switched on only if the global index of its
origin (the group-local origin plus the atom counts of the preceding groups) was listed.
This holds for every well-formed forwarding map. -/
theorem highlight_reindexing (_rxn : Bool) (gs : List Nat) (rest : Scanner) (st : State)
    (fuel : Nat) (env : RegroupEnv) (v : Nat) (fragments : Groups (List Int))
    (brxn : BaseReaction)
    (hzero : st.hl_atoms = List.replicate
      (st.mols.r.vertexCount + st.mols.c.vertexCount + st.mols.p.vertexCount) 0)
    (hgs : ∀ g ∈ gs,
      g < st.mols.r.vertexCount + st.mols.c.vertexCount + st.mols.p.vertexCount)
    (hdig : isdigit (Scanner.lookNext rest) = false)
    (hcomma : Scanner.lookNext rest ≠ some ',')
    (hmols : env.mols = st.mols) (hflags : env.hl_atoms = flagged st.hl_atoms gs)
    (hOk : EnvOk env v) (hwf : WellFormed (fragments.get v))
    (hlen : (fragments.get v).length = (env.decomp.get v).length) :
    directiveLoop _rxn (fuel + 1) ('h' :: 'a' :: ':' :: (indexText gs ++ rest)) st =
      directiveLoop _rxn fuel rest
        { st with have_highlighting := true, hl_atoms := flagged st.hl_atoms gs } ∧
    ∃ fragments' out,
      regroupGroup env v fragments brxn = .ok (fragments', brxn.set v (brxn.get v ++ out)) ∧
      (∀ m ∈ out, m.mol.vertexCount = (origins env v m.components).length ∧
        ∀ (k a : Nat), (origins env v m.components)[k]? = some a →
          m.mol.atoms[k]? = (env.mols.get v).atoms[a]? ∧
          (m.atomHighlighted k = true ↔
            env.highlight = true ∧ a + vertexOffset env.mols v ∈ gs)) ∧
      ∀ g ∈ gs, ∀ (a : Int), selectAtom st.mols g = .ok (v, a) →
        a.toNat ∈ (env.decomp.get v).flatten → env.highlight = true →
        ∃ m ∈ out, ∃ k : Nat, (origins env v m.components)[k]? = some a.toNat ∧
          m.atomHighlighted k = true := by
  have hgs' : ∀ g ∈ gs, g < st.hl_atoms.length := by
    intro g hg
    rw [hzero, List.length_replicate]
    exact hgs g hg
  have hhl : ∀ (js : List Nat) (k a : Nat), (origins env v js)[k]? = some a →
      ((finalMolecule env v js).atomHighlighted k = true ↔
        env.highlight = true ∧ a + vertexOffset env.mols v ∈ gs) := by
    intro js k a hka
    rw [atomHighlighted_final env v js k a hka, hflags, hzero, Bool.and_eq_true, bne_iff_ne]
    exact and_congr Iff.rfl (flags_getD _ gs hgs _)
  refine ⟨ha_directive_step _rxn gs rest st fuel hdig hcomma hgs', _, _,
    regroupGroup_wf env v hOk fragments brxn hwf (by omega), ?_, ?_⟩
  · intro m hm
    rw [List.mem_map] at hm
    obtain ⟨i, _, rfl⟩ := hm
    rw [finalMolecule_components]
    have hval := origins_valid env v hOk.1 (members (fragments.get v) i)
    refine ⟨?_, ?_⟩
    · unfold BaseMolecule.vertexCount
      rw [finalMolecule_atoms, length_filterMap_atoms _ _ hval]
    · intro k a hka
      refine ⟨?_, hhl _ k a hka⟩
      rw [finalMolecule_atoms]
      exact getElem?_filterMap_atoms _ _ hval k a hka
  · intro g hg a hsel hmem hhigh
    obtain ⟨h0, hoff, _⟩ := selectAtom_offset st.mols g v a hsel
    rw [List.mem_flatten] at hmem
    obtain ⟨comp, hcomp, hac⟩ := hmem
    obtain ⟨j, hj, hjc⟩ := List.getElem_of_mem hcomp
    obtain ⟨l, hl1, _, hl3⟩ := wf_entry (fragments.get v) hwf j (by omega)
    have hjm : j ∈ members (fragments.get v) l := (mem_members _ l j).mpr hl1
    have hll : l ∈ leads (fragments.get v) := (mem_leads _ l).mpr hl3
    obtain ⟨k, hk⟩ := exists_origin env v (members (fragments.get v) l) j a.toNat hjm
      (by rw [List.getD_eq_getElem _ _ hj, hjc]; exact hac)
    refine ⟨finalMolecule env v (members (fragments.get v) l),
      List.mem_map.mpr ⟨l, hll, rfl⟩, k, ?_, ?_⟩
    · rw [finalMolecule_components]; exact hk
    · rw [hhl _ k a.toNat hk]
      refine ⟨hhigh, ?_⟩
      rw [hmols, hoff]
      exact hg

theorem highlight_reindexing_witness :
    selectAtom exampleState.mols 3 = .ok (1, 0) ∧
    (loadReaction exampleCollaborators true false "C.C.C>NN>C|ha:3|".toList).map
        (fun brxn => (brxn.r.map (fun m => m.atomHighlighted 0),
          brxn.c.map (fun m => (m.atomHighlighted 0, m.atomHighlighted 1)))) =
      .ok ([false, false, false], [(true, false)]) ∧
    ∃ fragments' out,
      regroupGroup exampleEnv 1 { r := [0, 1, 2], c := [0], p := [0] }
          { r := [], c := [], p := [] } = .ok (fragments', { r := [], c := out, p := [] }) ∧
      ∃ m ∈ out, ∃ k : Nat, m.atomHighlighted k = true := by
  refine ⟨by decide, by decide, ?_⟩
  obtain ⟨_, fragments', out, h1, _, h3⟩ := highlight_reindexing true [3] "|".toList
    exampleState 0 exampleEnv 1 { r := [0, 1, 2], c := [0], p := [0] }
    { r := [], c := [], p := [] } (by decide) (by decide) (by decide) (by decide) (by decide)
    (by decide) (by decide) (by decide) (by decide)
  obtain ⟨m, hm, k, _, hhi⟩ := h3 3 (List.mem_singleton.mpr rfl) 0 (by decide) (by decide)
    (by decide)
  exact ⟨fragments', out, h1, m, hm, k, hhi⟩

/-! ## The `$` block -/

theorem updateAtom_of_lt (m : BaseMolecule) (l : Nat) (idx : Int) (f : Atom → Atom) (a : Atom)
    (hidx : idx = (l : Int)) (ha : m.atoms[l]? = some a) :
    m.updateAtom idx f = .ok { m with atoms := m.atoms.set l (f a) } := by
  subst hidx
  unfold BaseMolecule.updateAtom
  have h0 : ¬ ((l : Int) < 0) := by omega
  rw [if_neg h0]
  simp only [Int.toNat_ofNat, ha]

/-- Resolving the global atom index `i` and updating the atom found there changes the
global atom sequence at position `i` and nothing else. -/
theorem update_global (mols : Groups BaseMolecule) (i : Nat)
    (hi : i < mols.r.vertexCount + mols.c.vertexCount + mols.p.vertexCount)
    (f : Atom → Atom) :
    ∃ g l mol' a, selectAtom mols i = .ok (g, l) ∧ (mols.get g).updateAtom l f = .ok mol' ∧
      (allAtoms mols)[i]? = some a ∧ (mols.get g).atoms[l.toNat]? = some a ∧ 0 ≤ l ∧
      (mol'.atoms[l.toNat]? = some (f a)) ∧
      allAtoms (mols.set g mol') = (allAtoms mols).set i (f a) ∧
      ∀ g', ((mols.set g mol').get g').edges = (mols.get g').edges ∧
        ((mols.set g mol').get g').stereocenters = (mols.get g').stereocenters ∧
        ((mols.set g mol').get g').atoms.length = (mols.get g').atoms.length := by
  unfold selectAtom
  rw [selectGroup_eq]
  unfold BaseMolecule.vertexCount at hi ⊢
  by_cases h1 : (i : Int) < (mols.r.atoms.length : Int)
  · rw [if_pos h1]
    have hlt : i < mols.r.atoms.length := by omega
    have ha : mols.r.atoms[i]? = some mols.r.atoms[i] := List.getElem?_eq_getElem hlt
    refine ⟨0, i, _, mols.r.atoms[i], rfl, updateAtom_of_lt mols.r i i f _ rfl ha, ?_, ?_,
      by omega, ?_, ?_, ?_⟩
    · unfold allAtoms
      rw [List.getElem?_append_left hlt, ha]
    · simp only [Int.toNat_ofNat]; exact ha
    · simp [hlt]
    · unfold allAtoms
      simp only [Groups.set]
      rw [List.set_append_left _ _ hlt]
    · intro g'
      match g' with
      | 0 => simp [Groups.get, Groups.set]
      | 1 => simp [Groups.get, Groups.set]
      | _ + 2 => simp [Groups.get, Groups.set]
  · rw [if_neg h1]
    by_cases h2 : (i : Int) - (mols.r.atoms.length : Int) < (mols.c.atoms.length : Int)
    · rw [if_pos h2]
      have hlt : i - mols.r.atoms.length < mols.c.atoms.length := by omega
      have hge : mols.r.atoms.length ≤ i := by omega
      have ha : mols.c.atoms[i - mols.r.atoms.length]? =
          some mols.c.atoms[i - mols.r.atoms.length] := List.getElem?_eq_getElem hlt
      have hidx : (i : Int) - (mols.r.atoms.length : Int) =
          ((i - mols.r.atoms.length : Nat) : Int) := by omega
      refine ⟨1, _, _, mols.c.atoms[i - mols.r.atoms.length], rfl,
        updateAtom_of_lt mols.c _ _ f _ hidx ha, ?_, ?_, by omega, ?_, ?_, ?_⟩
      · unfold allAtoms
        rw [List.getElem?_append_right hge, List.getElem?_append_left hlt, ha]
      · rw [hidx]; simp only [Int.toNat_ofNat]; exact ha
      · rw [hidx]; simp [hlt]
      · unfold allAtoms
        simp only [Groups.set]
        rw [List.set_append_right _ _ hge, List.set_append_left _ _ hlt]
      · intro g'
        match g' with
        | 0 => simp [Groups.get, Groups.set]
        | 1 => simp [Groups.get, Groups.set]
        | _ + 2 => simp [Groups.get, Groups.set]
    · rw [if_neg h2]
      have h3 : (i : Int) - (mols.r.atoms.length : Int) - (mols.c.atoms.length : Int) <
          (mols.p.atoms.length : Int) := by omega
      rw [if_pos h3]
      have hlt : i - mols.r.atoms.length - mols.c.atoms.length < mols.p.atoms.length := by omega
      have hge : mols.r.atoms.length ≤ i := by omega
      have hge2 : mols.c.atoms.length ≤ i - mols.r.atoms.length := by omega
      have ha : mols.p.atoms[i - mols.r.atoms.length - mols.c.atoms.length]? =
          some mols.p.atoms[i - mols.r.atoms.length - mols.c.atoms.length] :=
        List.getElem?_eq_getElem hlt
      have hidx : (i : Int) - (mols.r.atoms.length : Int) - (mols.c.atoms.length : Int) =
          ((i - mols.r.atoms.length - mols.c.atoms.length : Nat) : Int) := by omega
      refine ⟨2, _, _, mols.p.atoms[i - mols.r.atoms.length - mols.c.atoms.length], rfl,
        updateAtom_of_lt mols.p _ _ f _ hidx ha, ?_, ?_, by omega, ?_, ?_, ?_⟩
      · unfold allAtoms
        rw [List.getElem?_append_right hge, List.getElem?_append_right hge2, ha]
      · rw [hidx]; simp only [Int.toNat_ofNat]; exact ha
      · rw [hidx]; simp [hlt]
      · unfold allAtoms
        simp only [Groups.set]
        rw [List.set_append_right _ _ hge, List.set_append_right _ _ hge2]
      · intro g'
        match g' with
        | 0 => simp [Groups.get, Groups.set]
        | 1 => simp [Groups.get, Groups.set]
        | _ + 2 => simp [Groups.get, Groups.set]

theorem readLabel_text (l : List Char) (hl : ∀ c ∈ l, c ≠ ';' ∧ c ≠ '$') (t : Char)
    (ht : t = ';' ∨ t = '$') (rest : Scanner) :
    ∀ acc, readLabel (l ++ t :: rest) acc = .ok (t, acc ++ l, rest) := by
  induction l with
  | nil => intro acc; simp [readLabel, ht]
  | cons c l ih =>
    intro acc
    have hc := hl c (List.mem_cons_self _ _)
    have hc' : ¬ (c = ';' ∨ c = '$') := by
      intro h
      rcases h with h | h
      · exact hc.1 h
      · exact hc.2 h
    have e : (c :: l) ++ t :: rest = c :: (l ++ t :: rest) := rfl
    rw [e, readLabel, if_neg hc', ih (fun c' h' => hl c' (List.mem_cons_of_mem _ h'))]
    simp

theorem readLabel_end (l : List Char) (hl : ∀ c ∈ l, c ≠ ';' ∧ c ≠ '$') :
    ∀ acc, readLabel l acc = .error Error.UnexpectedEnd := by
  induction l with
  | nil => intro acc; rfl
  | cons c l ih =>
    intro acc
    have hc := hl c (List.mem_cons_self _ _)
    have hc' : ¬ (c = ';' ∨ c = '$') := by
      intro h
      rcases h with h | h
      · exact hc.1 h
      · exact hc.2 h
    rw [readLabel, if_neg hc']
    exact ih (fun c' h' => hl c' (List.mem_cons_of_mem _ h')) _

theorem SameButAtoms.refl (st : State) : SameButAtoms st st :=
  ⟨rfl, rfl, rfl, rfl, fun _ => ⟨rfl, rfl, rfl⟩⟩

theorem SameButAtoms.trans {st1 st2 st3 : State} (h12 : SameButAtoms st1 st2)
    (h23 : SameButAtoms st2 st3) : SameButAtoms st1 st3 := by
  obtain ⟨a1, a2, a3, a4, a5⟩ := h12
  obtain ⟨b1, b2, b3, b4, b5⟩ := h23
  refine ⟨by rw [b1, a1], by rw [b2, a2], by rw [b3, a3], by rw [b4, a4], ?_⟩
  intro g
  obtain ⟨c1, c2, c3⟩ := a5 g
  obtain ⟨d1, d2, d3⟩ := b5 g
  exact ⟨by rw [d1, c1], by rw [d2, c2], by rw [d3, c3]⟩

theorem SameButAtoms.total {st st' : State} (h : SameButAtoms st st') :
    st'.mols.r.vertexCount + st'.mols.c.vertexCount + st'.mols.p.vertexCount =
      st.mols.r.vertexCount + st.mols.c.vertexCount + st.mols.p.vertexCount := by
  have h0 := (h.2.2.2.2 0).2.2
  have h1 := (h.2.2.2.2 1).2.2
  have h2 := (h.2.2.2.2 2).2.2
  simp only [Groups.get] at h0 h1 h2
  simp only [BaseMolecule.vertexCount, h0, h1, h2]

/-- One pass of the `$` loop over a label that is followed by the terminator `t`. -/
theorem pseudoLoop_step (_rxn : Bool) (k i : Nat) (more : List Nat) (l : List Char)
    (hl : ∀ c ∈ l, c ≠ ';' ∧ c ≠ '$') (t : Char) (ht : t = ';' ∨ t = '$')
    (hcount : ¬ (t = '$' ∧ (i : Int) ≠ (k : Int) - 1))
    (tail : Scanner) (st : State)
    (hi : i < st.mols.r.vertexCount + st.mols.c.vertexCount + st.mols.p.vertexCount) :
    ∃ st', pseudoLoop _rxn k (i :: more) (l ++ t :: tail) st = pseudoLoop _rxn k more tail st' ∧
      SameButAtoms st st' ∧
      allAtoms st'.mols = labelAtoms _rxn (allAtoms st.mols) i [l] := by
  by_cases hlen : l.length > 0
  · obtain ⟨g, idx, mol', a, h1, h2, h3, _, _, _, h7, h8⟩ :=
      update_global st.mols i hi (pseudoOp _rxn l)
    have h2' : (st.mols.get g).updateAtom idx
        (if _rxn = true then Atom.setPseudoAtom (cString l)
          else Atom.und (QueryAtom.ATOM_PSEUDO (cString l))) = .ok mol' := h2
    refine ⟨{ st with mols := st.mols.set g mol' }, ?_, ⟨rfl, rfl, rfl, rfl, h8⟩, ?_⟩
    · rw [pseudoLoop, readLabel_text l hl t ht tail []]
      simp only [List.nil_append, if_neg hcount, if_pos hlen, h1, h2']
    · simp only [labelAtoms, if_pos hlen, h3]
      exact h7
  · refine ⟨st, ?_, SameButAtoms.refl st, ?_⟩
    · rw [pseudoLoop, readLabel_text l hl t ht tail []]
      simp only [List.nil_append, if_neg hcount, if_neg hlen]
    · simp only [labelAtoms, if_neg hlen]

theorem labelAtoms_append (_rxn : Bool) : ∀ (ls : List (List Char)) (atoms : List Atom) (i0 : Nat)
    (ls' : List (List Char)),
    labelAtoms _rxn atoms i0 (ls ++ ls') =
      labelAtoms _rxn (labelAtoms _rxn atoms i0 ls) (i0 + ls.length) ls' := by
  intro ls
  induction ls with
  | nil => intro atoms i0 ls'; rfl
  | cons l ls ih =>
    intro atoms i0 ls'
    have e0 : (l :: ls) ++ ls' = l :: (ls ++ ls') := rfl
    rw [e0, labelAtoms, labelAtoms, ih]
    have e : i0 + 1 + ls.length = i0 + (l :: ls).length := by simp; omega
    rw [e]

/-- The `$` loop over labels that are each followed by `;`. -/
theorem pseudoLoop_prefix (_rxn : Bool) (k : Nat) :
    ∀ (ls : List (List Char)) (i0 : Nat) (more : List Nat) (tail : Scanner) (st : State),
      (∀ l ∈ ls, ∀ c ∈ l, c ≠ ';' ∧ c ≠ '$') →
      i0 + ls.length ≤ st.mols.r.vertexCount + st.mols.c.vertexCount + st.mols.p.vertexCount →
      ∃ st', pseudoLoop _rxn k (List.range' i0 ls.length ++ more) (labelText ls ++ tail) st =
          pseudoLoop _rxn k more tail st' ∧
        SameButAtoms st st' ∧
        allAtoms st'.mols = labelAtoms _rxn (allAtoms st.mols) i0 ls := by
  intro ls
  induction ls with
  | nil =>
    intro i0 more tail st _ _
    exact ⟨st, rfl, SameButAtoms.refl st, rfl⟩
  | cons l ls ih =>
    intro i0 more tail st hls hi
    have hsemi : ¬ ((';' : Char) = '$' ∧ (i0 : Int) ≠ (k : Int) - 1) := by
      intro h
      exact absurd h.1 (by decide)
    obtain ⟨st1, h1, h2, h3⟩ := pseudoLoop_step _rxn k i0 (List.range' (i0 + 1) ls.length ++ more)
      l (hls l (List.mem_cons_self _ _)) ';' (Or.inl rfl) hsemi (labelText ls ++ tail) st
      (by simp at hi; omega)
    obtain ⟨st2, g1, g2, g3⟩ := ih (i0 + 1) more tail st1
      (fun l' hl' => hls l' (List.mem_cons_of_mem _ hl'))
      (by rw [h2.total]; simp at hi; omega)
    refine ⟨st2, ?_, h2.trans g2, ?_⟩
    · have e1 : List.range' i0 (l :: ls).length ++ more =
          i0 :: (List.range' (i0 + 1) ls.length ++ more) := by
        simp [List.range'_succ]
      have e2 : labelText (l :: ls) ++ tail = l ++ ';' :: (labelText ls ++ tail) := by
        simp [labelText]
      rw [e1, e2, h1, g1]
    · rw [g3, h3]
      exact (labelAtoms_append _rxn [l] (allAtoms st.mols) i0 ls).symm

theorem dollar_dispatch (_rxn : Bool) (fuel : Nat) (text : Scanner) (st : State) :
    directiveLoop _rxn (fuel + 1) ('$' :: text) st =
      match pseudoLoop _rxn
          (st.mols.r.vertexCount + st.mols.c.vertexCount + st.mols.p.vertexCount)
          (List.range (st.mols.r.vertexCount + st.mols.c.vertexCount + st.mols.p.vertexCount))
          text st with
      | .error e => .error e
      | .ok (s, st) => directiveLoop _rxn fuel s st := by
  have e1 : ('$' = '|') = False := eq_false (by decide)
  have e2 : ('$' = 'w') = False := eq_false (by decide)
  have e3 : ('$' = 'a') = False := eq_false (by decide)
  have e4 : ('$' = 'o') = False := eq_false (by decide)
  have e5 : ('$' = '&') = False := eq_false (by decide)
  have e6 : ('$' = '^') = False := eq_false (by decide)
  have e7 : ('$' = 'f') = False := eq_false (by decide)
  conv => lhs; unfold directiveLoop
  simp only [Scanner.readChar, e1, e2, e3, e4, e5, e6, e7, if_false, if_true]

theorem range_split (k m : Nat) (h : m < k) :
    List.range k = List.range' 0 m ++ (m :: List.range' (m + 1) (k - m - 1)) := by
  have e : (k - m - 1) + 1 + m = k := by omega
  have h1 := List.range'_append_1 0 m ((k - m - 1) + 1)
  rw [e, List.range'_succ, Nat.zero_add] at h1
  rw [List.range_eq_range', ← h1]

/-- C9: with `k` the total atom count of the three groups, a `$` block in which a `$`
terminator ends the label at a position `i < k - 1` (`i` labels ended by `;` come
before it) fails with `CountMismatch`, and a `$` block whose input ends before `k` labels
have been terminated fails with `UnexpectedEnd`. -/
theorem dollar_block_errors (_rxn : Bool) (st : State) (fuel : Nat) (ls : List (List Char))
    (l : List Char) (rest : Scanner)
    (hls : ∀ l' ∈ ls, ∀ c ∈ l', c ≠ ';' ∧ c ≠ '$') (hl : ∀ c ∈ l, c ≠ ';' ∧ c ≠ '$') :
    (ls.length + 1 < st.mols.r.vertexCount + st.mols.c.vertexCount + st.mols.p.vertexCount →
      directiveLoop _rxn (fuel + 1) ('$' :: (labelText ls ++ (l ++ '$' :: rest))) st =
        .error (Error.CountMismatch ((ls.length : Int) + 1))) ∧
    (ls.length < st.mols.r.vertexCount + st.mols.c.vertexCount + st.mols.p.vertexCount →
      directiveLoop _rxn (fuel + 1) ('$' :: (labelText ls ++ l)) st =
        .error Error.UnexpectedEnd) := by
  constructor
  · intro hk
    rw [dollar_dispatch, range_split _ ls.length (by omega)]
    obtain ⟨st', h1, _, _⟩ := pseudoLoop_prefix _rxn
      (st.mols.r.vertexCount + st.mols.c.vertexCount + st.mols.p.vertexCount) ls 0
      (ls.length :: List.range' (ls.length + 1)
        (st.mols.r.vertexCount + st.mols.c.vertexCount + st.mols.p.vertexCount - ls.length - 1))
      (l ++ '$' :: rest) st hls (by omega)
    rw [h1, pseudoLoop, readLabel_text l hl '$' (Or.inr rfl) rest []]
    have hc : ('$' : Char) = '$' ∧ (ls.length : Int) ≠
        ((st.mols.r.vertexCount + st.mols.c.vertexCount + st.mols.p.vertexCount : Nat) : Int)
          - 1 := ⟨rfl, by omega⟩
    dsimp only
    rw [if_pos hc]
  · intro hk
    rw [dollar_dispatch, range_split _ ls.length hk]
    obtain ⟨st', h1, _, _⟩ := pseudoLoop_prefix _rxn
      (st.mols.r.vertexCount + st.mols.c.vertexCount + st.mols.p.vertexCount) ls 0
      (ls.length :: List.range' (ls.length + 1)
        (st.mols.r.vertexCount + st.mols.c.vertexCount + st.mols.p.vertexCount - ls.length - 1))
      l st hls (by omega)
    rw [h1, pseudoLoop, readLabel_end l hl []]

theorem dollar_block_errors_witness :
    (directiveLoop true 20 "$a;b$|".toList exampleState = .error (Error.CountMismatch 2)) ∧
    (directiveLoop true 20 "$a;b;c;d".toList exampleState = .error Error.UnexpectedEnd) ∧
    (loadReaction exampleCollaborators false false "C.C.C>NN>C|$a;b$|".toList =
      .error (Error.CountMismatch 2)) ∧
    (loadReaction exampleCollaborators false false "C.C.C>NN>C|$a;b;c;d".toList =
      .error Error.UnexpectedEnd) := by
  have h := dollar_block_errors true exampleState 19 ["a".toList] "b".toList "|".toList
    (by decide) (by decide)
  have h' := dollar_block_errors true exampleState 19 ["a".toList, "b".toList, "c".toList]
    "d".toList [] (by decide) (by decide)
  exact ⟨h.1 (by decide), h'.2 (by decide), by decide, by decide⟩

theorem getElem?_labelAtoms (_rxn : Bool) : ∀ (ls : List (List Char)) (atoms : List Atom)
    (i0 q : Nat),
    (labelAtoms _rxn atoms i0 ls)[q]? =
      if i0 ≤ q ∧ q < i0 + ls.length then
        (atoms[q]?).map (fun a =>
          if (ls.getD (q - i0) []).length > 0 then pseudoOp _rxn (ls.getD (q - i0) []) a else a)
      else atoms[q]? := by
  intro ls
  induction ls with
  | nil =>
    intro atoms i0 q
    have h : ¬ (i0 ≤ q ∧ q < i0 + ([] : List (List Char)).length) := by simp
    rw [if_neg h]
    rfl
  | cons l ls ih =>
    intro atoms i0 q
    rw [labelAtoms, ih]
    by_cases hq : q = i0
    · subst hq
      have h1 : ¬ (q + 1 ≤ q ∧ q < q + 1 + ls.length) := by omega
      have h2 : q ≤ q ∧ q < q + (l :: ls).length := by simp
      rw [if_neg h1, if_pos h2]
      have e : (l :: ls).getD (q - q) [] = l := by simp
      rw [e]
      by_cases hlen : l.length > 0
      · rw [if_pos hlen]
        cases hat : atoms[q]? with
        | none => simp [hat]
        | some a =>
          have hlt : q < atoms.length := by
            by_contra hn
            rw [List.getElem?_eq_none (by omega)] at hat
            cases hat
          simp [hlt, hlen]
      · rw [if_neg hlen]
        cases hat : atoms[q]? with
        | none => rfl
        | some a => simp [hlen]
    · have hset : (if l.length > 0 then
            match atoms[i0]? with
            | some a => atoms.set i0 (pseudoOp _rxn l a)
            | none => atoms
          else atoms)[q]? = atoms[q]? := by
        by_cases hlen : l.length > 0
        · rw [if_pos hlen]
          cases atoms[i0]? with
          | none => rfl
          | some a => exact List.getElem?_set_ne (fun e => hq e.symm)
        · rw [if_neg hlen]
      rw [hset]
      by_cases hr : i0 + 1 ≤ q ∧ q < i0 + 1 + ls.length
      · have h2 : i0 ≤ q ∧ q < i0 + (l :: ls).length := by simp; omega
        rw [if_pos hr, if_pos h2]
        have e : (l :: ls).getD (q - i0) [] = ls.getD (q - (i0 + 1)) [] := by
          have : q - i0 = (q - (i0 + 1)) + 1 := by omega
          rw [this]
          rfl
        rw [e]
      · have h2 : ¬ (i0 ≤ q ∧ q < i0 + (l :: ls).length) := by simp; omega
        rw [if_neg hr, if_neg h2]

theorem selectAtom_same (st st' : State) (h : SameButAtoms st st') (i : Nat) :
    selectAtom st'.mols i = selectAtom st.mols i := by
  have h0 := (h.2.2.2.2 0).2.2
  have h1 := (h.2.2.2.2 1).2.2
  have h2 := (h.2.2.2.2 2).2.2
  simp only [Groups.get] at h0 h1 h2
  simp only [selectAtom, BaseMolecule.vertexCount, h0, h1, h2]

/-- The atom that a global atom index resolves to is the atom at that position of the
global atom sequence. -/
theorem atom_of_selectAtom (mols : Groups BaseMolecule) (i g : Nat) (idx : Int)
    (hi : i < mols.r.vertexCount + mols.c.vertexCount + mols.p.vertexCount)
    (h : selectAtom mols i = .ok (g, idx)) :
    (mols.get g).atoms[idx.toNat]? = (allAtoms mols)[i]? := by
  obtain ⟨g0, l0, _, a, h1, _, h3, h4, _⟩ := update_global mols i hi id
  rw [h1] at h
  injection h with h
  injection h with hg hl
  subst hg; subst hl
  rw [h3, h4]

/-- C10: for every `$` block with exactly `k` labels, `k` the total atom count, each
label ended by `;` and the last by `$`, the block is processed without failure; for
each position `i` with a non-empty label the atom at `resolve(i) = (group, local)` gets
that label (as the C string the loader passes on) as its pseudo-atom label, on a plain
molecule by `setPseudoAtom`, on a query molecule as a conjoined pseudo-atom term; every
atom whose label is empty is exactly as it was, and nothing but atoms is changed. -/
theorem dollar_block_labels (_rxn : Bool) (st : State) (fuel : Nat) (ls : List (List Char))
    (l : List Char) (rest : Scanner)
    (hls : ∀ l' ∈ ls, ∀ c ∈ l', c ≠ ';' ∧ c ≠ '$') (hl : ∀ c ∈ l, c ≠ ';' ∧ c ≠ '$')
    (hk : ls.length + 1 =
      st.mols.r.vertexCount + st.mols.c.vertexCount + st.mols.p.vertexCount) :
    (∃ st',
      directiveLoop _rxn (fuel + 1) ('$' :: (labelText ls ++ (l ++ '$' :: rest))) st =
        directiveLoop _rxn fuel rest st' ∧
      SameButAtoms st st' ∧
      ∀ (i g : Nat) (idx : Int),
        i < st.mols.r.vertexCount + st.mols.c.vertexCount + st.mols.p.vertexCount →
        selectAtom st.mols i = .ok (g, idx) →
        selectAtom st'.mols i = .ok (g, idx) ∧
        (st'.mols.get g).atoms[idx.toNat]? = ((st.mols.get g).atoms[idx.toNat]?).map
          (fun a => if (ls ++ [l]).getD i [] = [] then a
            else pseudoOp _rxn ((ls ++ [l]).getD i []) a)) ∧
    (∀ (label : List Char) (number : Nat) (radical : Option Radical)
        (pseudo : Option (List Char)),
      pseudoOp true label (Atom.plain number radical pseudo) =
        Atom.plain number radical (some (cString label))) ∧
    (∀ (label : List Char) (q : QueryAtom),
      pseudoOp false label (Atom.query q) =
        Atom.query (QueryAtom.und q (QueryAtom.ATOM_PSEUDO (cString label)))) ∧
    (∀ label : List Char, (∀ c ∈ label, c ≠ Char.ofNat 0) → cString label = label) := by
  refine ⟨?_, fun _ _ _ _ => rfl, fun _ _ => rfl, ?_⟩
  · obtain ⟨st1, h1, s1, a1⟩ := pseudoLoop_prefix _rxn
      (st.mols.r.vertexCount + st.mols.c.vertexCount + st.mols.p.vertexCount) ls 0
      (ls.length :: List.range' (ls.length + 1)
        (st.mols.r.vertexCount + st.mols.c.vertexCount + st.mols.p.vertexCount - ls.length - 1))
      (l ++ '$' :: rest) st hls (by omega)
    have hcount : ¬ (('$' : Char) = '$' ∧ (ls.length : Int) ≠
        ((st.mols.r.vertexCount + st.mols.c.vertexCount + st.mols.p.vertexCount : Nat) : Int)
          - 1) := by
      intro h
      apply h.2
      omega
    obtain ⟨st2, h2, s2, a2⟩ := pseudoLoop_step _rxn
      (st.mols.r.vertexCount + st.mols.c.vertexCount + st.mols.p.vertexCount) ls.length
      (List.range' (ls.length + 1)
        (st.mols.r.vertexCount + st.mols.c.vertexCount + st.mols.p.vertexCount - ls.length - 1))
      l hl '$' (Or.inr rfl) hcount rest st1 (by rw [s1.total]; omega)
    have hempty : List.range' (ls.length + 1)
        (st.mols.r.vertexCount + st.mols.c.vertexCount + st.mols.p.vertexCount - ls.length - 1)
        = [] := by
      have : st.mols.r.vertexCount + st.mols.c.vertexCount + st.mols.p.vertexCount
          - ls.length - 1 = 0 := by omega
      rw [this]
      rfl
    have hsame : SameButAtoms st st2 := s1.trans s2
    have hall : allAtoms st2.mols = labelAtoms _rxn (allAtoms st.mols) 0 (ls ++ [l]) := by
      rw [a2, a1, labelAtoms_append, Nat.zero_add]
    refine ⟨st2, ?_, hsame, ?_⟩
    · rw [dollar_dispatch, range_split _ ls.length (by omega), h1, h2, hempty, pseudoLoop]
    · intro i g idx hi hsel
      have hsel' : selectAtom st2.mols i = .ok (g, idx) := by
        rw [selectAtom_same st st2 hsame i]; exact hsel
      refine ⟨hsel', ?_⟩
      rw [atom_of_selectAtom st2.mols i g idx (by rw [hsame.total]; exact hi) hsel',
        atom_of_selectAtom st.mols i g idx hi hsel, hall, getElem?_labelAtoms]
      have hr : 0 ≤ i ∧ i < 0 + (ls ++ [l]).length := by
        simp only [List.length_append, List.length_singleton]
        omega
      rw [if_pos hr, Nat.sub_zero]
      congr 1
      funext a
      by_cases he : (ls ++ [l]).getD i [] = []
      · rw [if_pos he, he]
        rfl
      · have hpos : ((ls ++ [l]).getD i []).length > 0 := List.length_pos.mpr he
        rw [if_neg he, if_pos hpos]
  · intro label hlab
    unfold cString
    rw [List.takeWhile_eq_self_iff]
    intro c hc
    simpa using hlab c hc

theorem dollar_block_labels_witness :
    (loadReaction exampleCollaborators false false "C.C.C>NN>C|$;;foo;;;bar$|".toList).map
        (fun brxn => (brxn.r.map (fun m => m.mol.atoms), brxn.c.map (fun m => m.mol.atoms),
          brxn.p.map (fun m => m.mol.atoms))) =
      .ok ([[Atom.plain 67 none none], [Atom.plain 67 none none],
            [Atom.plain 67 none (some "foo".toList)]],
          [[Atom.plain 78 none none, Atom.plain 78 none none]],
          [[Atom.plain 67 none (some "bar".toList)]]) ∧
    ∃ st', directiveLoop true 30 "$;;foo;;;bar$|".toList exampleState =
        directiveLoop true 29 "|".toList st' ∧
      (st'.mols.get 0).atoms[2]? = some (Atom.plain 67 none (some "foo".toList)) ∧
      (st'.mols.get 1).atoms[0]? = some (Atom.plain 78 none none) := by
  refine ⟨by decide, ?_⟩
  obtain ⟨⟨st', h1, _, h3⟩, _⟩ := dollar_block_labels true exampleState 29
    [[], [], "foo".toList, [], []] "bar".toList "|".toList (by decide) (by decide) (by decide)
  refine ⟨st', h1, ?_, ?_⟩
  · exact ((h3 2 0 2 (by decide) (by decide)).2).trans (by decide)
  · exact ((h3 3 1 0 (by decide) (by decide)).2).trans (by decide)

/-! ## One pass of the dispatch loop -/

/-- One pass of the dispatch loop is the closing `|`, or one directive. -/
theorem directiveLoop_succ (_rxn : Bool) (fuel : Nat) (c : Char) (s : Scanner) (st : State) :
    directiveLoop _rxn (fuel + 1) (c :: s) st =
      if c = '|' then .ok (s, st)
      else
        match directive _rxn c s st with
        | .error e => .error e
        | .ok (s, st) => directiveLoop _rxn fuel s st := by
  conv => lhs; unfold directiveLoop
  simp only [Scanner.readChar]
  by_cases h0 : c = '|'
  · rw [if_pos h0, if_pos h0]
  rw [if_neg h0, if_neg h0]
  unfold directive colonList
  by_cases h1 : c = 'w'
  · rw [if_pos h1, if_pos h1]
    cases expectColon s with
    | error e => rfl
    | ok s1 => rfl
  rw [if_neg h1, if_neg h1]
  by_cases h2 : c = 'a'
  · rw [if_pos h2, if_pos h2]
    cases expectColon s with
    | error e => rfl
    | ok s1 => rfl
  rw [if_neg h2, if_neg h2]
  by_cases h3 : c = 'o'
  · rw [if_pos h3, if_pos h3]
    cases Scanner.readUnsigned s with
    | error e => rfl
    | ok x =>
      obtain ⟨n, s1⟩ := x
      simp only
      cases expectColon s1 with
      | error e => rfl
      | ok s2 => rfl
  rw [if_neg h3, if_neg h3]
  by_cases h4 : c = '&'
  · rw [if_pos h4, if_pos h4]
    cases Scanner.readUnsigned s with
    | error e => rfl
    | ok x =>
      obtain ⟨n, s1⟩ := x
      simp only
      cases expectColon s1 with
      | error e => rfl
      | ok s2 => rfl
  rw [if_neg h4, if_neg h4]
  by_cases h5 : c = '^'
  · rw [if_pos h5, if_pos h5]
    cases Scanner.readIntFix1 s with
    | error e => rfl
    | ok x =>
      obtain ⟨rad, s1⟩ := x
      simp only
      have hr : (if rad = 1 then (Except.ok Radical.RADICAL_DOUPLET : Except Error Radical)
          else if rad = 3 then .ok Radical.RADICAL_SINGLET
          else if rad = 4 then .ok Radical.RADICAL_TRIPLET
          else .error (Error.UnsupportedRadical rad)) = radicalOfInt rad := rfl
      rw [hr]
      cases radicalOfInt rad with
      | error e => rfl
      | ok radical =>
        simp only
        cases expectColon s1 with
        | error e => rfl
        | ok s2 => rfl
  rw [if_neg h5, if_neg h5]
  by_cases h6 : c = 'f'
  · rw [if_pos h6, if_pos h6]
    cases expectColon s with
    | error e => rfl
    | ok s1 =>
      simp only
      cases entryLoop (s1.length + 1) s1 st.fragments with
      | error e => rfl
      | ok x => rfl
  rw [if_neg h6, if_neg h6]
  by_cases h7 : c = '$'
  · rw [if_pos h7, if_pos h7]
  rw [if_neg h7, if_neg h7]
  by_cases h8 : c = 'h'
  · rw [if_pos h8, if_pos h8]
    cases s with
    | nil => rfl
    | cons c2 s1 =>
      simp only [Scanner.readChar]
      by_cases h9 : c2 ≠ 'a' ∧ c2 ≠ 'b'
      · rw [if_pos h9, if_pos h9]
      · rw [if_neg h9, if_neg h9]
        cases expectColon s1 with
        | error e => rfl
        | ok s2 => rfl
  rw [if_neg h8, if_neg h8]

/-! ## Outcomes of the scanner, the index loop and its bodies -/

theorem readDigits_suffix : ∀ (s : Scanner) (acc : Nat), (Scanner.readDigits s acc).2 <:+ s := by
  intro s
  induction s with
  | nil => intro acc; exact List.suffix_refl _
  | cons c rest ih =>
    intro acc
    unfold Scanner.readDigits
    by_cases hc : c.isDigit = true
    · rw [if_pos hc]
      exact (ih _).trans (List.suffix_cons c rest)
    · rw [if_neg hc]

theorem readUnsigned_outcome (s : Scanner) :
    (∀ e, Scanner.readUnsigned s = .error e → e = Error.NumberExpected) ∧
    (∀ n s', Scanner.readUnsigned s = .ok (n, s') → s' <:+ s ∧ s'.length < s.length) := by
  unfold Scanner.readUnsigned
  by_cases hd : isdigit (Scanner.lookNext s) = true
  · rw [if_pos hd]
    refine ⟨fun e h => (by cases h), ?_⟩
    intro n s' h
    injection h with h
    cases s with
    | nil => simp [isdigit, Scanner.lookNext] at hd
    | cons c rest =>
      have hc : c.isDigit = true := by simpa [isdigit, Scanner.lookNext] using hd
      unfold Scanner.readDigits at h
      rw [if_pos hc] at h
      have hs := readDigits_suffix rest (0 * 10 + (c.toNat - 48))
      rw [h] at hs
      exact ⟨hs.trans (List.suffix_cons c rest), by
        have hl : s'.length ≤ rest.length := hs.length_le
        simp only [List.length_cons]
        omega⟩
  · rw [if_neg hd]
    exact ⟨fun e h => by cases h; rfl, fun n s' h => by cases h⟩

theorem expectColon_outcome (s : Scanner) :
    (∀ e, expectColon s = .error e → e = Error.UnexpectedEnd ∨ e = Error.MalformedDirective) ∧
    (∀ s', expectColon s = .ok s' → s = ':' :: s') := by
  unfold expectColon Scanner.readChar
  cases s with
  | nil => exact ⟨fun e h => by cases h; exact Or.inl rfl, fun s' h => by cases h⟩
  | cons c rest =>
    simp only
    by_cases hc : c ≠ ':'
    · rw [if_pos hc]
      exact ⟨fun e h => by cases h; exact Or.inr rfl, fun s' h => by cases h⟩
    · rw [if_neg hc]
      refine ⟨fun e h => (by cases h), fun s' h => ?_⟩
      injection h with h
      have : c = ':' := by simpa using hc
      rw [this, h]

theorem skip_comma_suffix (s : Scanner) :
    (if Scanner.lookNext s = some ',' then Scanner.skip s 1 else s) <:+ s := by
  by_cases h : Scanner.lookNext s = some ','
  · rw [if_pos h]
    exact List.drop_suffix 1 s
  · rw [if_neg h]

/-- An index loop with a bound above the length of the input: its failures are those of
its body, and it stops at a suffix of the input. -/
theorem indexList_outcome (body : Nat → State → Except Error State) (Q : Error → Prop)
    (R : State → Prop) (hN : Q Error.NumberExpected)
    (hQ : ∀ g st e, body g st = .error e → Q e)
    (hR : ∀ g st st', R st → body g st = .ok st' → R st') :
    ∀ (fuel : Nat) (s : Scanner) (st : State), s.length < fuel → R st →
      (∀ e, indexList body fuel s st = .error e → Q e) ∧
      (∀ s' st', indexList body fuel s st = .ok (s', st') → s' <:+ s ∧ R st') := by
  intro fuel
  induction fuel with
  | zero => intro s st h; omega
  | succ fuel ih =>
    intro s st hlen hst
    unfold indexList
    by_cases hd : isdigit (Scanner.lookNext s) = true
    · rw [if_pos hd]
      obtain ⟨hu1, hu2⟩ := readUnsigned_outcome s
      cases hru : Scanner.readUnsigned s with
      | error e =>
        have := hu1 e hru
        subst this
        exact ⟨fun e h => by cases h; exact hN, fun s' st' h => by cases h⟩
      | ok x =>
        obtain ⟨idx, s1⟩ := x
        obtain ⟨hs1, hl1⟩ := hu2 idx s1 hru
        simp only
        cases hb : body idx st with
        | error e =>
          exact ⟨fun e' h => by cases h; exact hQ idx st e hb, fun s' st' h => by cases h⟩
        | ok st1 =>
          simp only
          have hs2 := skip_comma_suffix s1
          obtain ⟨i1, i2⟩ := ih (if Scanner.lookNext s1 = some ',' then Scanner.skip s1 1 else s1)
            st1 (by have := hs2.length_le; omega) (hR idx st st1 hst hb)
          refine ⟨i1, fun s' st' h => ?_⟩
          obtain ⟨j1, j2⟩ := i2 s' st' h
          exact ⟨(j1.trans hs2).trans hs1, j2⟩
    · rw [if_neg hd]
      refine ⟨fun e h => (by cases h), fun s' st' h => ?_⟩
      injection h with h
      injection h with h1 h2
      subst h1; subst h2
      exact ⟨List.suffix_refl _, hst⟩

theorem selectAtom_error (mols : Groups BaseMolecule) (i : Nat) (e : Error)
    (h : selectAtom mols i = .error e) : e = Error.OutOfRange := by
  unfold selectAtom at h
  rw [selectGroup_eq] at h
  split_ifs at h
  cases h
  rfl

theorem updateAtom_error (m : BaseMolecule) (idx : Int) (f : Atom → Atom) (e : Error)
    (h : m.updateAtom idx f = .error e) : e = Error.InvalidIndex := by
  unfold BaseMolecule.updateAtom at h
  by_cases h0 : idx < 0
  · rw [if_pos h0] at h
    cases h; rfl
  · rw [if_neg h0] at h
    cases ha : m.atoms[idx.toNat]? with
    | none => rw [ha] at h; cases h; rfl
    | some a => rw [ha] at h; cases h

theorem stereoBody_outcome (call : Int → StereoCall) (g : Nat) (st : State) :
    (∀ e, stereoBody call g st = .error e → e = Error.OutOfRange) ∧
    (∀ st', stereoBody call g st = .ok st' → st'.fragments = st.fragments ∧
      st'.hl_atoms = st.hl_atoms ∧ st'.hl_bonds = st.hl_bonds ∧
      st'.have_highlighting = st.have_highlighting) := by
  unfold stereoBody
  cases hsel : selectAtom st.mols g with
  | error e =>
    exact ⟨fun e' h => by cases h; exact selectAtom_error _ _ _ hsel, fun st' h => by cases h⟩
  | ok x =>
    obtain ⟨group, idx⟩ := x
    refine ⟨fun e h => (by cases h), fun st' h => ?_⟩
    injection h with h
    subst h
    exact ⟨rfl, rfl, rfl, rfl⟩

theorem radicalBody_outcome (_rxn : Bool) (radical : Radical) (g : Nat) (st : State) :
    (∀ e, radicalBody _rxn radical g st = .error e →
      e = Error.OutOfRange ∨ e = Error.InvalidIndex) ∧
    (∀ st', radicalBody _rxn radical g st = .ok st' → st'.fragments = st.fragments ∧
      st'.hl_atoms = st.hl_atoms ∧ st'.hl_bonds = st.hl_bonds ∧
      st'.have_highlighting = st.have_highlighting) := by
  unfold radicalBody
  cases hsel : selectAtom st.mols g with
  | error e =>
    exact ⟨fun e' h => by cases h; exact Or.inl (selectAtom_error _ _ _ hsel),
      fun st' h => by cases h⟩
  | ok x =>
    obtain ⟨group, idx⟩ := x
    simp only
    cases hup : (st.mols.get group).updateAtom idx
        (if _rxn = true then Atom.setAtomRadical radical
          else Atom.und (QueryAtom.ATOM_RADICAL radical)) with
    | error e =>
      exact ⟨fun e' h => by cases h; exact Or.inr (updateAtom_error _ _ _ _ hup),
        fun st' h => by cases h⟩
    | ok mol =>
      refine ⟨fun e h => (by cases h), fun st' h => ?_⟩
      injection h with h
      subst h
      exact ⟨rfl, rfl, rfl, rfl⟩

theorem arraySet_outcome {α : Type} (a : List α) (i : Int) (x : α) :
    (∀ e, arraySet a i x = .error e → e = Error.InvalidIndex) ∧
    (∀ a', arraySet a i x = .ok a' → a'.length = a.length) := by
  unfold arraySet
  by_cases h : 0 ≤ i ∧ i.toNat < a.length
  · rw [if_pos h]
    refine ⟨fun e h => (by cases h), fun a' h' => ?_⟩
    injection h' with h'
    rw [← h', List.length_set]
  · rw [if_neg h]
    exact ⟨fun e h => by cases h; rfl, fun a' h' => by cases h'⟩

theorem highlightBody_outcome (a : Bool) (g : Nat) (st : State) :
    (∀ e, highlightBody a g st = .error e → e = Error.InvalidIndex) ∧
    (∀ st', highlightBody a g st = .ok st' → st'.fragments = st.fragments ∧
      st'.mols = st.mols ∧ st'.have_highlighting = st.have_highlighting) := by
  unfold highlightBody
  cases a with
  | true =>
    simp only [if_true]
    cases hs : arraySet st.hl_atoms (g : Int) 1 with
    | error e =>
      exact ⟨fun e' h => by cases h; exact (arraySet_outcome _ _ _).1 e hs,
        fun st' h => by cases h⟩
    | ok hl =>
      refine ⟨fun e h => (by cases h), fun st' h => ?_⟩
      injection h with h
      subst h
      exact ⟨rfl, rfl, rfl⟩
  | false =>
    simp only [Bool.false_eq_true, if_false]
    cases hs : arraySet st.hl_bonds (g : Int) 1 with
    | error e =>
      exact ⟨fun e' h => by cases h; exact (arraySet_outcome _ _ _).1 e hs,
        fun st' h => by cases h⟩
    | ok hl =>
      refine ⟨fun e h => (by cases h), fun st' h => ?_⟩
      injection h with h
      subst h
      exact ⟨rfl, rfl, rfl⟩

theorem leafLoop_outcome (idx : Nat) :
    ∀ (fuel : Nat) (s : Scanner) (fr : Groups (List Int)), s.length < fuel →
      (∀ e, leafLoop idx fuel s fr = .error e →
        e = Error.NumberExpected ∨ e = Error.OutOfRange ∨ e = Error.InvalidIndex) ∧
      (∀ s' fr', leafLoop idx fuel s fr = .ok (s', fr') → s' <:+ s) := by
  intro fuel
  induction fuel with
  | zero => intro s fr h; omega
  | succ fuel ih =>
    intro s fr hlen
    unfold leafLoop
    by_cases hd : Scanner.lookNext s = some '.'
    · rw [if_pos hd]
      simp only
      have hk : Scanner.skip s 1 <:+ s := List.drop_suffix 1 s
      have hkl : (Scanner.skip s 1).length < s.length := by
        cases s with
        | nil => simp [Scanner.lookNext] at hd
        | cons c rest => simp [Scanner.skip]
      obtain ⟨hu1, hu2⟩ := readUnsigned_outcome (Scanner.skip s 1)
      cases hru : Scanner.readUnsigned (Scanner.skip s 1) with
      | error e =>
        exact ⟨fun e' h => by cases h; exact Or.inl (hu1 e hru), fun s' fr' h => by cases h⟩
      | ok x =>
        obtain ⟨leaf, s1⟩ := x
        obtain ⟨hs1, hl1⟩ := hu2 leaf s1 hru
        simp only
        rw [selectGroupByPair_eq]
        have key : ∀ (G : Nat) (a b : Int),
            (∀ e, (match arraySet (fr.get G) b a with
              | .error e => Except.error e
              | .ok x => leafLoop idx fuel s1 (fr.set G x)) = .error e →
              e = Error.NumberExpected ∨ e = Error.OutOfRange ∨ e = Error.InvalidIndex) ∧
            (∀ s' fr', (match arraySet (fr.get G) b a with
              | .error e => Except.error e
              | .ok x => leafLoop idx fuel s1 (fr.set G x)) = .ok (s', fr') → s' <:+ s) := by
          intro G a b
          cases hs : arraySet (fr.get G) b a with
          | error e =>
            exact ⟨fun e' h => by cases h; exact Or.inr (Or.inr ((arraySet_outcome _ _ _).1 e hs)),
              fun s' fr' h => by cases h⟩
          | ok x =>
            simp only
            obtain ⟨i1, i2⟩ := ih s1 (fr.set G x) (by omega)
            exact ⟨i1, fun s' fr' h => ((i2 s' fr' h).trans hs1).trans hk⟩
        split_ifs
        · exact key 0 _ _
        · exact key 1 _ _
        · exact key 2 _ _
        · exact ⟨fun e' h => by cases h; exact Or.inr (Or.inl rfl), fun s' fr' h => by cases h⟩
    · rw [if_neg hd]
      refine ⟨fun e h => (by cases h), fun s' fr' h => ?_⟩
      injection h with h
      injection h with h1 h2
      rw [← h1]

theorem entryLoop_outcome :
    ∀ (fuel : Nat) (s : Scanner) (fr : Groups (List Int)), s.length < fuel →
      (∀ e, entryLoop fuel s fr = .error e →
        e = Error.NumberExpected ∨ e = Error.OutOfRange ∨ e = Error.InvalidIndex) ∧
      (∀ s' fr', entryLoop fuel s fr = .ok (s', fr') → s' <:+ s) := by
  intro fuel
  induction fuel with
  | zero => intro s fr h; omega
  | succ fuel ih =>
    intro s fr hlen
    unfold entryLoop
    by_cases hd : isdigit (Scanner.lookNext s) = true
    · rw [if_pos hd]
      obtain ⟨hu1, hu2⟩ := readUnsigned_outcome s
      cases hru : Scanner.readUnsigned s with
      | error e =>
        exact ⟨fun e' h => by cases h; exact Or.inl (hu1 e hru), fun s' fr' h => by cases h⟩
      | ok x =>
        obtain ⟨idx, s1⟩ := x
        obtain ⟨hs1, hl1⟩ := hu2 idx s1 hru
        simp only
        obtain ⟨l1, l2⟩ := leafLoop_outcome idx (s1.length + 1) s1 fr (by omega)
        cases hll : leafLoop idx (s1.length + 1) s1 fr with
        | error e =>
          exact ⟨fun e' h => by cases h; exact l1 e hll, fun s' fr' h => by cases h⟩
        | ok y =>
          obtain ⟨s2, fr2⟩ := y
          simp only
          have hs2 := l2 s2 fr2 hll
          have hs3 := skip_comma_suffix s2
          obtain ⟨i1, i2⟩ := ih (if Scanner.lookNext s2 = some ',' then Scanner.skip s2 1 else s2)
            fr2 (by have := hs3.length_le; have := hs2.length_le; omega)
          exact ⟨i1, fun s' fr' h => (((i2 s' fr' h).trans hs3).trans hs2).trans hs1⟩
    · rw [if_neg hd]
      refine ⟨fun e h => (by cases h), fun s' fr' h => ?_⟩
      injection h with h
      injection h with h1 h2
      rw [← h1]

theorem readLabel_outcome :
    ∀ (s : Scanner) (label : List Char),
      (∀ e, readLabel s label = .error e → e = Error.UnexpectedEnd) ∧
      (∀ c l s', readLabel s label = .ok (c, l, s') → s' <:+ s) := by
  intro s
  induction s with
  | nil =>
    intro label
    exact ⟨fun e h => by cases h; rfl, fun c l s' h => by cases h⟩
  | cons c rest ih =>
    intro label
    unfold readLabel
    by_cases hc : c = ';' ∨ c = '$'
    · rw [if_pos hc]
      refine ⟨fun e h => (by cases h), fun c' l s' h => ?_⟩
      injection h with h
      injection h with h1 h2
      injection h2 with h2 h3
      rw [← h3]
      exact List.suffix_cons c rest
    · rw [if_neg hc]
      obtain ⟨i1, i2⟩ := ih (label ++ [c])
      exact ⟨i1, fun c' l s' h => (i2 c' l s' h).trans (List.suffix_cons c rest)⟩

theorem pseudoLoop_outcome (_rxn : Bool) (k : Nat) :
    ∀ (is : List Nat) (s : Scanner) (st : State),
      (∀ e, pseudoLoop _rxn k is s st = .error e → e ≠ Error.Fuel) ∧
      (∀ s' st', pseudoLoop _rxn k is s st = .ok (s', st') →
        s' <:+ s ∧ st'.fragments = st.fragments) := by
  intro is
  induction is with
  | nil =>
    intro s st
    refine ⟨fun e h => (by cases h), fun s' st' h => ?_⟩
    unfold pseudoLoop at h
    injection h with h
    injection h with h1 h2
    rw [← h1, ← h2]
    exact ⟨List.suffix_refl _, rfl⟩
  | cons i is ih =>
    intro s st
    unfold pseudoLoop
    obtain ⟨r1, r2⟩ := readLabel_outcome s []
    cases hrl : readLabel s [] with
    | error e =>
      refine ⟨fun e' h => ?_, fun s' st' h => by cases h⟩
      cases h
      rw [r1 e hrl]
      exact fun h => by cases h
    | ok x =>
      obtain ⟨c, label, s1⟩ := x
      have hs1 := r2 c label s1 hrl
      simp only
      by_cases hc : c = '$' ∧ (i : Int) ≠ (k : Int) - 1
      · rw [if_pos hc]
        exact ⟨fun e' h => (by cases h; exact fun h => (by cases h)), fun s' st' h => (by cases h)⟩
      · rw [if_neg hc]
        by_cases hl : label.length > 0
        · rw [if_pos hl]
          cases hsel : selectAtom st.mols i with
          | error e =>
            refine ⟨fun e' h => ?_, fun s' st' h => by cases h⟩
            cases h
            rw [selectAtom_error _ _ _ hsel]
            exact fun h => by cases h
          | ok y =>
            obtain ⟨group, idx⟩ := y
            simp only
            cases hup : (st.mols.get group).updateAtom idx
                (if _rxn = true then Atom.setPseudoAtom (cString label)
                  else Atom.und (QueryAtom.ATOM_PSEUDO (cString label))) with
            | error e =>
              refine ⟨fun e' h => ?_, fun s' st' h => by cases h⟩
              cases h
              rw [updateAtom_error _ _ _ _ hup]
              exact fun h => by cases h
            | ok mol =>
              simp only
              obtain ⟨i1, i2⟩ := ih s1 { st with mols := st.mols.set group mol }
              refine ⟨i1, fun s' st' h => ?_⟩
              obtain ⟨j1, j2⟩ := i2 s' st' h
              exact ⟨j1.trans hs1, j2⟩
        · rw [if_neg hl]
          obtain ⟨i1, i2⟩ := ih s1 st
          refine ⟨i1, fun s' st' h => ?_⟩
          obtain ⟨j1, j2⟩ := i2 s' st' h
          exact ⟨j1.trans hs1, j2⟩

theorem colonList_outcome (body : Nat → State → Except Error State) (Q : Error → Prop)
    (R : State → Prop) (hN : Q Error.NumberExpected) (hE : Q Error.UnexpectedEnd)
    (hM : Q Error.MalformedDirective)
    (hQ : ∀ g st e, body g st = .error e → Q e)
    (hR : ∀ g st st', R st → body g st = .ok st' → R st')
    (s : Scanner) (st : State) (hst : R st) :
    (∀ e, colonList body s st = .error e → Q e) ∧
    (∀ s' st', colonList body s st = .ok (s', st') → s' <:+ s ∧ R st') := by
  unfold colonList
  obtain ⟨c1, c2⟩ := expectColon_outcome s
  cases hc : expectColon s with
  | error e =>
    refine ⟨fun e' h => ?_, fun s' st' h => (by cases h)⟩
    cases h
    rcases c1 e hc with h | h
    · rw [h]; exact hE
    · rw [h]; exact hM
  | ok s1 =>
    simp only
    have hs := c2 s1 hc
    obtain ⟨i1, i2⟩ := indexList_outcome body Q R hN hQ hR (s1.length + 1) s1 st (by omega) hst
    refine ⟨i1, fun s' st' h => ?_⟩
    obtain ⟨j1, j2⟩ := i2 s' st' h
    rw [hs]
    exact ⟨j1.trans (List.suffix_cons _ _), j2⟩

theorem stereoBody_no_fuel (call : Int → StereoCall) (g : Nat) (st : State) (e : Error)
    (h : stereoBody call g st = .error e) : e ≠ Error.Fuel := by
  rw [(stereoBody_outcome call g st).1 e h]
  exact fun h => by cases h

theorem radicalBody_no_fuel (_rxn : Bool) (radical : Radical) (g : Nat) (st : State) (e : Error)
    (h : radicalBody _rxn radical g st = .error e) : e ≠ Error.Fuel := by
  rcases (radicalBody_outcome _rxn radical g st).1 e h with h | h
  · rw [h]; exact fun h => by cases h
  · rw [h]; exact fun h => by cases h

theorem highlightBody_no_fuel (a : Bool) (g : Nat) (st : State) (e : Error)
    (h : highlightBody a g st = .error e) : e ≠ Error.Fuel := by
  rw [(highlightBody_outcome a g st).1 e h]
  exact fun h => by cases h

theorem colonList_no_fuel (body : Nat → State → Except Error State)
    (hQ : ∀ g st e, body g st = .error e → e ≠ Error.Fuel) (s : Scanner) (st : State) :
    (∀ e, colonList body s st = .error e → e ≠ Error.Fuel) ∧
    (∀ s' st', colonList body s st = .ok (s', st') → s' <:+ s) := by
  obtain ⟨i1, i2⟩ := colonList_outcome body (fun e => e ≠ Error.Fuel) (fun _ => True)
    (fun h => by cases h) (fun h => by cases h) (fun h => by cases h) hQ
    (fun _ _ _ _ _ => trivial) s st trivial
  exact ⟨i1, fun s' st' h => (i2 s' st' h).1⟩

/-- One directive never runs out of its iteration bounds, and it stops at a suffix of its
input. -/
theorem directive_outcome (_rxn : Bool) (c : Char) (s : Scanner) (st : State) :
    (∀ e, directive _rxn c s st = .error e → e ≠ Error.Fuel) ∧
    (∀ s' st', directive _rxn c s st = .ok (s', st') → s' <:+ s) := by
  unfold directive
  by_cases h1 : c = 'w'
  · rw [if_pos h1]
    exact colonList_no_fuel _ (stereoBody_no_fuel _) s st
  rw [if_neg h1]
  by_cases h2 : c = 'a'
  · rw [if_pos h2]
    exact colonList_no_fuel _ (stereoBody_no_fuel _) s st
  rw [if_neg h2]
  by_cases h3 : c = 'o'
  · rw [if_pos h3]
    obtain ⟨u1, u2⟩ := readUnsigned_outcome s
    cases hu : Scanner.readUnsigned s with
    | error e =>
      refine ⟨fun e' h => ?_, fun s' st' h => (by cases h)⟩
      cases h
      rw [u1 e hu]
      exact fun h => by cases h
    | ok x =>
      obtain ⟨n, s1⟩ := x
      simp only
      obtain ⟨i1, i2⟩ := colonList_no_fuel _
        (stereoBody_no_fuel (fun idx => StereoCall.setType idx StereoType.ATOM_OR n)) s1 st
      exact ⟨i1, fun s' st' h => (i2 s' st' h).trans (u2 n s1 hu).1⟩
  rw [if_neg h3]
  by_cases h4 : c = '&'
  · rw [if_pos h4]
    obtain ⟨u1, u2⟩ := readUnsigned_outcome s
    cases hu : Scanner.readUnsigned s with
    | error e =>
      refine ⟨fun e' h => ?_, fun s' st' h => (by cases h)⟩
      cases h
      rw [u1 e hu]
      exact fun h => by cases h
    | ok x =>
      obtain ⟨n, s1⟩ := x
      simp only
      obtain ⟨i1, i2⟩ := colonList_no_fuel _
        (stereoBody_no_fuel (fun idx => StereoCall.setType idx StereoType.ATOM_AND n)) s1 st
      exact ⟨i1, fun s' st' h => (i2 s' st' h).trans (u2 n s1 hu).1⟩
  rw [if_neg h4]
  by_cases h5 : c = '^'
  · rw [if_pos h5]
    cases s with
    | nil =>
      exact ⟨fun e h => by cases h; exact fun h => (by cases h), fun s' st' h => (by cases h)⟩
    | cons d s1 =>
      unfold Scanner.readIntFix1
      by_cases hd : d.isDigit = true
      · simp only [hd, if_true]
        unfold radicalOfInt
        split_ifs
        · obtain ⟨i1, i2⟩ := colonList_no_fuel _ (radicalBody_no_fuel _rxn Radical.RADICAL_DOUPLET) s1 st
          exact ⟨i1, fun s' st' h => (i2 s' st' h).trans (List.suffix_cons _ _)⟩
        · obtain ⟨i1, i2⟩ := colonList_no_fuel _ (radicalBody_no_fuel _rxn Radical.RADICAL_SINGLET) s1 st
          exact ⟨i1, fun s' st' h => (i2 s' st' h).trans (List.suffix_cons _ _)⟩
        · obtain ⟨i1, i2⟩ := colonList_no_fuel _ (radicalBody_no_fuel _rxn Radical.RADICAL_TRIPLET) s1 st
          exact ⟨i1, fun s' st' h => (i2 s' st' h).trans (List.suffix_cons _ _)⟩
        · exact ⟨fun e h => by cases h; exact fun h => (by cases h), fun s' st' h => (by cases h)⟩
      · simp only [hd]
        exact ⟨fun e h => by cases h; exact fun h => (by cases h), fun s' st' h => (by cases h)⟩
  rw [if_neg h5]
  by_cases h6 : c = 'f'
  · rw [if_pos h6]
    obtain ⟨c1, c2⟩ := expectColon_outcome s
    cases hc : expectColon s with
    | error e =>
      refine ⟨fun e' h => ?_, fun s' st' h => (by cases h)⟩
      cases h
      rcases c1 e hc with h | h
      · rw [h]; exact fun h => by cases h
      · rw [h]; exact fun h => by cases h
    | ok s1 =>
      simp only
      have hs := c2 s1 hc
      obtain ⟨e1, e2⟩ := entryLoop_outcome (s1.length + 1) s1 st.fragments (by omega)
      cases he : entryLoop (s1.length + 1) s1 st.fragments with
      | error e =>
        refine ⟨fun e' h => ?_, fun s' st' h => (by cases h)⟩
        cases h
        rcases e1 e he with h | h | h
        · rw [h]; exact fun h => by cases h
        · rw [h]; exact fun h => by cases h
        · rw [h]; exact fun h => by cases h
      | ok y =>
        obtain ⟨s2, fr⟩ := y
        refine ⟨fun e h => (by cases h), fun s' st' h => ?_⟩
        injection h with h
        injection h with h1 h2
        rw [← h1, hs]
        exact (e2 s2 fr he).trans (List.suffix_cons _ _)
  rw [if_neg h6]
  by_cases h7 : c = '$'
  · rw [if_pos h7]
    obtain ⟨p1, p2⟩ := pseudoLoop_outcome _rxn
      (st.mols.r.vertexCount + st.mols.c.vertexCount + st.mols.p.vertexCount)
      (List.range (st.mols.r.vertexCount + st.mols.c.vertexCount + st.mols.p.vertexCount)) s st
    exact ⟨p1, fun s' st' h => (p2 s' st' h).1⟩
  rw [if_neg h7]
  by_cases h8 : c = 'h'
  · rw [if_pos h8]
    cases s with
    | nil =>
      exact ⟨fun e h => by cases h; exact fun h => (by cases h), fun s' st' h => (by cases h)⟩
    | cons c2 s1 =>
      simp only [Scanner.readChar]
      by_cases h9 : c2 ≠ 'a' ∧ c2 ≠ 'b'
      · rw [if_pos h9]
        exact ⟨fun e h => by cases h; exact fun h => (by cases h), fun s' st' h => (by cases h)⟩
      · rw [if_neg h9]
        obtain ⟨i1, i2⟩ := colonList_no_fuel _ (highlightBody_no_fuel (decide (c2 = 'a'))) s1
          { st with have_highlighting := true }
        exact ⟨i1, fun s' st' h => (i2 s' st' h).trans (List.suffix_cons _ _)⟩
  rw [if_neg h8]
  refine ⟨fun e h => (by cases h), fun s' st' h => ?_⟩
  injection h with h
  injection h with h1 h2
  rw [← h1]


/-- The dispatch loop with a bound above the length of its input never runs out of the
bound; when it returns it has read a `|`, and when the input has no `|` it fails, at the
end of the input or in one of its directives. -/
theorem directiveLoop_outcome (_rxn : Bool) :
    ∀ (fuel : Nat) (s : Scanner) (st : State), s.length < fuel →
      (∀ e, directiveLoop _rxn fuel s st = .error e → e ≠ Error.Fuel) ∧
      (∀ s' st', directiveLoop _rxn fuel s st = .ok (s', st') →
        s' <:+ s ∧ s'.length < s.length ∧ '|' ∈ s) ∧
      ('|' ∉ s → ∃ e, directiveLoop _rxn fuel s st = .error e ∧
        (e = Error.UnexpectedEnd ∨ ∃ c s1 st1, c ≠ '|' ∧ (c :: s1) <:+ s ∧
          directive _rxn c s1 st1 = .error e)) := by
  intro fuel
  induction fuel with
  | zero => intro s st h; omega
  | succ fuel ih =>
    intro s st hlen
    cases s with
    | nil =>
      refine ⟨fun e h => ?_, fun s' st' h => (by cases h), fun _ => ⟨Error.UnexpectedEnd, rfl, Or.inl rfl⟩⟩
      cases h
      exact fun h => by cases h
    | cons c s1 =>
      rw [directiveLoop_succ]
      by_cases h0 : c = '|'
      · rw [if_pos h0]
        refine ⟨fun e h => (by cases h), fun s' st' h => ?_, fun hn => ?_⟩
        · injection h with h
          injection h with h1 h2
          rw [← h1, h0]
          exact ⟨List.suffix_cons _ _, by simp, by simp⟩
        · exact absurd (by rw [h0]; simp) hn
      · rw [if_neg h0]
        obtain ⟨d1, d2⟩ := directive_outcome _rxn c s1 st
        cases hd : directive _rxn c s1 st with
        | error e =>
          refine ⟨fun e' h => ?_, fun s' st' h => (by cases h), fun _ =>
            ⟨e, rfl, Or.inr ⟨c, s1, st, h0, List.suffix_refl _, hd⟩⟩⟩
          cases h
          exact d1 e hd
        | ok x =>
          obtain ⟨s2, st2⟩ := x
          simp only
          have hs2 := d2 s2 st2 hd
          have hl2 := hs2.length_le
          simp only [List.length_cons] at hlen
          obtain ⟨i1, i2, i3⟩ := ih s2 st2 (by omega)
          refine ⟨i1, fun s' st' h => ?_, fun hn => ?_⟩
          · obtain ⟨j1, j2, j3⟩ := i2 s' st' h
            refine ⟨(j1.trans hs2).trans (List.suffix_cons _ _), ?_, ?_⟩
            · simp only [List.length_cons]; omega
            · exact List.mem_cons_of_mem _ (hs2.subset j3)
          · have hn2 : '|' ∉ s2 := fun hm => hn (List.mem_cons_of_mem _ (hs2.subset hm))
            obtain ⟨e, he, hor⟩ := i3 hn2
            refine ⟨e, he, ?_⟩
            rcases hor with h | ⟨c', s', st', hc', hsuf, hdir⟩
            · exact Or.inl h
            · exact Or.inr ⟨c', s', st', hc', (hsuf.trans hs2).trans (List.suffix_cons _ _), hdir⟩

/-! ## C18: characters that are no directive -/

theorem directive_other (_rxn : Bool) (ch : Char) (rest : Scanner) (st : State)
    (h1 : ch ≠ 'w') (h2 : ch ≠ 'a') (h3 : ch ≠ 'o') (h4 : ch ≠ '&')
    (h5 : ch ≠ '^') (h6 : ch ≠ 'f') (h7 : ch ≠ '$') (h8 : ch ≠ 'h') :
    directive _rxn ch rest st = .ok (rest, st) := by
  unfold directive
  rw [if_neg h1, if_neg h2, if_neg h3, if_neg h4, if_neg h5, if_neg h6, if_neg h7, if_neg h8]

/-- C18: for a character `ch` that is neither the closing `|` nor one of the directive
letters `w a o & ^ f $ h`, one pass of the dispatch loop on `ch` raises no error and
changes nothing in the state (group molecules, forwarding maps, highlight flags,
highlighting-requested flag), so the annotation block `ch rest` has the result of the
annotation block `rest`. -/
theorem unrecognised_char_noop (_rxn : Bool) (ch : Char) (rest : Scanner) (st : State)
    (h0 : ch ≠ '|') (h1 : ch ≠ 'w') (h2 : ch ≠ 'a') (h3 : ch ≠ 'o') (h4 : ch ≠ '&')
    (h5 : ch ≠ '^') (h6 : ch ≠ 'f') (h7 : ch ≠ '$') (h8 : ch ≠ 'h') :
    directive _rxn ch rest st = .ok (rest, st) ∧
    (∀ fuel, directiveLoop _rxn (fuel + 1) (ch :: rest) st = directiveLoop _rxn fuel rest st) ∧
    annotationBlock _rxn true (ch :: rest) st = annotationBlock _rxn true rest st := by
  have hd := directive_other _rxn ch rest st h1 h2 h3 h4 h5 h6 h7 h8
  have hl : ∀ fuel, directiveLoop _rxn (fuel + 1) (ch :: rest) st =
      directiveLoop _rxn fuel rest st := by
    intro fuel
    rw [directiveLoop_succ, if_neg h0, hd]
  refine ⟨hd, hl, ?_⟩
  unfold annotationBlock
  simp only [if_true, List.length_cons]
  exact hl _

theorem unrecognised_char_noop_witness :
    directive true 'x' "ha:3|".toList exampleState = .ok ("ha:3|".toList, exampleState) ∧
    (∀ fuel, directiveLoop true (fuel + 1) ('x' :: "ha:3|".toList) exampleState =
      directiveLoop true fuel "ha:3|".toList exampleState) ∧
    annotationBlock true true ('x' :: "ha:3|".toList) exampleState =
      annotationBlock true true "ha:3|".toList exampleState :=
  unrecognised_char_noop true 'x' "ha:3|".toList exampleState (by decide) (by decide) (by decide)
    (by decide) (by decide) (by decide) (by decide) (by decide) (by decide)
/-! ## C14: the colon of a directive -/

theorem expectColon_other (c : Char) (rest : Scanner) (hc : c ≠ ':') :
    expectColon (c :: rest) = .error Error.MalformedDirective := by
  unfold expectColon Scanner.readChar
  simp only
  rw [if_pos hc]

theorem colonList_other (body : Nat → State → Except Error State) (c : Char) (rest : Scanner)
    (st : State) (hc : c ≠ ':') :
    colonList body (c :: rest) st = .error Error.MalformedDirective := by
  unfold colonList
  rw [expectColon_other c rest hc]

theorem isdigit_lookNext_cons (c : Char) (rest : Scanner) :
    isdigit (Scanner.lookNext (c :: rest)) = c.isDigit := rfl

/-- C14: each directive that wants a colon (`w`, `a`, `o<N>`, `&<N>`, `^<D>` with `D` one of
1, 3, 4, `f`, `ha`, `hb`) fails with `MalformedDirective` when the character at the place
of the colon is another character `c` (for `o` and `&`, a character that is not a digit
and so ends the number), whatever follows it; the failure comes before the index loop,
whatever the body of the loop is, so no index is applied. -/
theorem missing_colon_fails (_rxn : Bool) (c : Char) (rest : Scanner) (st : State) (fuel : Nat)
    (hc : c ≠ ':') :
    directiveLoop _rxn (fuel + 1) ('w' :: c :: rest) st = .error Error.MalformedDirective ∧
    directiveLoop _rxn (fuel + 1) ('a' :: c :: rest) st = .error Error.MalformedDirective ∧
    (∀ N : Nat, c.isDigit = false →
      directiveLoop _rxn (fuel + 1) ('o' :: (decimal N ++ c :: rest)) st =
        .error Error.MalformedDirective) ∧
    (∀ N : Nat, c.isDigit = false →
      directiveLoop _rxn (fuel + 1) ('&' :: (decimal N ++ c :: rest)) st =
        .error Error.MalformedDirective) ∧
    (∀ D : Char, D = '1' ∨ D = '3' ∨ D = '4' →
      directiveLoop _rxn (fuel + 1) ('^' :: D :: c :: rest) st =
        .error Error.MalformedDirective) ∧
    directiveLoop _rxn (fuel + 1) ('f' :: c :: rest) st = .error Error.MalformedDirective ∧
    directiveLoop _rxn (fuel + 1) ('h' :: 'a' :: c :: rest) st =
      .error Error.MalformedDirective ∧
    directiveLoop _rxn (fuel + 1) ('h' :: 'b' :: c :: rest) st =
      .error Error.MalformedDirective ∧
    ∀ body : Nat → State → Except Error State,
      colonList body (c :: rest) st = .error Error.MalformedDirective := by
  have hw : ('w' : Char) ≠ '|' := by decide
  have ha : ('a' : Char) ≠ '|' := by decide
  have ho : ('o' : Char) ≠ '|' := by decide
  have hn : ('&' : Char) ≠ '|' := by decide
  have hr : ('^' : Char) ≠ '|' := by decide
  have hf : ('f' : Char) ≠ '|' := by decide
  have hh : ('h' : Char) ≠ '|' := by decide
  refine ⟨?_, ?_, ?_, ?_, ?_, ?_, ?_, ?_, fun body => colonList_other body c rest st hc⟩
  · rw [directiveLoop_succ, if_neg hw]
    have e : directive _rxn 'w' (c :: rest) st = .error Error.MalformedDirective := by
      unfold directive
      rw [if_pos rfl]
      exact colonList_other _ c rest st hc
    rw [e]
  · rw [directiveLoop_succ, if_neg ha]
    have e : directive _rxn 'a' (c :: rest) st = .error Error.MalformedDirective := by
      unfold directive
      rw [if_neg (by decide), if_pos rfl]
      exact colonList_other _ c rest st hc
    rw [e]
  · intro N hd
    rw [directiveLoop_succ, if_neg ho]
    have e : directive _rxn 'o' (decimal N ++ c :: rest) st =
        .error Error.MalformedDirective := by
      unfold directive
      rw [if_neg (by decide), if_neg (by decide), if_pos rfl,
        readUnsigned_decimal N (c :: rest) (by rw [isdigit_lookNext_cons]; exact hd)]
      exact colonList_other _ c rest st hc
    rw [e]
  · intro N hd
    rw [directiveLoop_succ, if_neg hn]
    have e : directive _rxn '&' (decimal N ++ c :: rest) st =
        .error Error.MalformedDirective := by
      unfold directive
      rw [if_neg (by decide), if_neg (by decide), if_neg (by decide), if_pos rfl,
        readUnsigned_decimal N (c :: rest) (by rw [isdigit_lookNext_cons]; exact hd)]
      exact colonList_other _ c rest st hc
    rw [e]
  · intro D hD
    rw [directiveLoop_succ, if_neg hr]
    have e : directive _rxn '^' (D :: c :: rest) st = .error Error.MalformedDirective := by
      unfold directive
      rw [if_neg (by decide), if_neg (by decide), if_neg (by decide), if_neg (by decide),
        if_pos rfl]
      rcases hD with h | h | h
      · subst h
        exact colonList_other _ c rest st hc
      · subst h
        exact colonList_other _ c rest st hc
      · subst h
        exact colonList_other _ c rest st hc
    rw [e]
  · rw [directiveLoop_succ, if_neg hf]
    have e : directive _rxn 'f' (c :: rest) st = .error Error.MalformedDirective := by
      unfold directive
      rw [if_neg (by decide), if_neg (by decide), if_neg (by decide), if_neg (by decide),
        if_neg (by decide), if_pos rfl, expectColon_other c rest hc]
    rw [e]
  · rw [directiveLoop_succ, if_neg hh]
    have e : directive _rxn 'h' ('a' :: c :: rest) st = .error Error.MalformedDirective := by
      unfold directive
      rw [if_neg (by decide), if_neg (by decide), if_neg (by decide), if_neg (by decide),
        if_neg (by decide), if_neg (by decide), if_neg (by decide), if_pos rfl]
      exact colonList_other _ c rest _ hc
    rw [e]
  · rw [directiveLoop_succ, if_neg hh]
    have e : directive _rxn 'h' ('b' :: c :: rest) st = .error Error.MalformedDirective := by
      unfold directive
      rw [if_neg (by decide), if_neg (by decide), if_neg (by decide), if_neg (by decide),
        if_neg (by decide), if_neg (by decide), if_neg (by decide), if_pos rfl]
      exact colonList_other _ c rest _ hc
    rw [e]

theorem missing_colon_fails_witness :
    directiveLoop true 20 "w;1|".toList exampleState = .error Error.MalformedDirective ∧
    directiveLoop true 20 "o12;1|".toList exampleState = .error Error.MalformedDirective ∧
    directiveLoop true 20 "^4;5|".toList exampleState = .error Error.MalformedDirective ∧
    directiveLoop true 20 "f;0.1|".toList exampleState = .error Error.MalformedDirective ∧
    directiveLoop true 20 "hb;0|".toList exampleState = .error Error.MalformedDirective ∧
    loadReaction exampleCollaborators false false "C.C.C>NN>C|ha;3|".toList =
      .error Error.MalformedDirective := by
  have h := missing_colon_fails true ';' "1|".toList exampleState 19 (by decide)
  have h5 := missing_colon_fails true ';' "5|".toList exampleState 19 (by decide)
  have h01 := missing_colon_fails true ';' "0.1|".toList exampleState 19 (by decide)
  have h0 := missing_colon_fails true ';' "0|".toList exampleState 19 (by decide)
  exact ⟨h.1, h.2.2.1 12 (by decide), h5.2.2.2.2.1 '4' (Or.inr (Or.inr rfl)),
    h01.2.2.2.2.2.1, h0.2.2.2.2.2.2.2.1, by decide⟩

/-! ## C11: the radical directive -/

theorem readIntFix1_digit (d : Nat) (hd : d < 10) (s : Scanner) :
    Scanner.readIntFix1 (Nat.digitChar d :: s) = .ok ((d : Int), s) := by
  unfold Scanner.readIntFix1
  obtain ⟨h1, h2⟩ := digitChar_isDigit d hd
  simp only [h1, if_true, h2]

theorem radical_step (r : Radical) (g : Nat) (st : State)
    (hg : g < st.mols.r.vertexCount + st.mols.c.vertexCount + st.mols.p.vertexCount) :
    ∃ a, (allAtoms st.mols)[g]? = some a ∧
      radicalBody true r g st = .ok (radicalStep true r g st) ∧
      SameButAtoms st (radicalStep true r g st) ∧
      allAtoms (radicalStep true r g st).mols =
        (allAtoms st.mols).set g (Atom.setAtomRadical r a) := by
  obtain ⟨G, l, mol', a, hsel, hup, hat, _, _, _, hall, hsame⟩ :=
    update_global st.mols g hg (Atom.setAtomRadical r)
  have hb : radicalBody true r g st = .ok { st with mols := st.mols.set G mol' } := by
    unfold radicalBody
    rw [hsel]
    simp only [if_true]
    rw [hup]
  have hs : radicalStep true r g st = { st with mols := st.mols.set G mol' } := by
    unfold radicalStep
    rw [hb]
  refine ⟨a, hat, ?_, ?_, ?_⟩
  · rw [hs, hb]
  · rw [hs]
    exact ⟨rfl, rfl, rfl, rfl, hsame⟩
  · rw [hs]
    exact hall

theorem setAtomRadical_idem (r : Radical) (a : Atom) :
    Atom.setAtomRadical r (Atom.setAtomRadical r a) = Atom.setAtomRadical r a := by
  cases a <;> rfl

theorem radical_fold (r : Radical) : ∀ (gs : List Nat) (st : State),
    (∀ g ∈ gs, g < st.mols.r.vertexCount + st.mols.c.vertexCount + st.mols.p.vertexCount) →
    SameButAtoms st (gs.foldl (fun st g => radicalStep true r g st) st) ∧
    ∀ i : Nat, (allAtoms (gs.foldl (fun st g => radicalStep true r g st) st).mols)[i]? =
      ((allAtoms st.mols)[i]?).map (fun a => if i ∈ gs then Atom.setAtomRadical r a else a) := by
  intro gs
  induction gs with
  | nil =>
    intro st _
    refine ⟨SameButAtoms.refl st, fun i => ?_⟩
    simp
  | cons g gs ih =>
    intro st hgs
    obtain ⟨a, hat, _, hsame, hall⟩ := radical_step r g st (hgs g (List.mem_cons_self _ _))
    obtain ⟨i1, i2⟩ := ih (radicalStep true r g st) (by
      intro g' hg'
      rw [hsame.total]
      exact hgs g' (List.mem_cons_of_mem _ hg'))
    rw [List.foldl_cons]
    refine ⟨hsame.trans i1, fun i => ?_⟩
    rw [i2 i, hall]
    by_cases hi : g = i
    · subst hi
      have hlt : g < (allAtoms st.mols).length := by
        rcases Nat.lt_or_ge g (allAtoms st.mols).length with h | h
        · exact h
        · rw [List.getElem?_eq_none h] at hat
          cases hat
      rw [List.getElem?_set_self hlt, hat]
      simp only [Option.map_some', List.mem_cons, true_or, if_true]
      by_cases hm : g ∈ gs
      · rw [if_pos hm, setAtomRadical_idem]
      · rw [if_neg hm]
    · rw [List.getElem?_set_ne hi]
      cases (allAtoms st.mols)[i]? with
      | none => rfl
      | some b =>
        simp only [Option.map_some', List.mem_cons]
        have hne : ¬ i = g := fun h => hi h.symm
        simp only [hne, false_or]

theorem radical_list_text (r : Radical) (d : Nat) (hd : d < 10)
    (hr : radicalOfInt (d : Int) = .ok r) (gs : List Nat) (rest : Scanner) (st : State)
    (hgs : ∀ g ∈ gs,
      g < st.mols.r.vertexCount + st.mols.c.vertexCount + st.mols.p.vertexCount)
    (hdig : isdigit (Scanner.lookNext rest) = false)
    (hcomma : Scanner.lookNext rest ≠ some ',') :
    directive true '^' (Nat.digitChar d :: ':' :: (indexText gs ++ rest)) st =
      .ok (rest, gs.foldl (fun st g => radicalStep true r g st) st) := by
  unfold directive
  rw [if_neg (by decide), if_neg (by decide), if_neg (by decide), if_neg (by decide),
    if_pos rfl, readIntFix1_digit d hd]
  simp only
  rw [hr]
  simp only
  unfold colonList expectColon Scanner.readChar
  simp only [ne_eq, not_true_eq_false, if_false]
  exact indexList_text (radicalBody true r) (radicalStep true r)
    (fun st' => SameButAtoms st st') rest hdig hcomma gs _ st
    (by have := length_indexText gs; simp only [List.length_append]; omega)
    (SameButAtoms.refl st)
    (fun g hg st' hst' => by
      obtain ⟨a, _, hb, hsame, _⟩ := radical_step r g st' (by rw [hst'.total]; exact hgs g hg)
      exact ⟨hb, hst'.trans hsame⟩)
theorem directive_radical (_rxn : Bool) (d : Nat) (hd : d < 10) (s : Scanner) (st : State) :
    directive _rxn '^' (Nat.digitChar d :: s) st =
      match radicalOfInt (d : Int) with
      | .error e => .error e
      | .ok radical => colonList (radicalBody _rxn radical) s st := by
  unfold directive
  rw [if_neg (by decide), if_neg (by decide), if_neg (by decide), if_neg (by decide),
    if_pos rfl, readIntFix1_digit d hd]

theorem radicalOfInt_cases (d : Nat) :
    (d ≠ 1 ∧ d ≠ 3 ∧ d ≠ 4 ∧ radicalOfInt (d : Int) = .error (Error.UnsupportedRadical d)) ∨
    (d = 1 ∧ radicalOfInt (d : Int) = .ok Radical.RADICAL_DOUPLET) ∨
    (d = 3 ∧ radicalOfInt (d : Int) = .ok Radical.RADICAL_SINGLET) ∨
    (d = 4 ∧ radicalOfInt (d : Int) = .ok Radical.RADICAL_TRIPLET) := by
  by_cases h1 : d = 1
  · subst h1; exact Or.inr (Or.inl ⟨rfl, rfl⟩)
  by_cases h3 : d = 3
  · subst h3; exact Or.inr (Or.inr (Or.inl ⟨rfl, rfl⟩))
  by_cases h4 : d = 4
  · subst h4; exact Or.inr (Or.inr (Or.inr ⟨rfl, rfl⟩))
  refine Or.inl ⟨h1, h3, h4, ?_⟩
  unfold radicalOfInt
  rw [if_neg (by omega), if_neg (by omega), if_neg (by omega)]

theorem colonList_radical_error (_rxn : Bool) (r : Radical) (s : Scanner) (st : State)
    (x : Int) : colonList (radicalBody _rxn r) s st ≠ .error (Error.UnsupportedRadical x) := by
  intro h
  have := (colonList_outcome (radicalBody _rxn r) (fun e => ∀ x, e ≠ Error.UnsupportedRadical x)
    (fun _ => True) (fun _ h => by cases h) (fun _ h => by cases h) (fun _ h => by cases h)
    (fun g st e he y hy => by
      rcases (radicalBody_outcome _rxn r g st).1 e he with h | h
      · rw [h] at hy; cases hy
      · rw [h] at hy; cases hy)
    (fun _ _ _ _ _ => trivial) s st trivial).1 _ h x
  exact this rfl

/-- C11: for a digit `d`, the directive `^d` fails with `UnsupportedRadical` exactly when
`d` is none of 1, 3 and 4, and the interpreter then stops with `UnsupportedRadical d`.
Otherwise, on a plain-molecule parse and an index list `gs` of global indices below the
total atom count, the directive `^d:gs` goes on with the rest of the block in a state that
differs in atoms only: the atom that the resolver finds for a global index `i` has its
radical set to doublet (`d = 1`), singlet (`d = 3`) or triplet (`d = 4`) when `i` is
listed, and is the atom it was when `i` is not listed. -/
theorem radical_directive (d : Nat) (hd : d < 10) (st : State) (fuel : Nat) :
    (∀ (_rxn : Bool) (s : Scanner),
      ((∃ x, directive _rxn '^' (Nat.digitChar d :: s) st =
          .error (Error.UnsupportedRadical x)) ↔ (d ≠ 1 ∧ d ≠ 3 ∧ d ≠ 4)) ∧
      (d ≠ 1 ∧ d ≠ 3 ∧ d ≠ 4 →
        directiveLoop _rxn (fuel + 1) ('^' :: Nat.digitChar d :: s) st =
          .error (Error.UnsupportedRadical d))) ∧
    (∀ (r : Radical) (gs : List Nat) (rest : Scanner),
      (d = 1 ∧ r = Radical.RADICAL_DOUPLET ∨ d = 3 ∧ r = Radical.RADICAL_SINGLET ∨
        d = 4 ∧ r = Radical.RADICAL_TRIPLET) →
      (∀ g ∈ gs,
        g < st.mols.r.vertexCount + st.mols.c.vertexCount + st.mols.p.vertexCount) →
      isdigit (Scanner.lookNext rest) = false → Scanner.lookNext rest ≠ some ',' →
      ∃ st',
        directiveLoop true (fuel + 1)
            ('^' :: Nat.digitChar d :: ':' :: (indexText gs ++ rest)) st =
          directiveLoop true fuel rest st' ∧
        SameButAtoms st st' ∧
        ∀ (i G : Nat) (idx : Int),
          i < st.mols.r.vertexCount + st.mols.c.vertexCount + st.mols.p.vertexCount →
          selectAtom st.mols i = .ok (G, idx) →
          selectAtom st'.mols i = .ok (G, idx) ∧
          (st'.mols.get G).atoms[idx.toNat]? = ((st.mols.get G).atoms[idx.toNat]?).map
            (fun a => if i ∈ gs then Atom.setAtomRadical r a else a)) ∧
    (∀ (r : Radical) (number : Nat) (radical : Option Radical) (pseudo : Option (List Char)),
      Atom.setAtomRadical r (Atom.plain number radical pseudo) =
        Atom.plain number (some r) pseudo) := by
  have hc : ('^' : Char) ≠ '|' := by decide
  refine ⟨fun _rxn s => ⟨⟨?_, ?_⟩, ?_⟩, ?_, fun _ _ _ _ => rfl⟩
  · rintro ⟨x, hx⟩
    rw [directive_radical _rxn d hd] at hx
    rcases radicalOfInt_cases d with ⟨h1, h3, h4, _⟩ | ⟨_, h⟩ | ⟨_, h⟩ | ⟨_, h⟩
    · exact ⟨h1, h3, h4⟩
    · rw [h] at hx
      exact absurd hx (colonList_radical_error _ _ _ _ _)
    · rw [h] at hx
      exact absurd hx (colonList_radical_error _ _ _ _ _)
    · rw [h] at hx
      exact absurd hx (colonList_radical_error _ _ _ _ _)
  · rintro ⟨h1, h3, h4⟩
    rcases radicalOfInt_cases d with ⟨_, _, _, h⟩ | ⟨h, _⟩ | ⟨h, _⟩ | ⟨h, _⟩
    · exact ⟨d, by rw [directive_radical _rxn d hd, h]⟩
    · exact absurd h h1
    · exact absurd h h3
    · exact absurd h h4
  · rintro ⟨h1, h3, h4⟩
    rcases radicalOfInt_cases d with ⟨_, _, _, h⟩ | ⟨h, _⟩ | ⟨h, _⟩ | ⟨h, _⟩
    · rw [directiveLoop_succ, if_neg hc, directive_radical _rxn d hd, h]
    · exact absurd h h1
    · exact absurd h h3
    · exact absurd h h4
  · intro r gs rest hdr hgs hdig hcomma
    have hr : radicalOfInt (d : Int) = .ok r := by
      rcases hdr with ⟨h, h'⟩ | ⟨h, h'⟩ | ⟨h, h'⟩
      · rw [h, h']; rfl
      · rw [h, h']; rfl
      · rw [h, h']; rfl
    obtain ⟨hsame, hall⟩ := radical_fold r gs st hgs
    refine ⟨gs.foldl (fun st g => radicalStep true r g st) st, ?_, hsame, ?_⟩
    · rw [directiveLoop_succ, if_neg hc,
        radical_list_text r d hd hr gs rest st hgs hdig hcomma]
    · intro i G idx hi hsel
      have hsel' : selectAtom (gs.foldl (fun st g => radicalStep true r g st) st).mols i =
          .ok (G, idx) := by
        rw [selectAtom_same st _ hsame i]; exact hsel
      refine ⟨hsel', ?_⟩
      rw [atom_of_selectAtom _ i G idx (by rw [hsame.total]; exact hi) hsel',
        atom_of_selectAtom st.mols i G idx hi hsel, hall]

theorem radical_directive_witness :
    directiveLoop true 20 "^2:5|".toList exampleState = .error (Error.UnsupportedRadical 2) ∧
    (∃ st',
      directiveLoop true 20 "^4:5|".toList exampleState =
        directiveLoop true 19 "|".toList st' ∧
      selectAtom exampleState.mols 5 = .ok (2, 0) ∧
      (st'.mols.get 2).atoms[0]? = ((exampleState.mols.get 2).atoms[0]?).map
        (Atom.setAtomRadical Radical.RADICAL_TRIPLET)) ∧
    (match directiveLoop true 20 "^4:5|".toList exampleState with
      | .ok (_, st') => (st'.mols.get 2).atoms
      | .error _ => []) = [Atom.plain 67 (some Radical.RADICAL_TRIPLET) none] ∧
    loadReaction exampleCollaborators false false "C.C.C>NN>C|^2:5|".toList =
      .error (Error.UnsupportedRadical 2) := by
  have h2 := radical_directive 2 (by decide) exampleState 19
  have h4 := radical_directive 4 (by decide) exampleState 19
  obtain ⟨st', e1, _, e2⟩ := h4.2.1 Radical.RADICAL_TRIPLET [5] "|".toList
    (Or.inr (Or.inr ⟨rfl, rfl⟩)) (by decide) (by decide) (by decide)
  have hsel : selectAtom exampleState.mols 5 = .ok (2, 0) := by decide
  refine ⟨(h2.1 true ":5|".toList).2 (by decide), ⟨st', e1, hsel, ?_⟩, by decide, by decide⟩
  have := (e2 5 2 0 (by decide) hsel).2
  simpa using this

/-! ## C13: the leaf of an `f` entry is not checked against its group -/

theorem arraySet_outside {α : Type} (a : List α) (i : Int) (x : α)
    (h : i < 0 ∨ (a.length : Int) ≤ i) : arraySet a i x = .error Error.InvalidIndex := by
  unfold arraySet
  rw [if_neg]
  intro ⟨h0, h1⟩
  rcases h with h | h
  · omega
  · omega

/-- C13: the `f` directive checks the lead of an entry `L.x` only. When the lead `L`
resolves to component `lead` of group `G`, the pair resolver succeeds for every leaf `x`,
also when the reduced leaf `x - off` (`off` the component count of the groups before `G`)
is negative or at or past the component count of `G`; no `OutOfRange` is raised, and the
write `fragments[G][x - off] = lead` goes to a position outside the map, where the array
stops the run with its own `InvalidIndex`. -/
theorem f_leaf_unchecked (L x : Nat) (rest : Scanner) (fragments : Groups (List Int))
    (G : Nat) (lead : Int) (fuel : Nat) (st : State) (_rxn : Bool)
    (hsel : _selectGroup L fragments.r.length fragments.c.length fragments.p.length =
      .ok (G, lead))
    (hout : (x : Int) - precedingSize fragments.r.length fragments.c.length G < 0 ∨
      ((fragments.get G).length : Int) ≤
        (x : Int) - precedingSize fragments.r.length fragments.c.length G)
    (hdig : isdigit (Scanner.lookNext rest) = false)
    (hst : st.fragments = fragments) :
    _selectGroupByPair L x fragments.r.length fragments.c.length fragments.p.length =
      .ok (G, lead, (x : Int) - precedingSize fragments.r.length fragments.c.length G) ∧
    arraySet (fragments.get G)
      ((x : Int) - precedingSize fragments.r.length fragments.c.length G) lead =
      .error Error.InvalidIndex ∧
    leafLoop L (fuel + 1) ('.' :: (decimal x ++ rest)) fragments =
      .error Error.InvalidIndex ∧
    entryLoop (fuel + 1) (decimal L ++ '.' :: (decimal x ++ rest)) fragments =
      .error Error.InvalidIndex ∧
    directiveLoop _rxn (fuel + 1) ('f' :: ':' :: (decimal L ++ '.' :: (decimal x ++ rest))) st =
      .error Error.InvalidIndex ∧
    directiveLoop _rxn (fuel + 1) ('f' :: ':' :: (decimal L ++ '.' :: (decimal x ++ rest))) st ≠
      .error Error.OutOfRange := by
  have hpair := (selectGroupByPair_of_selectGroup L x fragments.r.length fragments.c.length
    fragments.p.length G lead hsel).1
  have hset := arraySet_outside (fragments.get G)
    ((x : Int) - precedingSize fragments.r.length fragments.c.length G) lead hout
  have hleaf : ∀ fuel, leafLoop L (fuel + 1) ('.' :: (decimal x ++ rest)) fragments =
      .error Error.InvalidIndex := by
    intro fuel
    rw [leafLoop]
    have hl : Scanner.lookNext ('.' :: (decimal x ++ rest)) = some '.' := rfl
    have hk : Scanner.skip ('.' :: (decimal x ++ rest)) 1 = decimal x ++ rest := rfl
    rw [if_pos hl]
    simp only [hk]
    rw [readUnsigned_decimal x rest hdig]
    simp only
    rw [hpair]
    simp only
    rw [hset]
  have hentry : ∀ fuel, entryLoop (fuel + 1) (decimal L ++ '.' :: (decimal x ++ rest))
      fragments = .error Error.InvalidIndex := by
    intro fuel
    rw [entryLoop, if_pos (isdigit_decimal_append L _),
      readUnsigned_decimal L ('.' :: (decimal x ++ rest)) rfl]
    simp only
    rw [hleaf]
  have hloop : directiveLoop _rxn (fuel + 1)
      ('f' :: ':' :: (decimal L ++ '.' :: (decimal x ++ rest))) st =
      .error Error.InvalidIndex := by
    rw [directiveLoop_succ, if_neg (by decide)]
    have e : directive _rxn 'f' (':' :: (decimal L ++ '.' :: (decimal x ++ rest))) st =
        .error Error.InvalidIndex := by
      unfold directive
      rw [if_neg (by decide), if_neg (by decide), if_neg (by decide), if_neg (by decide),
        if_neg (by decide), if_pos rfl]
      unfold expectColon Scanner.readChar
      simp only [ne_eq, not_true_eq_false, if_false]
      rw [hst, hentry]
    rw [e]
  refine ⟨hpair, hset, hleaf fuel, hentry fuel, hloop, ?_⟩
  rw [hloop]
  exact fun h => by cases h

theorem f_leaf_unchecked_witness :
    (_selectGroupByPair 2 0 2 2 1 = .ok (1, 0, -2) ∧
      entryLoop 20 "2.0|".toList { r := [0, 1], c := [0, 1], p := [0] } =
        .error Error.InvalidIndex) ∧
    (_selectGroupByPair 0 5 3 1 1 = .ok (0, 0, 5) ∧
      directiveLoop true 20 "f:0.5|".toList exampleState = .error Error.InvalidIndex ∧
      loadReaction exampleCollaborators false false "C.C.C>NN>C|f:0.5|".toList =
        .error Error.InvalidIndex) := by
  have h1 := f_leaf_unchecked 2 0 "|".toList { r := [0, 1], c := [0, 1], p := [0] } 1 0 19
    { exampleState with fragments := { r := [0, 1], c := [0, 1], p := [0] } } true
    (by decide) (by decide) (by decide) rfl
  have h2 := f_leaf_unchecked 0 5 "|".toList exampleState.fragments 0 0 19 exampleState true
    (by decide) (by decide) (by decide) rfl
  exact ⟨⟨h1.1, h1.2.2.2.1⟩, ⟨h2.1, h2.2.2.2.2.1, by decide⟩⟩

/-! ## C15 and C16: the scans of the group texts -/

theorem readGroup_append (a : List Char) (ha : '>' ∉ a) (t : Scanner) :
    ∀ buf, readGroup (a ++ '>' :: t) buf = .ok (buf ++ a, t) := by
  induction a with
  | nil =>
    intro buf
    rw [List.nil_append, readGroup, if_pos rfl, List.append_nil]
  | cons x a ih =>
    intro buf
    have hx : x ≠ '>' := fun h => ha (by rw [h]; exact List.mem_cons_self _ _)
    rw [List.cons_append, readGroup, if_neg hx,
      ih (fun h => ha (List.mem_cons_of_mem _ h)), List.append_assoc]
    rfl

theorem readGroup_none (a : List Char) (ha : '>' ∉ a) :
    ∀ buf, readGroup a buf = .error Error.UnexpectedEnd := by
  induction a with
  | nil => intro buf; rfl
  | cons x a ih =>
    intro buf
    have hx : x ≠ '>' := fun h => ha (by rw [h]; exact List.mem_cons_self _ _)
    rw [readGroup, if_neg hx, ih (fun h => ha (List.mem_cons_of_mem _ h))]

theorem readProducts_append (c : List Char) (hc : '|' ∉ c) (t : Scanner) :
    ∀ buf, readProducts (c ++ '|' :: t) buf = (buf ++ c, true, t) := by
  induction c with
  | nil =>
    intro buf
    rw [List.nil_append, readProducts, if_pos rfl, List.append_nil]
  | cons x c ih =>
    intro buf
    have hx : x ≠ '|' := fun h => hc (by rw [h]; exact List.mem_cons_self _ _)
    rw [List.cons_append, readProducts, if_neg hx,
      ih (fun h => hc (List.mem_cons_of_mem _ h)), List.append_assoc]
    rfl

theorem readProducts_none (c : List Char) (hc : '|' ∉ c) :
    ∀ buf, readProducts c buf = (buf ++ c, false, []) := by
  induction c with
  | nil => intro buf; rw [readProducts, List.append_nil]
  | cons x c ih =>
    intro buf
    have hx : x ≠ '|' := fun h => hc (by rw [h]; exact List.mem_cons_self _ _)
    rw [readProducts, if_neg hx, ih (fun h => hc (List.mem_cons_of_mem _ h)),
      List.append_assoc]
    rfl

/-- The loader's first part is the three scans with a parser run after each: when the
scans go through, its result is the result of the three parser runs. -/
theorem loadGroups_of_split (ext : Collaborators) (ig _rxn : Bool) (s : Scanner)
    (a b c : List Char) (vbar : Bool) (t : Scanner)
    (h : splitGroups s = .ok (a, b, c, vbar, t)) :
    loadGroups ext ig _rxn s =
      match parseGroups ext ig _rxn a b c with
      | .error e => .error e
      | .ok loaders => .ok (loaders, vbar, t) := by
  unfold splitGroups at h
  unfold loadGroups parseGroups
  cases h1 : readGroup s [] with
  | error e => rw [h1] at h; cases h
  | ok x =>
    obtain ⟨a', s1⟩ := x
    rw [h1] at h
    simp only at h ⊢
    cases h2 : readGroup s1 [] with
    | error e => rw [h2] at h; cases h
    | ok y =>
      obtain ⟨b', s2⟩ := y
      rw [h2] at h
      simp only at h ⊢
      injection h with h
      injection h with ha h
      injection h with hb h
      injection h with hc h
      injection h with hv ht
      subst ha; subst hb
      cases ext.loadMolecule ig (!_rxn) a' with
      | error e => rfl
      | ok rl =>
        simp only
        cases ext.loadMolecule ig (!_rxn) b' with
        | error e => rfl
        | ok cl =>
          simp only
          rw [hc, hv, ht]
          cases ext.loadMolecule ig (!_rxn) c with
          | error e => rfl
          | ok pl => rfl

theorem splitGroups_text (a b c : List Char) (ha : '>' ∉ a) (hb : '>' ∉ b) (hc : '|' ∉ c) :
    splitGroups (a ++ '>' :: (b ++ '>' :: c)) = .ok (a, b, c, false, []) ∧
    ∀ rest, splitGroups (a ++ '>' :: (b ++ '>' :: (c ++ '|' :: rest))) =
      .ok (a, b, c, true, rest) := by
  constructor
  · unfold splitGroups
    rw [readGroup_append a ha]
    simp only
    rw [readGroup_append b hb]
    simp only
    rw [readProducts_none c hc]
    rfl
  · intro rest
    unfold splitGroups
    rw [readGroup_append a ha]
    simp only
    rw [readGroup_append b hb]
    simp only
    rw [readProducts_append c hc]
    rfl

/-- C15: for an input `a>b>c` in which `a` and `b` have no `>` and `c` has no `|`, the
scans give the reactant text `a`, the catalyst text `b` and the product text `c` and
record that no annotation block follows (`vbar` false, nothing left to read); for
`a>b>c|rest` they give the same three texts, record the block (`vbar` true) and leave the
scanner at the first character of `rest`. The loader gives exactly these texts to the
three parser runs. -/
theorem splitter_texts (a b c : List Char) (ha : '>' ∉ a) (hb : '>' ∉ b) (hc : '|' ∉ c) :
    splitGroups (a ++ '>' :: (b ++ '>' :: c)) = .ok (a, b, c, false, []) ∧
    (∀ rest, splitGroups (a ++ '>' :: (b ++ '>' :: (c ++ '|' :: rest))) =
      .ok (a, b, c, true, rest)) ∧
    (∀ (ext : Collaborators) (ig _rxn : Bool),
      loadGroups ext ig _rxn (a ++ '>' :: (b ++ '>' :: c)) =
        match parseGroups ext ig _rxn a b c with
        | .error e => .error e
        | .ok loaders => .ok (loaders, false, [])) ∧
    (∀ (ext : Collaborators) (ig _rxn : Bool) (rest : Scanner),
      loadGroups ext ig _rxn (a ++ '>' :: (b ++ '>' :: (c ++ '|' :: rest))) =
        match parseGroups ext ig _rxn a b c with
        | .error e => .error e
        | .ok loaders => .ok (loaders, true, rest)) := by
  obtain ⟨h1, h2⟩ := splitGroups_text a b c ha hb hc
  exact ⟨h1, h2, fun ext ig _rxn => loadGroups_of_split ext ig _rxn _ a b c false [] h1,
    fun ext ig _rxn rest => loadGroups_of_split ext ig _rxn _ a b c true rest (h2 rest)⟩

theorem splitter_texts_witness :
    splitGroups "C.C.C>NN>C".toList =
      .ok ("C.C.C".toList, "NN".toList, "C".toList, false, []) ∧
    splitGroups "C.C.C>NN>C|f:0.1|".toList =
      .ok ("C.C.C".toList, "NN".toList, "C".toList, true, "f:0.1|".toList) ∧
    splitGroups ">>".toList = .ok ([], [], [], false, []) := by
  have h := splitter_texts "C.C.C".toList "NN".toList "C".toList (by decide) (by decide)
    (by decide)
  have h0 := splitter_texts [] [] [] (by decide) (by decide) (by decide)
  exact ⟨h.1, h.2.1 "f:0.1|".toList, h0.1⟩

theorem readGroup_spec : ∀ (s : Scanner) (buf : List Char),
    ('>' ∉ s ∧ readGroup s buf = .error Error.UnexpectedEnd) ∨
    (∃ pre t, s = pre ++ '>' :: t ∧ '>' ∉ pre ∧ readGroup s buf = .ok (buf ++ pre, t)) := by
  intro s
  induction s with
  | nil => intro buf; exact Or.inl ⟨by simp, rfl⟩
  | cons x s ih =>
    intro buf
    by_cases hx : x = '>'
    · refine Or.inr ⟨[], s, by rw [hx]; rfl, by simp, ?_⟩
      rw [readGroup, if_pos hx, List.append_nil]
    · rcases ih (buf ++ [x]) with ⟨h1, h2⟩ | ⟨pre, t, h1, h2, h3⟩
      · refine Or.inl ⟨?_, ?_⟩
        · intro hm
          rcases List.mem_cons.mp hm with h | h
          · exact hx h.symm
          · exact h1 h
        · rw [readGroup, if_neg hx, h2]
      · refine Or.inr ⟨x :: pre, t, by rw [h1]; rfl, ?_, ?_⟩
        · intro hm
          rcases List.mem_cons.mp hm with h | h
          · exact hx h.symm
          · exact h2 h
        · rw [readGroup, if_neg hx, h3, List.append_assoc]
          rfl

theorem count_split (pre t : List Char) (h : '>' ∉ pre) :
    (pre ++ '>' :: t).count '>' = t.count '>' + 1 := by
  rw [List.count_append, List.count_eq_zero.mpr h, List.count_cons_self, Nat.zero_add]

/-- C16: the scans of the group texts fail exactly when the input has fewer than two `>`
characters, and their failure is `UnexpectedEnd`. In the loader, an input with two or
more `>` gets through the scans, and an input with fewer fails with `UnexpectedEnd`
unless the parser rejects the reactant text before the second scan. -/
theorem splitter_unexpected_end (s : Scanner) :
    (splitGroups s = .error Error.UnexpectedEnd ↔ s.count '>' < 2) ∧
    (∀ e, splitGroups s = .error e → e = Error.UnexpectedEnd) ∧
    (2 ≤ s.count '>' → ∃ a b c vbar t, splitGroups s = .ok (a, b, c, vbar, t) ∧
      ∀ (ext : Collaborators) (ig _rxn : Bool),
        loadGroups ext ig _rxn s =
          match parseGroups ext ig _rxn a b c with
          | .error e => .error e
          | .ok loaders => .ok (loaders, vbar, t)) ∧
    (s.count '>' < 2 → ∀ (ext : Collaborators) (ig _rxn : Bool),
      loadGroups ext ig _rxn s = .error Error.UnexpectedEnd ∨
      ∃ a t e, readGroup s [] = .ok (a, t) ∧ ext.loadMolecule ig (!_rxn) a = .error e ∧
        loadGroups ext ig _rxn s = .error e) := by
  rcases readGroup_spec s [] with ⟨h1, h2⟩ | ⟨a, t, h1, h2, h3⟩
  · have hcount : s.count '>' = 0 := List.count_eq_zero.mpr h1
    have hsplit : splitGroups s = .error Error.UnexpectedEnd := by
      unfold splitGroups
      rw [h2]
    refine ⟨⟨fun _ => by omega, fun _ => hsplit⟩, ?_, fun h => by omega, ?_⟩
    · intro e he
      rw [hsplit] at he
      cases he
      rfl
    · intro _ ext ig _rxn
      left
      unfold loadGroups
      rw [h2]
  · rw [List.nil_append] at h3
    rcases readGroup_spec t [] with ⟨g1, g2⟩ | ⟨b, u, g1, g2, g3⟩
    · have hcount : s.count '>' = 1 := by
        rw [h1, count_split a t h2, List.count_eq_zero.mpr g1]
      have hsplit : splitGroups s = .error Error.UnexpectedEnd := by
        unfold splitGroups
        rw [h3]
        simp only
        rw [g2]
      refine ⟨⟨fun _ => by omega, fun _ => hsplit⟩, ?_, fun h => by omega, ?_⟩
      · intro e he
        rw [hsplit] at he
        cases he
        rfl
      · intro _ ext ig _rxn
        cases hp : ext.loadMolecule ig (!_rxn) a with
        | error e =>
          right
          refine ⟨a, t, e, h3, hp, ?_⟩
          unfold loadGroups
          rw [h3]
          simp only
          rw [hp]
        | ok l =>
          left
          unfold loadGroups
          rw [h3]
          simp only
          rw [hp]
          simp only
          rw [g2]
    · rw [List.nil_append] at g3
      have hcount : 2 ≤ s.count '>' := by
        rw [h1, count_split a t h2, g1, count_split b u g2]
        omega
      have hsplit : splitGroups s =
          .ok (a, b, (readProducts u []).1, (readProducts u []).2.1, (readProducts u []).2.2) := by
        unfold splitGroups
        rw [h3]
        simp only
        rw [g3]
      refine ⟨⟨fun h => ?_, fun h => by omega⟩, ?_, fun _ => ⟨a, b, _, _, _, hsplit, ?_⟩,
        fun h => by omega⟩
      · rw [hsplit] at h
        cases h
      · intro e he
        rw [hsplit] at he
        cases he
      · intro ext ig _rxn
        exact loadGroups_of_split ext ig _rxn s _ _ _ _ _ hsplit

theorem splitter_unexpected_end_witness :
    splitGroups "C.C.C>NN".toList = .error Error.UnexpectedEnd ∧
    splitGroups "C.C.C".toList = .error Error.UnexpectedEnd ∧
    (∃ a b c vbar t, splitGroups "C.C.C>NN>C".toList = .ok (a, b, c, vbar, t)) ∧
    loadReaction exampleCollaborators false false "C.C.C>NN".toList =
      .error Error.UnexpectedEnd := by
  have h1 := splitter_unexpected_end "C.C.C>NN".toList
  have h2 := splitter_unexpected_end "C.C.C".toList
  have h3 := splitter_unexpected_end "C.C.C>NN>C".toList
  obtain ⟨a, b, c, vbar, t, e, _⟩ := h3.2.2.1 (by decide)
  exact ⟨h1.1.mpr (by decide), h2.1.mpr (by decide), ⟨a, b, c, vbar, t, e⟩, by decide⟩

/-! ## C17: the query-atom check -/

/-- C17, counterexample: with loaders whose `checkQueryAtoms` fails, the plain-molecule
entry point `loadReaction` fails with the error of the check, so the check ran there,
and the query-molecule entry point `loadQueryReaction` returns a reaction on the same
input, so the check did not run there. -/
theorem query_check_counterexample :
    loadReaction starCollaborators false false "C>*>C".toList =
      .error (Error.Collaborator 1) ∧
    (∃ brxn, loadQueryReaction starCollaborators false false "C>*>C".toList = .ok brxn) ∧
    checkQueryAtoms false
      { r := { mol := BaseMolecule.clear, reaction_atom_mapping := [],
               checkQueryAtoms := .error (Error.Collaborator 1) },
        c := { mol := BaseMolecule.clear, reaction_atom_mapping := [],
               checkQueryAtoms := .error (Error.Collaborator 2) },
        p := { mol := BaseMolecule.clear, reaction_atom_mapping := [],
               checkQueryAtoms := .error (Error.Collaborator 3) } } = .ok () := by
  refine ⟨by decide, ?_, rfl⟩
  cases h : loadQueryReaction starCollaborators false false "C>*>C".toList with
  | ok brxn => exact ⟨brxn, rfl⟩
  | error e =>
    have hd : ¬ ∃ e, loadQueryReaction starCollaborators false false "C>*>C".toList =
        .error e := by
      intro ⟨e, he⟩
      have : (match loadQueryReaction starCollaborators false false "C>*>C".toList with
        | .ok _ => true
        | .error _ => false) = true := by decide
      rw [he] at this
      cases this
    exact absurd ⟨e, h⟩ hd

/-- C17, amended: the query-atom check runs on the three group loaders, in the order
reactants, catalysts, products and after the annotation block, exactly when the parse
was entered through the plain-molecule entry point `loadReaction`: there the first
failing check is the outcome of the load, and an error of the annotation block comes
before any check. Entered through `loadQueryReaction` the load never consults the checks:
behind the annotation block its outcome is that of the regrouping whatever the three
checks would give. -/
theorem query_check_entry (ext : Collaborators) (highlighting ig : Bool) (s : Scanner) :
    (∀ loaders : Groups SmilesLoader, checkQueryAtoms false loaders = .ok ()) ∧
    (∀ loaders : Groups SmilesLoader, checkQueryAtoms true loaders =
      match loaders.r.checkQueryAtoms with
      | .error e => .error e
      | .ok _ =>
        match loaders.c.checkQueryAtoms with
        | .error e => .error e
        | .ok _ => loaders.p.checkQueryAtoms) ∧
    (∀ loaders vbar sc sc' st,
      loadGroups ext ig false s = .ok (loaders, vbar, sc) →
      annotationBlock false vbar sc (initialState (groupMols loaders) (groupDecomp ext loaders))
        = .ok (sc', st) →
      loadQueryReaction ext highlighting ig s =
        match regroup (regroupEnv ext loaders st highlighting) [0, 1, 2] st.fragments
            { r := [], c := [], p := [] } with
        | .error e => .error e
        | .ok (_, brxn) => .ok brxn) ∧
    (∀ loaders vbar sc sc' st,
      loadGroups ext ig true s = .ok (loaders, vbar, sc) →
      annotationBlock true vbar sc (initialState (groupMols loaders) (groupDecomp ext loaders))
        = .ok (sc', st) →
      loadReaction ext highlighting ig s =
        match loaders.r.checkQueryAtoms with
        | .error e => .error e
        | .ok _ =>
          match loaders.c.checkQueryAtoms with
          | .error e => .error e
          | .ok _ =>
            match loaders.p.checkQueryAtoms with
            | .error e => .error e
            | .ok _ =>
              match regroup (regroupEnv ext loaders st highlighting) [0, 1, 2] st.fragments
                  { r := [], c := [], p := [] } with
              | .error e => .error e
              | .ok (_, brxn) => .ok brxn) ∧
    (∀ loaders vbar sc e,
      loadGroups ext ig true s = .ok (loaders, vbar, sc) →
      annotationBlock true vbar sc (initialState (groupMols loaders) (groupDecomp ext loaders))
        = .error e →
      loadReaction ext highlighting ig s = .error e) := by
  refine ⟨fun _ => rfl, fun _ => rfl, ?_, ?_, ?_⟩
  · intro loaders vbar sc sc' st hg ha
    unfold loadQueryReaction _loadReaction
    rw [hg]
    simp only
    rw [ha]
    rfl
  · intro loaders vbar sc sc' st hg ha
    unfold loadReaction _loadReaction
    rw [hg]
    simp only
    rw [ha]
    simp only [checkQueryAtoms, if_true]
    cases loaders.r.checkQueryAtoms with
    | error e => rfl
    | ok _ =>
      simp only
      cases loaders.c.checkQueryAtoms with
      | error e => rfl
      | ok _ => rfl
  · intro loaders vbar sc e hg ha
    unfold loadReaction _loadReaction
    rw [hg]
    simp only
    rw [ha]

theorem query_check_entry_witness :
    loadReaction starCollaborators false false "*>**>C|ha:0|".toList =
      .error (Error.Collaborator 1) ∧
    loadReaction starCollaborators false false "C>**>*|ha:0|".toList =
      .error (Error.Collaborator 2) ∧
    loadReaction starCollaborators false false "*>**>C|ha;0|".toList =
      .error Error.MalformedDirective := by
  have h1 := (query_check_entry starCollaborators false false "*>**>C|ha:0|".toList).2.2.2.1
    _ _ _ _ _ rfl rfl
  have h2 := (query_check_entry starCollaborators false false "C>**>*|ha:0|".toList).2.2.2.1
    _ _ _ _ _ rfl rfl
  have h3 := (query_check_entry starCollaborators false false "*>**>C|ha;0|".toList).2.2.2.2
    _ _ _ _ rfl rfl
  exact ⟨h1, h2, h3⟩

/-! ## C20: the regrouper on any forwarding map -/

theorem length_consume (js : List Nat) : ∀ fr : List Int, (consume fr js).length = fr.length := by
  induction js with
  | nil => intro fr; rfl
  | cons j js ih =>
    intro fr
    unfold consume at ih ⊢
    rw [List.foldl_cons, ih, List.length_set]

/-- The lead loop on any forwarding map that is no longer than the component list: it
returns, the molecules it adds are built from the components they record, every placed
component is marked as consumed, and no component is placed twice. -/
theorem leadLoop_any (env : RegroupEnv) (v : Nat) (hOk : EnvOk env v) :
    ∀ (is : List Nat) (fr : List Int) (brxn : BaseReaction),
      fr.length ≤ (env.decomp.get v).length → (∀ i ∈ is, i < fr.length) →
      ∃ fr' out, leadLoop env v is fr brxn = .ok (fr', brxn.set v (brxn.get v ++ out)) ∧
        fr'.length = fr.length ∧
        (∀ j : Nat, fr[j]? = some (-1) → fr'[j]? = some (-1)) ∧
        (∀ m ∈ out, m = finalMolecule env v m.components ∧
          ∀ j ∈ m.components, j < fr.length ∧ fr[j]? ≠ some (-1) ∧ fr'[j]? = some (-1)) ∧
        (out.map (fun m => m.components)).flatten.Nodup := by
  intro is
  induction is with
  | nil =>
    intro fr brxn _ _
    refine ⟨fr, [], ?_, rfl, fun _ h => h, fun m hm => (by cases hm), (by simp)⟩
    simp [leadLoop, Groups.set_get]
  | cons i is ih =>
    intro fr brxn hlen his
    have hi : i < fr.length := his i (List.mem_cons_self _ _)
    unfold leadLoop
    rw [arrayGet_of_lt _ i 0 hi]
    simp only
    by_cases hf : fr.getD i 0 = -1
    · rw [if_pos hf]
      exact ih fr brxn hlen (fun i' hi' => his i' (List.mem_cons_of_mem _ hi'))
    · rw [if_neg hf]
      rw [componentLoop_ok env v hOk i _ _ _ (List.nodup_range' _ _)
        (by
          intro j hj
          rw [List.mem_range'_1] at hj
          omega)
        hlen]
      simp only
      have hjs : ∀ j ∈ (List.range' i (fr.length - i)).filter
          (fun j => fr[j]? == some (i : Int)), j < fr.length ∧ fr[j]? = some (i : Int) := by
        intro j hj
        rw [List.mem_filter, List.mem_range'_1] at hj
        exact ⟨by omega, by simpa using hj.2⟩
      have hnd : ((List.range' i (fr.length - i)).filter
          (fun j => fr[j]? == some (i : Int))).Nodup := (List.nodup_range' _ _).filter _
      obtain ⟨fr', out, h1, h2, h3, h4, h5⟩ := ih
        (consume fr ((List.range' i (fr.length - i)).filter
          (fun j => fr[j]? == some (i : Int))))
        (addMoleculeCopy env v (assembled env v ((List.range' i (fr.length - i)).filter
          (fun j => fr[j]? == some (i : Int))) Accum.clear) brxn)
        (by rw [length_consume]; exact hlen)
        (by
          intro i' hi'
          rw [length_consume]
          exact his i' (List.mem_cons_of_mem _ hi'))
      rw [length_consume] at h2
      have hkeep : ∀ j : Nat, fr[j]? = some (-1) →
          (consume fr ((List.range' i (fr.length - i)).filter
            (fun j => fr[j]? == some (i : Int))))[j]? = some (-1) := by
        intro j hj
        rw [getElem?_consume, hj]
        split_ifs <;> rfl
      have hcons : ∀ j ∈ (List.range' i (fr.length - i)).filter
          (fun j => fr[j]? == some (i : Int)),
          (consume fr ((List.range' i (fr.length - i)).filter
            (fun j => fr[j]? == some (i : Int))))[j]? = some (-1) := by
        intro j hj
        rw [getElem?_consume, if_pos hj, (hjs j hj).2]
        rfl
      refine ⟨fr', finalMolecule env v ((List.range' i (fr.length - i)).filter
          (fun j => fr[j]? == some (i : Int))) :: out, ?_, h2, ?_, ?_, ?_⟩
      · rw [h1, addMoleculeCopy_eq]
        simp only [Groups.get_set, Groups.set_set, List.append_assoc, List.singleton_append]
      · intro j hj
        exact h3 j (hkeep j hj)
      · intro m hm
        rcases List.mem_cons.mp hm with hm | hm
        · subst hm
          rw [finalMolecule_components]
          refine ⟨rfl, fun j hj => ⟨(hjs j hj).1, ?_, h3 j (hcons j hj)⟩⟩
          rw [(hjs j hj).2]
          intro h
          have := Option.some.inj h
          omega
        · obtain ⟨m1, m2⟩ := h4 m hm
          refine ⟨m1, fun j hj => ?_⟩
          obtain ⟨a, b, c⟩ := m2 j hj
          rw [length_consume] at a
          exact ⟨a, fun h => b (hkeep j h), c⟩
      · rw [List.map_cons, List.flatten_cons, finalMolecule_components]
        refine List.Nodup.append hnd h5 ?_
        intro j hj1 hj2
        rw [List.mem_flatten] at hj2
        obtain ⟨l, hl, hjl⟩ := hj2
        rw [List.mem_map] at hl
        obtain ⟨m, hm, hml⟩ := hl
        subst hml
        exact (h4 m hm).2 j hjl |>.2.1 (hcons j hj1)

theorem finalMolecule_lengths (env : RegroupEnv) (v : Nat) (hOk : EnvOk env v) (js : List Nat) :
    (finalMolecule env v js).aam.length = (js.map (fun j =>
      (inducedSubgraph (env.mols.get v) ((env.decomp.get v).getD j [])).vertexCount)).sum ∧
    (finalMolecule env v js).hl_atoms_frag.length = (js.map (fun j =>
      (inducedSubgraph (env.mols.get v) ((env.decomp.get v).getD j [])).vertexCount)).sum ∧
    (finalMolecule env v js).hl_bonds_frag.length = (js.map (fun j =>
      (inducedSubgraph (env.mols.get v) ((env.decomp.get v).getD j [])).edgeCount)).sum ∧
    (js.map (fun j =>
      (inducedSubgraph (env.mols.get v) ((env.decomp.get v).getD j [])).vertexCount)).sum =
      (js.map (fun j => ((env.decomp.get v).getD j []).length)).sum := by
  have hcount : ∀ j, (inducedSubgraph (env.mols.get v) ((env.decomp.get v).getD j [])).vertexCount
      = ((env.decomp.get v).getD j []).length := by
    intro j
    apply inducedSubgraph_vertexCount
    intro a ha
    by_cases hj : j < (env.decomp.get v).length
    · rw [List.getD_eq_getElem _ _ hj] at ha
      exact hOk.1 _ (List.getElem_mem hj) a ha
    · rw [List.getD_eq_default _ _ (by omega)] at ha
      cases ha
  have horig : (origins env v js).length = (js.map (fun j =>
      (inducedSubgraph (env.mols.get v) ((env.decomp.get v).getD j [])).vertexCount)).sum := by
    unfold origins
    rw [List.length_flatMap]
    congr 1
    apply List.map_congr_left
    intro j _
    exact (hcount j).symm
  refine ⟨?_, ?_, ?_, ?_⟩
  · show (assembled env v js Accum.clear).aam.length = _
    rw [assembled_aam, List.length_append, List.length_map, horig]
    simp [Accum.clear]
  · show (assembled env v js Accum.clear).hl_atoms_frag.length = _
    rw [assembled_hl_atoms, List.length_append, List.length_map, horig]
    simp [Accum.clear]
  · show (assembled env v js Accum.clear).hl_bonds_frag.length = _
    rw [assembled_hl_bonds_length]
    simp [Accum.clear]
  · congr 1
    apply List.map_congr_left
    intro j _
    exact hcount j
/-- C20: for every group `v` and every content of its forwarding map (no condition on
the entries; the map is no longer than the component list, and the loader's data fit
together), the regrouper returns, no component is recorded in two final molecules or
twice in one, and each final molecule has an AAM array and an atom-highlight array as
long as the sum of the atom counts of the components placed in it, which is its atom
count, and a bond-highlight array as long as the sum of their bond counts, which is its
bond count. -/
theorem regroup_any_map (env : RegroupEnv) (v : Nat) (fragments : Groups (List Int))
    (brxn : BaseReaction) (hOk : EnvOk env v)
    (hlen : (fragments.get v).length ≤ (env.decomp.get v).length) :
    ∃ fragments' out,
      regroupGroup env v fragments brxn = .ok (fragments', brxn.set v (brxn.get v ++ out)) ∧
      (out.map (fun m => m.components)).flatten.Nodup ∧
      ∀ m ∈ out,
        (∀ j ∈ m.components, j < (fragments.get v).length) ∧
        m.aam.length =
          (m.components.map (fun j => ((env.decomp.get v).getD j []).length)).sum ∧
        m.hl_atoms_frag.length =
          (m.components.map (fun j => ((env.decomp.get v).getD j []).length)).sum ∧
        m.hl_bonds_frag.length = (m.components.map (fun j =>
          (inducedSubgraph (env.mols.get v) ((env.decomp.get v).getD j [])).edgeCount)).sum ∧
        m.mol.vertexCount =
          (m.components.map (fun j => ((env.decomp.get v).getD j []).length)).sum ∧
        m.mol.edgeCount = (m.components.map (fun j =>
          (inducedSubgraph (env.mols.get v) ((env.decomp.get v).getD j [])).edgeCount)).sum := by
  obtain ⟨fr', out, h1, _, _, h4, h5⟩ := leadLoop_any env v hOk
    (List.range (fragments.get v).length) (fragments.get v) brxn hlen
    (fun i hi => List.mem_range.mp hi)
  refine ⟨fragments.set v fr', out, ?_, h5, ?_⟩
  · unfold regroupGroup
    rw [h1]
  · intro m hm
    obtain ⟨m1, m2⟩ := h4 m hm
    obtain ⟨l1, l2, l3, l4⟩ := finalMolecule_lengths env v hOk m.components
    obtain ⟨c1, c2⟩ := finalMolecule_counts env v m.components
    rw [← m1] at l1 l2 l3 c1 c2
    exact ⟨fun j hj => (m2 j hj).1, by rw [l1, l4], by rw [l2, l4], l3, by rw [c1, l4], c2⟩

theorem regroup_any_map_witness :
    EnvOk exampleEnv 0 ∧ ¬ WellFormed [1, 2, 0] ∧
    (regroupGroup exampleEnv 0 { r := [1, 2, 0], c := [0], p := [0] }
        { r := [], c := [], p := [] }).map
      (fun x => (x.2.r.map (fun m => (m.components, m.aam.length, m.hl_atoms_frag.length,
        m.hl_bonds_frag.length)))) = .ok [([2], 1, 1, 0), ([], 0, 0, 0)] ∧
    ∃ fragments' out,
      regroupGroup exampleEnv 0 { r := [1, 2, 0], c := [0], p := [0] }
          { r := [], c := [], p := [] } = .ok (fragments', { r := out, c := [], p := [] }) ∧
      (out.map (fun m => m.components)).flatten.Nodup := by
  obtain ⟨fragments', out, h1, h2, _⟩ := regroup_any_map exampleEnv 0
    { r := [1, 2, 0], c := [0], p := [0] } { r := [], c := [], p := [] } (by decide)
    (by decide)
  exact ⟨by decide, by decide, by decide, fragments', out, h1, h2⟩

/-! ## C12: single-level forwarding -/

theorem forwardsTo_identity (lds : List Nat) (off n : Nat) :
    ForwardsTo lds off (identityFragments n) := by
  refine ⟨fun l hl _ => ?_, fun i hi => Or.inl ?_⟩
  · rw [length_identityFragments] at hl
    rw [getElem?_identityFragments, if_pos hl]
  · rw [length_identityFragments] at hi
    rw [getElem?_identityFragments, if_pos hi]

theorem forwardsTo_set (lds : List Nat) (off : Nat) (m : List Int) (l x : Nat)
    (h : ForwardsTo lds off m) (hl : l < m.length) (hlds : l + off ∈ lds)
    (hx : x < m.length) (hxn : x + off ∉ lds) :
    ForwardsTo lds off (m.set x (l : Int)) := by
  obtain ⟨h1, h2⟩ := h
  refine ⟨fun l0 hl0 hm => ?_, fun i hi => ?_⟩
  · rw [List.length_set] at hl0
    have hne : x ≠ l0 := fun e => hxn (by rw [e]; exact hm)
    rw [List.getElem?_set_ne hne]
    exact h1 l0 hl0 hm
  · rw [List.length_set] at hi
    by_cases hxi : x = i
    · subst hxi
      right
      exact ⟨l, by rw [List.length_set]; exact hl, hlds, by rw [List.getElem?_set_self hx]⟩
    · rw [List.getElem?_set_ne hxi]
      rcases h2 i hi with h | ⟨l', a, b, c⟩
      · exact Or.inl h
      · exact Or.inr ⟨l', by rw [List.length_set]; exact a, b, c⟩

theorem forwardsTo_foldl (lds : List Nat) (off l : Nat) (hlds : l + off ∈ lds)
    (pos : Nat → Nat) : ∀ (xs : List Nat) (m : List Int), ForwardsTo lds off m →
    l < m.length → (∀ x ∈ xs, pos x < m.length ∧ pos x + off ∉ lds) →
    ForwardsTo lds off (xs.foldl (fun (m : List Int) (x : Nat) => m.set (pos x) (l : Int)) m) := by
  intro xs
  induction xs with
  | nil => intro m h _ _; exact h
  | cons x xs ih =>
    intro m h hl hxs
    rw [List.foldl_cons]
    obtain ⟨a, b⟩ := hxs x (List.mem_cons_self _ _)
    apply ih
    · exact forwardsTo_set lds off m l (pos x) h hl hlds a b
    · rw [List.length_set]; exact hl
    · intro y hy
      rw [List.length_set]
      exact hxs y (List.mem_cons_of_mem _ hy)

theorem singleLevel_of_forwardsTo (lds : List Nat) (off : Nat) (m : List Int)
    (h : ForwardsTo lds off m) : SingleLevel m := by
  intro i hi
  rcases h.2 i hi with h1 | ⟨l, hl, hm, h1⟩
  · have e : m.getD i 0 = (i : Int) := by
      rw [List.getD_eq_getElem?_getD, h1]; rfl
    rw [e]
    refine ⟨by omega, ?_⟩
    rw [Int.toNat_ofNat, e]
  · have e : m.getD i 0 = (l : Int) := by
      rw [List.getD_eq_getElem?_getD, h1]; rfl
    rw [e]
    refine ⟨by omega, ?_⟩
    rw [Int.toNat_ofNat, List.getD_eq_getElem?_getD, h.1 l hl hm]
    rfl

theorem bucketOf_cases (r c x : Nat) :
    (x < r ∧ bucketOf r c x = 0) ∨ (r ≤ x ∧ x < r + c ∧ bucketOf r c x = 1) ∨
    (r + c ≤ x ∧ bucketOf r c x = 2) := by
  unfold bucketOf
  by_cases h0 : x < r
  · rw [if_pos h0]; exact Or.inl ⟨h0, rfl⟩
  · rw [if_neg h0]
    by_cases h1 : x < r + c
    · rw [if_pos h1]; exact Or.inr (Or.inl ⟨by omega, h1, rfl⟩)
    · rw [if_neg h1]; exact Or.inr (Or.inr ⟨by omega, rfl⟩)

/-- One entry of an `f` directive that names a lead of `lds` and leaves outside `lds`, in
the group of the lead: the resolver accepts it, its writes are in range, and the maps
forward to `lds` as before. -/
theorem entry_step (lds : List Nat) (fr : Groups (List Int)) (L : Nat) (xs : List Nat)
    (h : MapsForwardTo lds fr) (hL : L ∈ lds)
    (hLt : L < fr.r.length + fr.c.length + fr.p.length)
    (hxs : ∀ x ∈ xs, x ∉ lds ∧ x < fr.r.length + fr.c.length + fr.p.length ∧
      bucketOf fr.r.length fr.c.length x = bucketOf fr.r.length fr.c.length L) :
    ∃ (G : Nat) (lead : Int),
      _selectGroup L fr.r.length fr.c.length fr.p.length = .ok (G, lead) ∧
      (∀ x ∈ xs, 0 ≤ (x : Int) - precedingSize fr.r.length fr.c.length G ∧
        ((x : Int) - precedingSize fr.r.length fr.c.length G).toNat < (fr.get G).length) ∧
      MapsForwardTo lds (fr.set G (xs.foldl (fun (m : List Int) (x : Nat) =>
        m.set ((x : Int) - precedingSize fr.r.length fr.c.length G).toNat lead) (fr.get G))) ∧
      (fr.set G (xs.foldl (fun (m : List Int) (x : Nat) =>
        m.set ((x : Int) - precedingSize fr.r.length fr.c.length G).toNat lead)
          (fr.get G))).r.length = fr.r.length ∧
      (fr.set G (xs.foldl (fun (m : List Int) (x : Nat) =>
        m.set ((x : Int) - precedingSize fr.r.length fr.c.length G).toNat lead)
          (fr.get G))).c.length = fr.c.length ∧
      (fr.set G (xs.foldl (fun (m : List Int) (x : Nat) =>
        m.set ((x : Int) - precedingSize fr.r.length fr.c.length G).toNat lead)
          (fr.get G))).p.length = fr.p.length := by
  obtain ⟨h0, h1, h2⟩ := h
  rw [selectGroup_eq]
  by_cases c0 : L < fr.r.length
  · have hb : bucketOf fr.r.length fr.c.length L = 0 := by
      unfold bucketOf; rw [if_pos c0]
    have hx : ∀ x ∈ xs, x < fr.r.length ∧ x ∉ lds := by
      intro x hxm
      obtain ⟨a, _, b⟩ := hxs x hxm
      rw [hb] at b
      rcases bucketOf_cases fr.r.length fr.c.length x with ⟨q, _⟩ | ⟨_, _, q⟩ | ⟨_, q⟩
      · exact ⟨q, a⟩
      · omega
      · omega
    refine ⟨0, (L : Int), by rw [if_pos (by omega)], ?_, ?_, ?_, rfl, rfl⟩
    · intro x hxm
      have := (hx x hxm).1
      simp only [precedingSize, Groups.get]
      omega
    · have hf := forwardsTo_foldl lds 0 L (by simpa using hL)
        (fun x => ((x : Int) - precedingSize fr.r.length fr.c.length 0).toNat) xs fr.r h0 c0
        (by
          intro x hxm
          obtain ⟨a, b⟩ := hx x hxm
          simp only [precedingSize]
          have e : ((x : Int) - 0).toNat = x := by omega
          rw [e]
          exact ⟨a, by simpa using b⟩)
      refine ⟨hf, ?_, ?_⟩
      · simp only [Groups.set, Groups.get]
        rw [foldl_set_length]
        exact h1
      · simp only [Groups.set, Groups.get]
        rw [foldl_set_length]
        exact h2
    · simp only [Groups.set, Groups.get]
      rw [foldl_set_length]
  by_cases c1 : L < fr.r.length + fr.c.length
  · have hb : bucketOf fr.r.length fr.c.length L = 1 := by
      unfold bucketOf; rw [if_neg c0, if_pos c1]
    have hx : ∀ x ∈ xs, fr.r.length ≤ x ∧ x < fr.r.length + fr.c.length ∧ x ∉ lds := by
      intro x hxm
      obtain ⟨a, _, b⟩ := hxs x hxm
      rw [hb] at b
      rcases bucketOf_cases fr.r.length fr.c.length x with ⟨_, q⟩ | ⟨q1, q2, _⟩ | ⟨_, q⟩
      · omega
      · exact ⟨q1, q2, a⟩
      · omega
    have hlead : (L : Int) - (fr.r.length : Int) = ((L - fr.r.length : Nat) : Int) := by omega
    refine ⟨1, (L : Int) - fr.r.length, by rw [if_neg (by omega), if_pos (by omega)],
      ?_, ?_, rfl, ?_, rfl⟩
    · intro x hxm
      obtain ⟨a, b, _⟩ := hx x hxm
      simp only [precedingSize, Groups.get]
      omega
    · rw [hlead]
      have hf := forwardsTo_foldl lds fr.r.length (L - fr.r.length)
        (by have e : L - fr.r.length + fr.r.length = L := by omega
            rw [e]; exact hL)
        (fun x => ((x : Int) - precedingSize fr.r.length fr.c.length 1).toNat) xs fr.c h1
        (by omega)
        (by
          intro x hxm
          obtain ⟨a, b, c⟩ := hx x hxm
          simp only [precedingSize]
          have e : ((x : Int) - (fr.r.length : Int)).toNat + fr.r.length = x := by omega
          rw [e]
          exact ⟨by omega, c⟩)
      refine ⟨h0, hf, ?_⟩
      simp only [Groups.set, Groups.get]
      rw [foldl_set_length]
      exact h2
    · simp only [Groups.set, Groups.get]
      rw [foldl_set_length]
  · have hb : bucketOf fr.r.length fr.c.length L = 2 := by
      unfold bucketOf; rw [if_neg c0, if_neg c1]
    have hx : ∀ x ∈ xs, fr.r.length + fr.c.length ≤ x ∧
        x < fr.r.length + fr.c.length + fr.p.length ∧ x ∉ lds := by
      intro x hxm
      obtain ⟨a, a', b⟩ := hxs x hxm
      rw [hb] at b
      rcases bucketOf_cases fr.r.length fr.c.length x with ⟨_, q⟩ | ⟨_, _, q⟩ | ⟨q, _⟩
      · omega
      · omega
      · exact ⟨q, a', a⟩
    have hlead : (L : Int) - (fr.r.length : Int) - (fr.c.length : Int) =
        ((L - (fr.r.length + fr.c.length) : Nat) : Int) := by omega
    refine ⟨2, (L : Int) - fr.r.length - fr.c.length,
      by rw [if_neg (by omega), if_neg (by omega), if_pos (by omega)], ?_, ?_, rfl, rfl, ?_⟩
    · intro x hxm
      obtain ⟨a, b, _⟩ := hx x hxm
      simp only [precedingSize, Groups.get]
      omega
    · rw [hlead]
      have hf := forwardsTo_foldl lds (fr.r.length + fr.c.length)
        (L - (fr.r.length + fr.c.length))
        (by have e : L - (fr.r.length + fr.c.length) + (fr.r.length + fr.c.length) = L := by
              omega
            rw [e]; exact hL)
        (fun x => ((x : Int) - precedingSize fr.r.length fr.c.length 2).toNat) xs fr.p h2
        (by omega)
        (by
          intro x hxm
          obtain ⟨a, b, c⟩ := hx x hxm
          simp only [precedingSize]
          have e : ((x : Int) - ((fr.r.length : Int) + (fr.c.length : Int))).toNat +
              (fr.r.length + fr.c.length) = x := by omega
          rw [e]
          exact ⟨by omega, c⟩)
      exact ⟨h0, h1, hf⟩
    · simp only [Groups.set, Groups.get]
      rw [foldl_set_length]

theorem length_leafText (xs : List Nat) : xs.length ≤ (leafText xs).length := by
  induction xs with
  | nil => simp [leafText]
  | cons y ys ih => simp [leafText]; omega

/-- One pass of the entry loop over an entry that names a lead of `lds` and leaves outside
`lds`. -/
theorem entry_run (lds : List Nat) (fr : Groups (List Int)) (L : Nat) (xs : List Nat)
    (tail : Scanner) (k : Nat)
    (h : MapsForwardTo lds fr) (hL : L ∈ lds)
    (hLt : L < fr.r.length + fr.c.length + fr.p.length)
    (hxs : ∀ x ∈ xs, x ∉ lds ∧ x < fr.r.length + fr.c.length + fr.p.length ∧
      bucketOf fr.r.length fr.c.length x = bucketOf fr.r.length fr.c.length L)
    (hdig : isdigit (Scanner.lookNext tail) = false)
    (hdot : Scanner.lookNext tail ≠ some '.') :
    ∃ fr1, entryLoop (k + 1) (decimal L ++ (leafText xs ++ tail)) fr =
        entryLoop k (if Scanner.lookNext tail = some ',' then Scanner.skip tail 1 else tail) fr1 ∧
      MapsForwardTo lds fr1 ∧ fr1.r.length = fr.r.length ∧ fr1.c.length = fr.c.length ∧
      fr1.p.length = fr.p.length := by
  obtain ⟨G, lead, hsel, hx', hmaps, l0, l1, l2⟩ := entry_step lds fr L xs h hL hLt hxs
  have hpair : ∀ other : Int, _selectGroupByPair L other fr.r.length fr.c.length fr.p.length =
      .ok (G, lead, other - precedingSize fr.r.length fr.c.length G) :=
    fun other => (selectGroupByPair_of_selectGroup _ other _ _ _ G lead hsel).1
  have hnext : isdigit (Scanner.lookNext (leafText xs ++ tail)) = false := by
    cases xs with
    | nil => simpa [leafText] using hdig
    | cons y ys => simp [leafText, isdigit, Scanner.lookNext]
  have hxl : xs.length < (leafText xs ++ tail).length + 1 := by
    have := length_leafText xs
    rw [List.length_append]
    omega
  refine ⟨_, ?_, hmaps, l0, l1, l2⟩
  conv => lhs; unfold entryLoop
  rw [isdigit_decimal_append, if_pos rfl, readUnsigned_decimal L _ hnext]
  simp only
  rw [leafLoop_text L G lead _ xs _ tail fr hxl hdot hdig hpair hx']

theorem entriesText_cons (e : Nat × List Nat) (es : List (Nat × List Nat)) (rest : Scanner) :
    entriesText (e :: es) ++ rest = decimal e.1 ++ (leafText e.2 ++
      (if es = [] then rest else ',' :: (entriesText es ++ rest))) := by
  cases es with
  | nil => simp [entriesText]
  | cons e' es' => simp [entriesText]

theorem entryLoop_entries (lds : List Nat) :
    ∀ (es : List (Nat × List Nat)) (fuel : Nat) (rest : Scanner) (fr : Groups (List Int)),
      es.length < fuel → isdigit (Scanner.lookNext rest) = false →
      Scanner.lookNext rest ≠ some '.' → Scanner.lookNext rest ≠ some ',' →
      MapsForwardTo lds fr → EntriesOk lds fr.r.length fr.c.length fr.p.length es →
      ∃ fr', entryLoop fuel (entriesText es ++ rest) fr = .ok (rest, fr') ∧
        MapsForwardTo lds fr' ∧ fr'.r.length = fr.r.length ∧ fr'.c.length = fr.c.length ∧
        fr'.p.length = fr.p.length := by
  intro es
  induction es with
  | nil =>
    intro fuel rest fr hf hdig _ _ hm _
    obtain ⟨k, rfl⟩ : ∃ k, fuel = k + 1 := ⟨fuel - 1, by simp at hf; omega⟩
    refine ⟨fr, ?_, hm, rfl, rfl, rfl⟩
    rw [entriesText, List.nil_append, entryLoop, hdig]
    simp
  | cons e es ih =>
    intro fuel rest fr hf hdig hdot hcomma hm hok
    obtain ⟨k, rfl⟩ : ∃ k, fuel = k + 1 := ⟨fuel - 1, by simp at hf; omega⟩
    have hlen : es.length < k := by simpa using hf
    obtain ⟨hL, hLt, hxs⟩ := hok e (List.mem_cons_self _ _)
    rw [entriesText_cons]
    by_cases hes : es = []
    · subst hes
      rw [if_pos rfl]
      obtain ⟨fr1, h1, m1, a, b, c⟩ := entry_run lds fr e.1 e.2 rest k hm hL hLt hxs hdig hdot
      rw [h1, if_neg hcomma]
      obtain ⟨fr', h2, m2, a', b', c'⟩ := ih k rest fr1 hlen hdig hdot hcomma m1
        (fun e' he' => by cases he')
      rw [entriesText, List.nil_append] at h2
      exact ⟨fr', h2, m2, by rw [a', a], by rw [b', b], by rw [c', c]⟩
    · rw [if_neg hes]
      obtain ⟨fr1, h1, m1, a, b, c⟩ := entry_run lds fr e.1 e.2
        (',' :: (entriesText es ++ rest)) k hm hL hLt hxs rfl
        (by intro hq; simp [Scanner.lookNext] at hq)
      have hl : Scanner.lookNext (',' :: (entriesText es ++ rest)) = some ',' := rfl
      have hk : Scanner.skip (',' :: (entriesText es ++ rest)) 1 = entriesText es ++ rest := rfl
      rw [h1, if_pos hl, hk]
      obtain ⟨fr', h2, m2, a', b', c'⟩ := ih k rest fr1 hlen hdig hdot hcomma m1
        (by
          rw [a, b, c]
          exact fun e' he' => hok e' (List.mem_cons_of_mem _ he'))
      exact ⟨fr', h2, m2, by rw [a', a], by rw [b', b], by rw [c', c]⟩

theorem length_entriesText (es : List (Nat × List Nat)) : es.length ≤ (entriesText es).length := by
  induction es with
  | nil => simp [entriesText]
  | cons e es ih =>
    have h := entriesText_cons e es []
    rw [List.append_nil] at h
    rw [h]
    have := length_decimal_pos e.1
    by_cases hes : es = []
    · subst hes
      simp only [List.length_cons, List.length_nil, List.length_append]
      omega
    · rw [if_neg hes]
      simp only [List.length_cons, List.length_append, List.append_nil]
      omega

/-- Every directive other than `f` leaves the forwarding maps as they are. -/
theorem directive_fragments (_rxn : Bool) (c : Char) (s : Scanner) (st : State)
    (hc : c ≠ 'f') (s' : Scanner) (st' : State)
    (h : directive _rxn c s st = .ok (s', st')) : st'.fragments = st.fragments := by
  have hcl : ∀ (body : Nat → State → Except Error State) (s0 : Scanner) (st0 : State),
      (∀ g st1 st2, body g st1 = .ok st2 → st2.fragments = st1.fragments) →
      colonList body s0 st0 = .ok (s', st') → st'.fragments = st0.fragments := by
    intro body s0 st0 hb hrun
    exact ((colonList_outcome body (fun _ => True) (fun st1 => st1.fragments = st0.fragments)
      trivial trivial trivial (fun _ _ _ _ => trivial)
      (fun g st1 st2 h1 h2 => (hb g st1 st2 h2).trans h1) s0 st0 rfl).2 s' st' hrun).2
  have hst : ∀ call g st1 st2, stereoBody call g st1 = .ok st2 →
      st2.fragments = st1.fragments :=
    fun call g st1 st2 h => ((stereoBody_outcome call g st1).2 st2 h).1
  unfold directive at h
  by_cases h1 : c = 'w'
  · rw [if_pos h1] at h
    exact hcl _ s st (hst _) h
  rw [if_neg h1] at h
  by_cases h2 : c = 'a'
  · rw [if_pos h2] at h
    exact hcl _ s st (hst _) h
  rw [if_neg h2] at h
  by_cases h3 : c = 'o'
  · rw [if_pos h3] at h
    cases hu : Scanner.readUnsigned s with
    | error e => rw [hu] at h; cases h
    | ok x =>
      obtain ⟨n, s1⟩ := x
      rw [hu] at h
      exact hcl _ s1 st (hst _) h
  rw [if_neg h3] at h
  by_cases h4 : c = '&'
  · rw [if_pos h4] at h
    cases hu : Scanner.readUnsigned s with
    | error e => rw [hu] at h; cases h
    | ok x =>
      obtain ⟨n, s1⟩ := x
      rw [hu] at h
      exact hcl _ s1 st (hst _) h
  rw [if_neg h4] at h
  by_cases h5 : c = '^'
  · rw [if_pos h5] at h
    cases hu : Scanner.readIntFix1 s with
    | error e => rw [hu] at h; cases h
    | ok x =>
      obtain ⟨rad, s1⟩ := x
      rw [hu] at h
      simp only at h
      cases hr : radicalOfInt rad with
      | error e => rw [hr] at h; cases h
      | ok r =>
        rw [hr] at h
        exact hcl _ s1 st
          (fun g st1 st2 hb => ((radicalBody_outcome _rxn r g st1).2 st2 hb).1) h
  rw [if_neg h5, if_neg hc] at h
  by_cases h7 : c = '$'
  · rw [if_pos h7] at h
    exact ((pseudoLoop_outcome _rxn _ _ s st).2 s' st' h).2
  rw [if_neg h7] at h
  by_cases h8 : c = 'h'
  · rw [if_pos h8] at h
    cases s with
    | nil => cases h
    | cons c2 s1 =>
      simp only [Scanner.readChar] at h
      by_cases h9 : c2 ≠ 'a' ∧ c2 ≠ 'b'
      · rw [if_pos h9] at h; cases h
      · rw [if_neg h9] at h
        exact hcl _ s1 { st with have_highlighting := true }
          (fun g st1 st2 hb => ((highlightBody_outcome _ g st1).2 st2 hb).1) h
  rw [if_neg h8] at h
  injection h with h
  injection h with _ h
  rw [← h]

/-- C12, counterexample: the block `f:0.1,1.2` on the identity maps of three reactant
components writes `map[1] = 0` and then `map[2] = 1`, so component 2 forwards to
component 1, which is a leaf of component 0: `map[map[2]] = 0` and `map[2] = 1`. The
interpreter and the loader accept the block. -/
theorem single_level_counterexample :
    exampleState.fragments.r = [0, 1, 2] ∧
    (annotationBlock true true "f:0.1,1.2|".toList exampleState).map
      (fun x => x.2.fragments.r) = .ok [0, 0, 1] ∧
    ([0, 0, 1] : List Int).getD 2 0 = 1 ∧
    ([0, 0, 1] : List Int).getD (([0, 0, 1] : List Int).getD 2 0).toNat 0 = 0 ∧
    ¬ SingleLevel [0, 0, 1] ∧
    (loadReaction exampleCollaborators false false "C.C.C>NN>C|f:0.1,1.2|".toList).map
      (fun brxn => brxn.r.map (fun m => m.components)) = .ok [[0, 1], []] := by
  refine ⟨by decide, by decide, by decide, by decide, by decide, by decide⟩

/-- C12, amended: let `lds` be a set of components such that every `f` entry of the block
names a component of `lds` as its lead and components outside `lds` as its leaves (each
in the group of the lead, all below the total component count), so that no component is
both a lead and a leaf. The identity-initialised maps forward to `lds` only; a directive
other than `f` leaves the maps as they are; an `f` directive with such entries is
processed without error and leaves maps that forward to `lds` only; and in maps that
forward to `lds` only every entry points directly at a lead: `map[map[i]] = map[i]` for
every component `i` of every group. -/
theorem single_level_forwarding (lds : List Nat) :
    (∀ (mols : Groups BaseMolecule) (decomp : Groups (List (List Nat))),
      MapsForwardTo lds (initialState mols decomp).fragments) ∧
    (∀ (_rxn : Bool) (c : Char) (s : Scanner) (st : State) (s' : Scanner) (st' : State),
      c ≠ 'f' → directive _rxn c s st = .ok (s', st') → st'.fragments = st.fragments) ∧
    (∀ (_rxn : Bool) (fuel : Nat) (es : List (Nat × List Nat)) (rest : Scanner) (st : State),
      MapsForwardTo lds st.fragments →
      EntriesOk lds st.fragments.r.length st.fragments.c.length st.fragments.p.length es →
      isdigit (Scanner.lookNext rest) = false → Scanner.lookNext rest ≠ some '.' →
      Scanner.lookNext rest ≠ some ',' →
      ∃ fragments',
        directiveLoop _rxn (fuel + 1) ('f' :: ':' :: (entriesText es ++ rest)) st =
          directiveLoop _rxn fuel rest { st with fragments := fragments' } ∧
        MapsForwardTo lds fragments' ∧
        fragments'.r.length = st.fragments.r.length ∧
        fragments'.c.length = st.fragments.c.length ∧
        fragments'.p.length = st.fragments.p.length) ∧
    (∀ fragments : Groups (List Int), MapsForwardTo lds fragments →
      SingleLevel fragments.r ∧ SingleLevel fragments.c ∧ SingleLevel fragments.p) := by
  refine ⟨fun mols decomp => ?_, fun _rxn c s st s' st' hc h =>
    directive_fragments _rxn c s st hc s' st' h, ?_, fun fragments h =>
    ⟨singleLevel_of_forwardsTo _ _ _ h.1, singleLevel_of_forwardsTo _ _ _ h.2.1,
      singleLevel_of_forwardsTo _ _ _ h.2.2⟩⟩
  · exact ⟨forwardsTo_identity _ _ _, forwardsTo_identity _ _ _, forwardsTo_identity _ _ _⟩
  · intro _rxn fuel es rest st hm hok hdig hdot hcomma
    obtain ⟨fr', h1, h2, a, b, c⟩ := entryLoop_entries lds es
      ((entriesText es ++ rest).length + 1) rest st.fragments
      (by have := length_entriesText es; rw [List.length_append]; omega)
      hdig hdot hcomma hm hok
    refine ⟨fr', ?_, h2, a, b, c⟩
    rw [directiveLoop_succ, if_neg (by decide)]
    have e : directive _rxn 'f' (':' :: (entriesText es ++ rest)) st =
        .ok (rest, { st with fragments := fr' }) := by
      unfold directive
      rw [if_neg (by decide), if_neg (by decide), if_neg (by decide), if_neg (by decide),
        if_neg (by decide), if_pos rfl]
      unfold expectColon Scanner.readChar
      simp only [ne_eq, not_true_eq_false, if_false]
      rw [h1]
    rw [e]

theorem single_level_forwarding_witness :
    (annotationBlock true true "f:0.1,0.2|".toList exampleState).map
      (fun x => x.2.fragments.r) = .ok [0, 0, 0] ∧
    ∃ fragments',
      directiveLoop true 20 "f:0.1,0.2|".toList exampleState =
        directiveLoop true 19 "|".toList { exampleState with fragments := fragments' } ∧
      SingleLevel fragments'.r ∧ SingleLevel fragments'.c ∧ SingleLevel fragments'.p := by
  have h := single_level_forwarding [0]
  obtain ⟨fragments', h1, h2, _⟩ := h.2.2.1 true 19 [(0, [1]), (0, [2])] "|".toList
    exampleState (h.1 exampleEnv.mols exampleEnv.decomp) (by decide) (by decide) (by decide)
    (by decide)
  exact ⟨by decide, fragments', h1, h.2.2.2 fragments' h2⟩

/-! ## C19: termination of the annotation interpreter -/

/-- C19, counterexample: annotation blocks with no closing `|` that fail with another
error than `UnexpectedEnd`, because a directive fails before the input ends: `w:9` names
an atom index past the six atoms (`OutOfRange`), `w;` has no colon
(`MalformedDirective`), `^2:5` has no supported radical. -/
theorem unclosed_block_counterexample :
    '|' ∉ "w:9".toList ∧
    annotationBlock true true "w:9".toList exampleState = .error Error.OutOfRange ∧
    annotationBlock true true "w;".toList exampleState = .error Error.MalformedDirective ∧
    annotationBlock true true "^2:5".toList exampleState =
      .error (Error.UnsupportedRadical 2) ∧
    loadReaction exampleCollaborators false false "C.C.C>NN>C|w:9".toList =
      .error Error.OutOfRange := by
  refine ⟨by decide, by decide, by decide, by decide, by decide⟩

/-- C19, amended: the annotation interpreter terminates on every finite input. The
dispatch loop and the inner loops (index list, `.` list, entries of `f`, labels of `$`)
never run out of an iteration bound above the length of their input: every pass reads at
least one character, and the `$` loop is bounded by the atom count. So the interpreter
either returns, having read a closing `|` and standing at a proper suffix of its input,
or fails with an error; in particular an annotation block with no `|` fails rather than
looping, with `UnexpectedEnd` when the dispatch loop reaches the end of the input, or
before that with the error of one of its directives. -/
theorem interpreter_terminates (_rxn : Bool) (s : Scanner) (st : State) :
    annotationBlock _rxn true s st ≠ .error Error.Fuel ∧
    (∀ fuel, s.length < fuel → directiveLoop _rxn fuel s st ≠ .error Error.Fuel) ∧
    (∀ s' st', annotationBlock _rxn true s st = .ok (s', st') →
      '|' ∈ s ∧ s' <:+ s ∧ s'.length < s.length) ∧
    ('|' ∉ s → ∃ e, annotationBlock _rxn true s st = .error e ∧ e ≠ Error.Fuel ∧
      (e = Error.UnexpectedEnd ∨ ∃ c s1 st1, c ≠ '|' ∧ (c :: s1) <:+ s ∧
        directive _rxn c s1 st1 = .error e)) ∧
    annotationBlock _rxn true [] st = .error Error.UnexpectedEnd ∧
    (∀ (body : Nat → State → Except Error State) (fuel : Nat),
      (∀ g st1, body g st1 ≠ .error Error.Fuel) → s.length < fuel →
      indexList body fuel s st ≠ .error Error.Fuel) ∧
    (∀ (idx fuel : Nat), s.length < fuel →
      leafLoop idx fuel s st.fragments ≠ .error Error.Fuel) ∧
    (∀ fuel : Nat, s.length < fuel → entryLoop fuel s st.fragments ≠ .error Error.Fuel) ∧
    (∀ (k : Nat) (is : List Nat), pseudoLoop _rxn k is s st ≠ .error Error.Fuel) := by
  have hblock : annotationBlock _rxn true s st = directiveLoop _rxn (s.length + 1) s st := by
    unfold annotationBlock
    rw [if_pos rfl]
  obtain ⟨d1, d2, d3⟩ := directiveLoop_outcome _rxn (s.length + 1) s st (by omega)
  refine ⟨?_, ?_, ?_, ?_, rfl, ?_, ?_, ?_, ?_⟩
  · rw [hblock]
    exact fun h => d1 _ h rfl
  · intro fuel hf h
    exact (directiveLoop_outcome _rxn fuel s st hf).1 _ h rfl
  · intro s' st' h
    rw [hblock] at h
    obtain ⟨a, b, c⟩ := d2 s' st' h
    exact ⟨c, a, b⟩
  · intro hn
    obtain ⟨e, he, hor⟩ := d3 hn
    exact ⟨e, by rw [hblock]; exact he, d1 e he, hor⟩
  · intro body fuel hb hf h
    exact (indexList_outcome body (fun e => e ≠ Error.Fuel) (fun _ => True)
      (fun h => by cases h) (fun g st1 e he hfe => hb g st1 (by rw [he, hfe]))
      (fun _ _ _ _ _ => trivial) fuel s st hf trivial).1 _ h rfl
  · intro idx fuel hf h
    rcases (leafLoop_outcome idx fuel s st.fragments hf).1 _ h with h | h | h <;> cases h
  · intro fuel hf h
    rcases (entryLoop_outcome fuel s st.fragments hf).1 _ h with h | h | h <;> cases h
  · intro k is h
    exact (pseudoLoop_outcome _rxn k is s st).1 _ h rfl

theorem interpreter_terminates_witness :
    annotationBlock true true "ha:3".toList exampleState = .error Error.UnexpectedEnd ∧
    (∃ e, annotationBlock true true "w:1,2f:0.1".toList exampleState = .error e ∧
      e ≠ Error.Fuel) ∧
    annotationBlock true true "w:1,2f:0.1|".toList exampleState ≠ .error Error.Fuel := by
  have h := interpreter_terminates true "w:1,2f:0.1".toList exampleState
  have h' := interpreter_terminates true "w:1,2f:0.1|".toList exampleState
  obtain ⟨e, he, hne, _⟩ := h.2.2.2.1 (by decide)
  exact ⟨by decide, ⟨e, he, hne⟩, h'.1⟩

end RSmilesLoader
